import Mathlib

/-!
Shallow embedding of the core pipeline of the student-analytics-dashboard
repository: CSV parsing and normalization (js/csvParser.js), rule-based risk
scoring (js/riskDetection.js), the analytics aggregations (js/analytics.js),
the filter/sort engine (js/filters.js), and the CSV re-serialization used for
export (the utility file, function downloadCSV).

Modelling conventions:
 - JavaScript numbers are modelled as exact rationals.  Number-producing
   string coercions (parseFloat, ToNumber) are modelled for decimal literals;
   exponent notation, hexadecimal literals and the Infinity values are out of
   scope and behave like NaN (which is modelled as Option.none).
 - JavaScript values that can live in a parsed record are a tagged union:
   null, number, string, or an array of strings (only used for riskFactors).
 - JavaScript objects are insertion-ordered association lists with distinct
   keys; property assignment keeps the position of an existing key and
   appends a fresh key at the end, exactly as Object.keys order behaves.
 - String.prototype.localeCompare is modelled as code-point comparison.
 - Thrown exceptions are modelled with Except.
-/

namespace StudentAnalytics

/-- Model of a JavaScript value stored in a parsed record: null, a number
(exact rational), a string, or an array of strings (used for riskFactors). -/
inductive JSVal : Type where
  | null : JSVal
  | num : ℚ → JSVal
  | str : String → JSVal
  | strList : List String → JSVal
deriving DecidableEq, Repr

/-- A JavaScript object modelled as an insertion-ordered association list. -/
abbrev Row := List (String × JSVal)

/-- Property read, models row[k] (None stands for undefined). -/
def getF : Row → String → Option JSVal
  | [], _ => none
  | (k, v) :: r, key => if k = key then some v else getF r key

/-- Property write, models row[k] = v: an existing key keeps its position,
a fresh key is appended at the end (JS object insertion order). -/
def setF : Row → String → JSVal → Row
  | [], key, val => [(key, val)]
  | (k, v) :: r, key, val =>
      if k = key then (k, val) :: r else (k, v) :: setF r key val

/-- JavaScript truthiness of a value. -/
def truthy : JSVal → Bool
  | .null => false
  | .num q => q ≠ 0
  | .str s => s ≠ ""
  | .strList _ => true

/-- Truthiness of a possibly-undefined value. -/
def truthyO : Option JSVal → Bool
  | none => false
  | some v => truthy v

/-- Whitespace recognized by the model of String.prototype.trim (the common
whitespace characters; the exotic Unicode space classes are out of scope). -/
def jsWhitespace (c : Char) : Bool :=
  c = ' ' || c = '\t' || c = '\n' || c = '\r'

/-- Model of String.prototype.trim on a character list. -/
def jsTrim (cs : List Char) : List Char :=
  ((cs.dropWhile jsWhitespace).reverse.dropWhile jsWhitespace).reverse

/-- Model of String.prototype.split with a one-character separator. -/
def splitOnChar (sep : Char) : List Char → List (List Char)
  | [] => [[]]
  | c :: rest =>
      if c = sep then [] :: splitOnChar sep rest
      else
        match splitOnChar sep rest with
        | [] => [[c]]
        | l :: ls => (c :: l) :: ls

/-- Model of the regex replacement s.replace of an anchored one-character
pattern at both ends (used with a double quote and with an underscore in the
source): removes at most one occurrence of the character at the start and at
most one at the end. -/
def stripEdge (c : Char) (l : List Char) : List Char :=
  let l1 := if l.head? = some c then l.tail else l
  if l1.getLast? = some c then l1.dropLast else l1

/-- Decimal digit character for a value below ten. -/
def digitChar (n : ℕ) : Char := Char.ofNat (48 + n)

/-- Numeric value of a decimal digit character. -/
def digitVal (c : Char) : ℕ := c.toNat - 48

/-- Decimal digit test. -/
def isDigitChar (c : Char) : Bool := 48 ≤ c.toNat && c.toNat ≤ 57

/-- Value of a list of decimal digit characters, most significant first. -/
def digitsVal (ds : List Char) : ℕ :=
  ds.foldl (fun a c => 10 * a + digitVal c) 0

/-- Decimal digits of a natural number, with explicit fuel. -/
def natDigitsAux : ℕ → ℕ → List Char
  | 0, _ => []
  | fuel + 1, n =>
      if n = 0 then [] else natDigitsAux fuel (n / 10) ++ [digitChar (n % 10)]

/-- Decimal digit list of a natural number (zero prints as "0"). -/
def natToDigits (n : ℕ) : List Char :=
  if n = 0 then ['0'] else natDigitsAux (n + 1) n

/-- Decimal string of a natural number. -/
def natToString (n : ℕ) : String := String.mk (natToDigits n)

/-- Splits the longest prefix of decimal digits off a character list. -/
def takeDigits : List Char → List Char × List Char
  | [] => ([], [])
  | c :: rest =>
      if isDigitChar c then
        let (d, r) := takeDigits rest
        (c :: d, r)
      else ([], c :: rest)

/-- Parses an unsigned decimal literal prefix (digits, optionally a dot and
more digits), returning its value and the unconsumed rest.  None models
NaN. -/
def parseUnsigned (cs : List Char) : Option (ℚ × List Char) :=
  match (takeDigits cs).2 with
  | '.' :: r =>
      if (takeDigits cs).1.isEmpty && (takeDigits r).1.isEmpty then none
      else some ((digitsVal (takeDigits cs).1 : ℚ) +
        (digitsVal (takeDigits r).1 : ℚ) / (10 : ℚ) ^ (takeDigits r).1.length,
        (takeDigits r).2)
  | _ =>
      if (takeDigits cs).1.isEmpty then none
      else some ((digitsVal (takeDigits cs).1 : ℚ), (takeDigits cs).2)

/-- Parses an optionally signed decimal literal prefix.  None models NaN. -/
def parseNumPrefix (cs : List Char) : Option (ℚ × List Char) :=
  match cs with
  | [] => parseUnsigned []
  | c :: r =>
      if c = '-' then (parseUnsigned r).map (fun p => (-p.1, p.2))
      else if c = '+' then parseUnsigned r
      else parseUnsigned (c :: r)

/-- Model of the global parseFloat: skip leading whitespace, then take the
longest numeric-literal prefix; no prefix parses gives NaN (none). -/
def jsParseFloat (s : String) : Option ℚ :=
  (parseNumPrefix (s.data.dropWhile jsWhitespace)).map Prod.fst

/-- Model of ToNumber on a string: trimmed empty string is 0, otherwise the
whole trimmed string must be a numeric literal, else NaN (none). -/
def jsToNumber (s : String) : Option ℚ :=
  let t := jsTrim s.data
  if t.isEmpty then some 0
  else
    match parseNumPrefix t with
    | some (q, []) => some q
    | _ => none

/-- Model of ToNumber on a value (none models NaN). -/
def jsCoerceNum : JSVal → Option ℚ
  | .null => some 0
  | .num q => some q
  | .str s => jsToNumber s
  | .strList [] => some 0
  | .strList [s] => jsToNumber s
  | .strList _ => none

/-- Models the JavaScript expression (v || 0) for a possibly-undefined v. -/
def jsOrZero (v : Option JSVal) : JSVal :=
  match v with
  | none => .num 0
  | some w => if truthy w then w else .num 0

/-- Models a JavaScript relational comparison v < c with a number literal on
the right: the left value is coerced with ToNumber and NaN compares false. -/
def jsLtN (v : JSVal) (c : ℚ) : Bool :=
  match jsCoerceNum v with
  | some q => decide (q < c)
  | none => false

/-- Models v <= c with ToNumber coercion, NaN comparing false. -/
def jsLeN (v : JSVal) (c : ℚ) : Bool :=
  match jsCoerceNum v with
  | some q => decide (q ≤ c)
  | none => false

/-- Models v >= c with ToNumber coercion, NaN comparing false. -/
def jsGeN (v : JSVal) (c : ℚ) : Bool :=
  match jsCoerceNum v with
  | some q => decide (q ≥ c)
  | none => false

/-- Fractional decimal digits of a rational in [0, 1), with fuel; stops at
zero remainder, so no trailing zeros are produced. -/
def fracDigitsAux : ℕ → ℚ → List Char
  | 0, _ => []
  | fuel + 1, r =>
      if r = 0 then []
      else
        let r10 := r * 10
        let d := (Rat.floor r10).toNat
        digitChar d :: fracDigitsAux fuel (r10 - (d : ℚ))

/-- Decimal string of a nonnegative rational (exact when the denominator
divides a power of ten, which holds for every number the parser produces). -/
def numToStringNN (q : ℚ) : String :=
  let ip := (Rat.floor q).toNat
  let fr := q - (ip : ℚ)
  if fr = 0 then natToString ip
  else natToString ip ++ "." ++ String.mk (fracDigitsAux q.den fr)

/-- Model of JavaScript number-to-string conversion for the numbers the
pipeline produces. -/
def numToString (q : ℚ) : String :=
  if q < 0 then "-" ++ numToStringNN (-q) else numToStringNN q

/-- String produced when a value is interpolated into a template literal or
joined into a CSV line: numbers print decimally, null prints "null" (only
reachable through templates), arrays join with commas. -/
def jsTemplate : JSVal → String
  | .null => "null"
  | .num q => numToString q
  | .str s => s
  | .strList l => String.intercalate "," l

/-- Model of parseFloat applied to an arbitrary value (the source calls
parseFloat on already-cleaned values): numbers pass through, strings parse,
null gives NaN, arrays parse their comma-join. -/
def parseFloatVal : JSVal → Option ℚ
  | .num q => some q
  | .str s => jsParseFloat s
  | .null => none
  | .strList l => jsParseFloat (String.intercalate "," l)

/-- Lowercasing of a string (ASCII case mapping via Char.toLower). -/
def lowerStr (s : String) : String := String.mk (s.data.map Char.toLower)

/-- Containment of a character in a string. -/
def strContains (s : String) (c : Char) : Bool := s.data.contains c

/-- Prefix test on character lists (needle, haystack). -/
def startsWithL : List Char → List Char → Bool
  | [], _ => true
  | _ :: _, [] => false
  | a :: as, b :: bs => a = b && startsWithL as bs

/-- Model of String.prototype.includes: contiguous substring test. -/
def includesL : List Char → List Char → Bool
  | hay, needle =>
      match hay with
      | [] => needle.isEmpty
      | _ :: rest => startsWithL needle hay || includesL rest needle

/-- String.prototype.includes on strings. -/
def strIncludes (hay needle : String) : Bool := includesL hay.data needle.data

/-! CSV parser (js/csvParser.js, class CSVParser). -/

mutual

/-- State machine of CSVParser.parseCSVLine outside a quoted span: a quote
enters the quoted state, a comma ends the field (pushed trimmed), any other
character is accumulated (the accumulator holds the current field
reversed). -/
def pclOut (cur : List Char) : List Char → List String
  | [] => [String.mk (jsTrim cur.reverse)]
  | '"' :: rest => pclIn cur rest
  | ',' :: rest => String.mk (jsTrim cur.reverse) :: pclOut [] rest
  | c :: rest => pclOut (c :: cur) rest

/-- State machine of CSVParser.parseCSVLine inside a quoted span: a doubled
quote is a literal quote, a single quote leaves the quoted state, commas and
other characters are accumulated. -/
def pclIn (cur : List Char) : List Char → List String
  | [] => [String.mk (jsTrim cur.reverse)]
  | '"' :: '"' :: rest2 => pclIn ('"' :: cur) rest2
  | '"' :: rest => pclOut cur rest
  | c :: rest => pclIn (c :: cur) rest

end

/-- CSVParser.parseCSVLine: split one CSV line into trimmed field values,
honouring double-quoted spans with doubled-quote escapes. -/
def parseCSVLine (line : String) : List String :=
  pclOut [] line.data

/-- Keeps a character if it is a lowercase letter or digit, otherwise
replaces it with an underscore (the replace of CSVParser.normalizeHeader). -/
def underscoreNonAlnum (c : Char) : Char :=
  if ('a' ≤ c && c ≤ 'z') || ('0' ≤ c && c ≤ '9') then c else '_'

/-- Collapses runs of underscores to a single underscore; the flag records
whether the previous kept character was an underscore. -/
def collapseUAux : Bool → List Char → List Char
  | _, [] => []
  | prevU, c :: rest =>
      if c = '_' then
        if prevU then collapseUAux true rest
        else '_' :: collapseUAux true rest
      else c :: collapseUAux false rest

/-- Header synonym table of CSVParser.normalizeHeader. -/
def headerMap : List (String × String) :=
  [("student_id", "studentId"), ("id", "studentId"), ("studentid", "studentId"),
   ("name", "name"), ("student_name", "name"), ("full_name", "name"),
   ("subject", "subject"), ("course", "subject"),
   ("marks", "marks"), ("score", "marks"), ("grade", "marks"),
   ("attendance", "attendance"), ("attendance_percentage", "attendance"),
   ("semester", "semester"), ("term", "semester"),
   ("assessment_type", "assessmentType"), ("assessment", "assessmentType"),
   ("type", "assessmentType")]

/-- Lookup in a string-keyed association list. -/
def lookupStr : List (String × String) → String → Option String
  | [], _ => none
  | (k, v) :: r, key => if k = key then some v else lookupStr r key

/-- CSVParser.normalizeHeader: trim, lowercase, replace characters outside
lowercase alphanumerics with underscores, collapse repeated underscores,
strip one leading and one trailing underscore, then map known synonyms. -/
def normalizeHeader (h : String) : String :=
  let n := String.mk (stripEdge '_'
    (collapseUAux false (((jsTrim h.data).map Char.toLower).map underscoreNonAlnum)))
  match lookupStr headerMap n with
  | some m => m
  | none => n

/-- CSVParser.cleanValue: empty or whitespace-only values become null; one
leading and one trailing double quote are stripped; a value whose parseFloat
is a finite number becomes that number, anything else stays a trimmed
string. -/
def cleanValue (value : String) : JSVal :=
  if jsTrim value.data = [] then .null
  else
    let v := String.mk (stripEdge '"' value.data)
    match jsParseFloat v with
    | some q => .num q
    | none => .str (String.mk (jsTrim v.data))

/-- Clamping used for marks and attendance: Math.max(0, Math.min(100, x)). -/
def clamp100 (q : ℚ) : ℚ := max 0 (min 100 q)

/-- Normalization of the marks / attendance field value performed by
CSVParser.validateAndTransformRow: null or undefined defaults to 0, anything
else is parsed with parseFloat (NaN falls back to 0) and clamped to
[0, 100]. -/
def normalizeScoreVal (v : Option JSVal) : ℚ :=
  match v with
  | none => 0
  | some .null => 0
  | some w =>
      match parseFloatVal w with
      | none => 0
      | some q => clamp100 q

/-- The studentId synthesis step of validateAndTransformRow: a falsy
studentId is replaced by "STU-" plus the row number. -/
def synthIdStage (rowNumber : ℕ) (row : Row) : Row :=
  if truthyO (getF row "studentId") then row
  else setF row "studentId" (.str ("STU-" ++ natToString rowNumber))

/-- The name synthesis step: a falsy name becomes "Student " plus the
(template-interpolated) studentId. -/
def synthNameStage (row : Row) : Row :=
  if truthyO (getF row "name") then row
  else setF row "name"
    (.str ("Student " ++ jsTemplate ((getF row "studentId").getD .null)))

/-- The marks normalization step: row.marks is defaulted, parsed and
clamped. -/
def marksStage (row : Row) : Row :=
  setF row "marks" (.num (normalizeScoreVal (getF row "marks")))

/-- The attendance normalization step. -/
def attStage (row : Row) : Row :=
  setF row "attendance" (.num (normalizeScoreVal (getF row "attendance")))

/-- One of the categorical defaulting steps: a falsy field value receives
the given default string. -/
def defaultStage (k : String) (d : String) (row : Row) : Row :=
  if truthyO (getF row k) then row else setF row k (.str d)

/-- The rowId synthesis step: studentId, subject, semester and the
timestamp joined with dashes. -/
def rowIdStage (now : ℕ) (row : Row) : Row :=
  setF row "rowId" (.str
    (jsTemplate ((getF row "studentId").getD .null) ++ "-" ++
     jsTemplate ((getF row "subject").getD .null) ++ "-" ++
     jsTemplate ((getF row "semester").getD .null) ++ "-" ++
     natToString now))

/-- CSVParser.validateAndTransformRow.  The timestamp of Date.now() is
passed in as now.  A row with neither studentId nor name is rejected with
the row error message; otherwise missing identifiers are synthesized, the
score fields are normalized and clamped, categorical fields receive their
defaults and the synthetic rowId is appended, in source order. -/
def validateAndTransformRow (now : ℕ) (row : Row) (rowNumber : ℕ) :
    Except String Row :=
  if !truthyO (getF row "studentId") && !truthyO (getF row "name") then
    .error ("Row " ++ natToString rowNumber ++ ": Missing student ID or name")
  else
    .ok (rowIdStage now
      (defaultStage "assessmentType" "Exam"
        (defaultStage "semester" "1"
          (defaultStage "subject" "General"
            (attStage (marksStage
              (synthNameStage (synthIdStage rowNumber row))))))))

/-- Builds the raw row object: row[header] = cleanValue(values[index]) for
each header in order (a duplicate header overwrites its earlier value). -/
def buildRow (hs : List String) (vs : List String) : Row :=
  (hs.zip vs).foldl (fun r hv => setF r hv.1 (cleanValue hv.2)) []

/-- The data-row loop of CSVParser.parseCSV: for each line, a column-count
mismatch records a row error, otherwise the row is built, cleaned and
validated; accepted rows and error messages are accumulated in order.
The rowNumber argument is the 1-based line number of the next line. -/
def parseRows (now : ℕ) (nh : List String) :
    ℕ → List String → List Row × List String
  | _, [] => ([], [])
  | rowNumber, line :: rest =>
      let vs := parseCSVLine line
      let de := parseRows now nh (rowNumber + 1) rest
      if vs.length ≠ nh.length then
        (de.1, ("Row " ++ natToString rowNumber ++ ": Column count mismatch") :: de.2)
      else
        match validateAndTransformRow now (buildRow nh vs) rowNumber with
        | .ok row => (row :: de.1, de.2)
        | .error e => (de.1, e :: de.2)

/-- The non-blank lines of the CSV text: split on newline, keep the lines
whose trim is non-empty. -/
def csvLines (csv : String) : List String :=
  ((splitOnChar '\n' csv.data).map String.mk).filter
    (fun l => !(jsTrim l.data).isEmpty)

/-- Joins the row error list the way the thrown message does. -/
def joinErrors (es : List String) : String := String.intercalate "; " es

/-- CSVParser.parseCSV.  Throws when fewer than two non-blank lines exist;
parses the header, normalizes the header names, runs the data-row loop, and
throws when errors were recorded and no row survived; otherwise returns the
accepted rows together with the accumulated row errors (this.errors, as
returned by getErrors). -/
def parseCSV (now : ℕ) (csv : String) :
    Except String (List Row × List String) :=
  match csvLines csv with
  | [] => .error "CSV must have at least a header row and one data row"
  | [_] => .error "CSV must have at least a header row and one data row"
  | headerLine :: dataLines =>
      if (parseRows now ((parseCSVLine headerLine).map normalizeHeader)
            2 dataLines).2.length > 0
          ∧ (parseRows now ((parseCSVLine headerLine).map normalizeHeader)
            2 dataLines).1.length = 0 then
        .error ("Failed to parse CSV: " ++ joinErrors
          (parseRows now ((parseCSVLine headerLine).map normalizeHeader)
            2 dataLines).2)
      else .ok (parseRows now ((parseCSVLine headerLine).map normalizeHeader)
        2 dataLines)

/-! Risk detection (js/riskDetection.js, class RiskDetectionEngine). -/

/-- One entry of the risk rule table. -/
structure RiskRule where
  name : String
  weight : ℚ
  check : Row → Bool

/-- The rule table of RiskDetectionEngine, in declaration order. -/
def riskRules : List RiskRule :=
  [⟨"Low Score", 4/10, fun s => jsLtN (jsOrZero (getF s "marks")) 40⟩,
   ⟨"Very Low Score", 6/10, fun s => jsLtN (jsOrZero (getF s "marks")) 30⟩,
   ⟨"Low Attendance", 3/10, fun s => jsLtN (jsOrZero (getF s "attendance")) 60⟩,
   ⟨"Very Low Attendance", 5/10, fun s => jsLtN (jsOrZero (getF s "attendance")) 50⟩,
   ⟨"Combined Risk", 7/10, fun s =>
      jsLtN (jsOrZero (getF s "marks")) 50 && jsLtN (jsOrZero (getF s "attendance")) 70⟩,
   ⟨"Critical Risk", 9/10, fun s =>
      jsLtN (jsOrZero (getF s "marks")) 35 && jsLtN (jsOrZero (getF s "attendance")) 60⟩]

/-- RiskDetectionEngine.calculateRiskScore: add the weight of every rule
whose check fires, then cap at 1. -/
def calculateRiskScore (s : Row) : ℚ :=
  min 1 (riskRules.foldl (fun acc rule => if rule.check s then acc + rule.weight else acc) 0)

/-- RiskDetectionEngine.getRiskLevel on the raw (pre-rounding) score. -/
def getRiskLevel (riskScore : ℚ) : String :=
  if riskScore ≥ 7/10 then "high"
  else if riskScore ≥ 4/10 then "medium"
  else if riskScore ≥ 2/10 then "low"
  else "none"

/-- Math.round: half-up rounding. -/
def jsRound (q : ℚ) : ℤ := Rat.floor (q + 1/2)

/-- RiskDetectionEngine.getRiskFactors: one score-band message, one
attendance-band message and the combined message, in push order. -/
def getRiskFactors (s : Row) : List String :=
  let m := jsOrZero (getF s "marks")
  let a := jsOrZero (getF s "attendance")
  (if jsLtN m 30 then ["Very low score (<30%)"]
   else if jsLtN m 40 then ["Low score (<40%)"]
   else if jsLtN m 50 then ["Below passing threshold"]
   else []) ++
  (if jsLtN a 50 then ["Very low attendance (<50%)"]
   else if jsLtN a 60 then ["Low attendance (<60%)"]
   else if jsLtN a 70 then ["Below recommended attendance"]
   else []) ++
  (if jsLtN m 50 && jsLtN a 70 then ["Combined low performance"] else [])

/-- Result object of RiskDetectionEngine.assessStudent. -/
structure RiskAssessment where
  riskScore : ℤ
  riskLevel : String
  factors : List String
deriving DecidableEq, Repr

/-- RiskDetectionEngine.assessStudent: the returned riskScore is the raw
score scaled to 0..100 and rounded, the level is taken on the raw score. -/
def assessStudent (s : Row) : RiskAssessment :=
  let rs := calculateRiskScore s
  ⟨jsRound (rs * 100), getRiskLevel rs, getRiskFactors s⟩

/-- RiskDetectionEngine.assessAllStudents: map over the records, spreading
each record and adding riskScore, riskLevel and riskFactors. -/
def assessAllStudents (students : List Row) : List Row :=
  students.map (fun s =>
    let a := assessStudent s
    setF (setF (setF s "riskScore" (.num (a.riskScore : ℚ)))
      "riskLevel" (.str a.riskLevel)) "riskFactors" (.strList a.factors))

/-! Analytics (js/analytics.js and calculatePercentage from the utility
file). -/

/-- calculatePercentage from the utility file: (part / total) * 100 with a
zero guard. -/
def calculatePercentage (part total : ℚ) : ℚ :=
  if total = 0 then 0 else part / total * 100

/-- AnalyticsEngine.getPassRate: percentage of records whose (marks || 0)
is at least the passing threshold 50. -/
def getPassRate (data : List Row) : ℚ :=
  if data.isEmpty then 0
  else calculatePercentage
    ((data.filter (fun d => jsGeN (jsOrZero (getF d "marks")) 50)).length : ℚ)
    (data.length : ℚ)

/-- AnalyticsEngine.getFailRate: 100 - getPassRate. -/
def getFailRate (data : List Row) : ℚ := 100 - getPassRate data

/-- The five score-distribution counters of
AnalyticsEngine.getScoreDistribution. -/
structure ScoreDist where
  b0 : ℕ
  b21 : ℕ
  b41 : ℕ
  b61 : ℕ
  b81 : ℕ
deriving DecidableEq, Repr

/-- Band label assigned to one record by the if-else chain of
getScoreDistribution (score is marks || 0, upper bounds inclusive). -/
def scoreBand (r : Row) : String :=
  let s := jsOrZero (getF r "marks")
  if jsLeN s 20 then "0-20"
  else if jsLeN s 40 then "21-40"
  else if jsLeN s 60 then "41-60"
  else if jsLeN s 80 then "61-80"
  else "81-100"

/-- One step of the forEach of getScoreDistribution. -/
def bumpScore (d : ScoreDist) (r : Row) : ScoreDist :=
  let s := jsOrZero (getF r "marks")
  if jsLeN s 20 then { d with b0 := d.b0 + 1 }
  else if jsLeN s 40 then { d with b21 := d.b21 + 1 }
  else if jsLeN s 60 then { d with b41 := d.b41 + 1 }
  else if jsLeN s 80 then { d with b61 := d.b61 + 1 }
  else { d with b81 := d.b81 + 1 }

/-- AnalyticsEngine.getScoreDistribution: fold the counter object over the
records. -/
def getScoreDistribution (data : List Row) : ScoreDist :=
  data.foldl bumpScore ⟨0, 0, 0, 0, 0⟩

/-! Filter and sort engine (js/filters.js, class FilterEngine). -/

/-- State of the FilterEngine instance: base data, derived view, the four
filter values and the sort key/direction. -/
structure FilterEngine where
  originalData : List Row
  filteredData : List Row
  search : String
  subject : String
  semester : String
  riskLevel : String
  sortKey : String
  sortDir : String
deriving DecidableEq, Repr

/-- The state of the FilterEngine constructor. -/
def initialFilterEngine : FilterEngine :=
  ⟨[], [], "", "", "", "", "name", "asc"⟩

/-- One clause of the search predicate, item.field &&
item.field.toLowerCase().includes(searchLower): a falsy field short-circuits
to false, a truthy string is lowercased and tested, and calling toLowerCase
on a truthy non-string value throws a TypeError. -/
def fieldSearchClause (q : String) (v : Option JSVal) : Except String Bool :=
  match v with
  | none => .ok false
  | some .null => .ok false
  | some (.num n) =>
      if n = 0 then .ok false
      else .error "TypeError: toLowerCase is not a function"
  | some (.str s) => .ok (s ≠ "" && strIncludes (lowerStr s) q)
  | some (.strList _) => .error "TypeError: toLowerCase is not a function"

/-- The search predicate of FilterEngine.applyFilters: name clause, then
studentId clause, then subject clause, short-circuiting on the first truthy
clause; exceptions propagate in evaluation order. -/
def matchSearch (q : String) (r : Row) : Except String Bool :=
  match fieldSearchClause q (getF r "name") with
  | .error e => .error e
  | .ok true => .ok true
  | .ok false =>
      match fieldSearchClause q (getF r "studentId") with
      | .error e => .error e
      | .ok true => .ok true
      | .ok false => fieldSearchClause q (getF r "subject")

/-- Array.prototype.filter with a throwing predicate, in element order. -/
def filterSearch (q : String) : List Row → Except String (List Row)
  | [] => .ok []
  | r :: rest =>
      match matchSearch q r with
      | .error e => .error e
      | .ok b =>
          match filterSearch q rest with
          | .error e => .error e
          | .ok tail => .ok (if b then r :: tail else tail)

/-- A sort key value: the comparator of FilterEngine.sortData dispatches on
whether the extracted value is a string. -/
inductive SortVal : Type where
  | s : String → SortVal
  | n : ℚ → SortVal
deriving DecidableEq, Repr

/-- Converts a record field value used as a sort key: strings stay strings
(so a string score is compared as a string), numbers stay numbers; an array
value enters the numeric subtraction path whose NaN comparator result is
treated as 0, approximated here as the number 0. -/
def toSortVal : JSVal → SortVal
  | .num q => .n q
  | .str s => .s s
  | .strList _ => .n 0
  | .null => .n 0

/-- Models the JavaScript expression (v || '') for a possibly-undefined
value. -/
def jsOrEmpty (v : Option JSVal) : JSVal :=
  match v with
  | none => .str ""
  | some w => if truthy w then w else .str ""

/-- Extraction of the comparator input of FilterEngine.sortData: the name
key lowercases (a.name || ''), throwing a TypeError on a truthy non-string
name; score and attendance use (a.marks || 0) / (a.attendance || 0); any
other key uses (a[key] || ''). -/
def extractSortVal (key : String) (r : Row) : Except String SortVal :=
  if key = "name" then
    match jsOrEmpty (getF r "name") with
    | .str s => .ok (.s (lowerStr s))
    | .num _ => .error "TypeError: toLowerCase is not a function"
    | .strList _ => .error "TypeError: toLowerCase is not a function"
    | .null => .ok (.s "")
  else if key = "score" then .ok (toSortVal (jsOrZero (getF r "marks")))
  else if key = "attendance" then .ok (toSortVal (jsOrZero (getF r "attendance")))
  else .ok (toSortVal (jsOrEmpty (getF r key)))

/-- Model of String.prototype.localeCompare as code-point comparison. -/
def strCmpQ (a b : String) : ℚ :=
  match compare a b with
  | .lt => -1
  | .eq => 0
  | .gt => 1

/-- String rendering of a sort value (localeCompare coerces a non-string
argument to a string). -/
def sortValToStr : SortVal → String
  | .s s => s
  | .n q => numToString q

/-- The comparator body of FilterEngine.sortData after both values are
extracted: a string left value uses localeCompare (in descending order a
numeric right value would be the receiver and throws), numeric values
subtract (a string right value is coerced with ToNumber; a NaN result,
which the sort spec treats as 0, is approximated as 0). -/
def sortCmp (dir : String) (av bv : SortVal) : Except String ℚ :=
  match av with
  | .s sa =>
      if dir = "asc" then .ok (strCmpQ sa (sortValToStr bv))
      else
        match bv with
        | .s sb => .ok (strCmpQ sb sa)
        | .n _ => .error "TypeError: localeCompare is not a function"
  | .n na =>
      match bv with
      | .n nb => .ok (if dir = "asc" then na - nb else nb - na)
      | .s sb =>
          .ok (if dir = "asc" then na - (jsToNumber sb).getD 0
               else (jsToNumber sb).getD 0 - na)

/-- Boolean comparator used by the stable sort model: true when the left
element sorts weakly before the right one (comparator result at most 0);
comparator exceptions are surfaced separately by sortData. -/
def rowLe (key dir : String) (a b : Row) : Bool :=
  match extractSortVal key a, extractSortVal key b with
  | .ok av, .ok bv =>
      match sortCmp dir av bv with
      | .ok q => decide (q ≤ 0)
      | .error _ => true
  | _, _ => true

/-- Stable insertion of an element after every already-placed element that
sorts weakly before it. -/
def insertRowBy (le : Row → Row → Bool) (a : Row) : List Row → List Row
  | [] => [a]
  | b :: l => if le b a then b :: insertRowBy le a l else a :: b :: l

/-- Stable sort (Array.prototype.sort is stable): elements are inserted in
order, each landing after its weak predecessors. -/
def stableSortBy (le : Row → Row → Bool) (l : List Row) : List Row :=
  l.foldl (fun acc a => insertRowBy le a acc) []

/-- FilterEngine.sortData: copies and sorts the array.  With at most one
element the comparator is never invoked; with two or more elements every
element's key value is computed during sorting, so a TypeError on any
element aborts the sort. -/
def sortData (key dir : String) (data : List Row) : Except String (List Row) :=
  if data.length ≤ 1 then .ok data
  else
    match data.mapM (extractSortVal key) with
    | .error e => .error e
    | .ok _ => .ok (stableSortBy (rowLe key dir) data)

/-- The three exact-equality filters of FilterEngine.applyFilters (subject,
semester, riskLevel), each skipped when its filter value is empty and using
strict equality against the stored string otherwise. -/
def equalityFilters (e : FilterEngine) (f1 : List Row) : List Row :=
  let f2 := if e.subject ≠ "" then
      f1.filter (fun item => decide (getF item "subject" = some (.str e.subject)))
    else f1
  let f3 := if e.semester ≠ "" then
      f2.filter (fun item => decide (getF item "semester" = some (.str e.semester)))
    else f2
  if e.riskLevel ≠ "" then
    f3.filter (fun item => decide (getF item "riskLevel" = some (.str e.riskLevel)))
  else f3

/-- FilterEngine.applyFilters without the final state write: search filter
(when the search value is non-empty), then the three exact-equality filters,
then the sort; any thrown TypeError propagates. -/
def computeFiltered (e : FilterEngine) : Except String (List Row) :=
  match (if e.search ≠ "" then filterSearch e.search e.originalData
         else .ok e.originalData) with
  | .error err => .error err
  | .ok f1 => sortData e.sortKey e.sortDir (equalityFilters e f1)

/-- FilterEngine.applyFilters: on success the derived view is replaced; a
thrown exception leaves filteredData untouched and is reported to the
caller as the second component. -/
def applyFilters (e : FilterEngine) : FilterEngine × Option String :=
  match computeFiltered e with
  | .ok l => ({ e with filteredData := l }, none)
  | .error msg => (e, some msg)

/-- FilterEngine.setData: replace the base data, then re-derive. -/
def setData (data : List Row) (e : FilterEngine) : FilterEngine × Option String :=
  applyFilters { e with originalData := data }

/-- FilterEngine.setSearch: store the lowercased trimmed query, then
re-derive. -/
def setSearch (query : String) (e : FilterEngine) : FilterEngine × Option String :=
  applyFilters { e with search := String.mk (jsTrim (lowerStr query).data) }

/-- FilterEngine.clearFilters: reset all query state to the defaults and
re-derive. -/
def clearFilters (e : FilterEngine) : FilterEngine × Option String :=
  applyFilters { e with
    search := "", subject := "", semester := "", riskLevel := "",
    sortKey := "name", sortDir := "asc" }

/-! CSV export (function downloadCSV of the utility file). -/

/-- Doubles every double quote of a string (value.replace of a quote with
two quotes). -/
def doubleQuotesStr (s : String) : String :=
  String.mk (s.data.foldr (fun c acc => if c = '"' then '"' :: '"' :: acc else c :: acc) [])

/-- Serialization of one value by downloadCSV: a string containing a comma
or a quote is wrapped in quotes with embedded quotes doubled, other strings
are emitted raw, null or undefined becomes the empty string, numbers print
decimally and arrays join with commas (only strings are ever quoted). -/
def serializeField : JSVal → String
  | .str s =>
      if strContains s ',' || strContains s '"' then
        "\"" ++ doubleQuotesStr s ++ "\""
      else s
  | .null => ""
  | .num q => numToString q
  | .strList l => String.intercalate "," l

/-- One cell of the export: row[header] with undefined becoming ''. -/
def serializeCell (r : Row) (k : String) : String :=
  match getF r k with
  | none => ""
  | some v => serializeField v

/-- Model of Array.prototype.join with a separator string. -/
def joinWith (sep : String) : List String → String
  | [] => ""
  | [x] => x
  | x :: xs => x ++ sep ++ joinWith sep xs

/-- downloadCSV without the DOM part: header line from the keys of the
first record, then one line per record, all joined with newlines. -/
def downloadCSVString (data : List Row) : String :=
  match data with
  | [] => ""
  | r0 :: _ =>
      joinWith "\n"
        (joinWith "," (r0.map Prod.fst) ::
          data.map (fun r => joinWith "," ((r0.map Prod.fst).map (serializeCell r))))

/-- Value change a field undergoes in a parse / re-serialize / re-parse
round trip (besides CSV quoting, which is inverted exactly): an empty
string comes back as null, a string that parses as a finite number comes
back as that number, everything else is unchanged. -/
def reCoerce : JSVal → JSVal
  | .str s =>
      if s = "" then .null
      else
        match jsParseFloat s with
        | some q => .num q
        | none => .str s
  | v => v

/-! Auxiliary definitions used to state the claims, and the concrete inputs
appearing in scenario claims and witnesses. -/

/-- The raw risk score as an explicit function of numeric marks and
attendance, in the accumulation order of the rule table. -/
def riskScoreNumQ (m a : ℚ) : ℚ :=
  min 1 (((((((0 : ℚ) +
    (if m < 40 then 4/10 else 0)) +
    (if m < 30 then 6/10 else 0)) +
    (if a < 60 then 3/10 else 0)) +
    (if a < 50 then 5/10 else 0)) +
    (if m < 50 ∧ a < 70 then 7/10 else 0)) +
    (if m < 35 ∧ a < 60 then 9/10 else 0))

/-- A record carrying only the given marks and attendance field values
(used to express that a risk assessment depends on nothing else). -/
def fieldRow (m a : Option JSVal) : Row :=
  (match m with | some v => [("marks", v)] | none => []) ++
  (match a with | some v => [("attendance", v)] | none => [])

/-- The risk assessment as a function of the marks and attendance field
values alone. -/
def riskFromFields (m a : Option JSVal) : RiskAssessment :=
  assessStudent (fieldRow m a)

/-- The CSV text of the end-to-end scenario claim. -/
def c1text : String :=
  "id,name,subject,marks,attendance,semester\nS1,Alice,Math,25,45,1\nS2,Bob,Math,85,95,1"

/-- The records parsed from the scenario CSV. -/
def c1rows : List Row :=
  (parseCSV 0 c1text).toOption.elim [] Prod.fst

/-- Records parsed from a CSV whose name column is numeric (the parser
keeps a numeric name as a number). -/
def c7rows : List Row :=
  (parseCSV 0 "id,name\nS1,99").toOption.elim [] Prod.fst

/-- A record whose name field is the number 1. -/
def c9row1 : Row := [("name", .num 1)]

/-- A record whose name field is the number 2. -/
def c9row2 : Row := [("name", .num 2)]

/-- Whether an Except value is a thrown error. -/
def isError {α : Type} : Except String α → Bool
  | .error _ => true
  | .ok _ => false

/-- The rows that survive row-level validation in a parse (the data list of
the row loop, independent of whether parseCSV then throws). -/
def parseSurvivors (now : ℕ) (csv : String) : List Row :=
  match csvLines csv with
  | [] => []
  | h :: rest => (parseRows now ((parseCSVLine h).map normalizeHeader) 2 rest).1

/-- The per-row error messages accumulated during the row loop of a
parse. -/
def parseRowErrors (now : ℕ) (csv : String) : List String :=
  match csvLines csv with
  | [] => []
  | h :: rest => (parseRows now ((parseCSVLine h).map normalizeHeader) 2 rest).2

/-- The soundness facts guaranteed for every record a successful parse
returns: numeric marks and attendance clamped to [0, 100], and truthy
studentId, name, subject, semester and assessmentType fields. -/
def RowSound (r : Row) : Prop :=
  (∃ m : ℚ, getF r "marks" = some (.num m) ∧ 0 ≤ m ∧ m ≤ 100) ∧
  (∃ a : ℚ, getF r "attendance" = some (.num a) ∧ 0 ≤ a ∧ a ≤ 100) ∧
  truthyO (getF r "studentId") = true ∧
  truthyO (getF r "name") = true ∧
  truthyO (getF r "subject") = true ∧
  truthyO (getF r "semester") = true ∧
  truthyO (getF r "assessmentType") = true

/-- A field value on which the search and name-sort code cannot throw: a
string, null, undefined, or the falsy number 0 (a truthy non-string value
makes toLowerCase throw). -/
def strOrFalsy : Option JSVal → Bool
  | some (.num n) => n = 0
  | some (.strList _) => false
  | _ => true

/-- Pure form of one search clause on a throw-free field value. -/
def strFieldMatch (q : String) (v : Option JSVal) : Bool :=
  match v with
  | some (.str s) => s ≠ "" && strIncludes (lowerStr s) q
  | _ => false

/-- Pure form of the search predicate: the lowercased query is a substring
of the lowercased name, studentId or subject (any one suffices). -/
def searchMatchesP (q : String) (r : Row) : Bool :=
  strFieldMatch q (getF r "name") || strFieldMatch q (getF r "studentId") ||
    strFieldMatch q (getF r "subject")

/-- The key sequence of a record, in property order. -/
def keysOf (r : Row) : List String := r.map Prod.fst

/-- The unquoted cell text of a value in the export (the string the quoting
policy of serializeField is then applied to). -/
def cellToken : JSVal → String
  | .str s => s
  | .null => ""
  | .num q => numToString q
  | .strList l => joinWith "," l

/-- The minimal-quoting policy of the export: wrap in quotes (doubling
embedded quotes) exactly when the text contains a comma or a quote. -/
def quoteWrap (s : String) : String :=
  if strContains s ',' || strContains s '"' then "\"" ++ doubleQuotesStr s ++ "\""
  else s

/-- A rational number whose denominator divides a power of ten (with the
denominator itself as a sufficient exponent); exactly the numbers the
parser can produce, and the ones whose decimal printing re-parses
exactly. -/
def DecimalQ (q : ℚ) : Prop := (q * 10 ^ q.den).den = 1

/-- Cleanliness of one stored field value, as guaranteed by the parser:
null, a decimal-denominator number, or a trimmed single-line string. -/
def CleanVal : JSVal → Prop
  | .null => True
  | .num q => DecimalQ q
  | .str s => jsTrim s.data = s.data ∧ '\n' ∉ s.data
  | .strList _ => False

/-- A string value that does not start or end with a double quote (the
parser's quote stripping on re-ingestion is the identity exactly then). -/
def QuoteEdgeFree : JSVal → Prop
  | .str s => s.data.head? ≠ some '"' ∧ s.data.getLast? ≠ some '"'
  | _ => True

/-- The trailing-whitespace half of jsTrim. -/
def trimRight (cs : List Char) : List Char :=
  (cs.reverse.dropWhile jsWhitespace).reverse

/-- Whether a character list starts like an unsigned decimal literal (a
digit, or a dot followed by a digit); exactly the lists on which
parseUnsigned succeeds. -/
def numHead : List Char → Bool
  | [] => false
  | c :: r =>
      isDigitChar c ||
        (c = '.' && (match r with | [] => false | d :: _ => isDigitChar d))

/-- The signed variant of numHead: an optional sign may precede the
literal; exactly the lists on which parseNumPrefix succeeds. -/
def numHeadS : List Char → Bool
  | [] => false
  | c :: r => if c = '-' ∨ c = '+' then numHead r else numHead (c :: r)

/-- The value-level invariant cleanValue establishes: null, a
decimal-denominator number, or a trimmed single-line string on which
parseFloat fails (so the re-parse coercion leaves it alone). -/
def ParsedVal : JSVal → Prop
  | .null => True
  | .num q => DecimalQ q
  | .str s => jsTrim s.data = s.data ∧ '\n' ∉ s.data ∧ jsParseFloat s = none
  | .strList _ => False

/-- Characters allowed in an exported header name so that the header line
re-tokenizes exactly: no comma, no quote, no whitespace. -/
def GoodKeyChar (c : Char) : Bool := !(c = ',' || c = '"' || jsWhitespace c)

/-- A key whose exported header name survives the re-parse: its characters
re-tokenize exactly and (unless it is one of the two lossy keys) it is a
fixed point of header normalization. -/
def GoodKey (k : String) : Prop :=
  (∀ c ∈ k.data, GoodKeyChar c = true) ∧
  (k = "assessmentType" ∨ k = "rowId" ∨ normalizeHeader k = k)

/-- The key-set transformation of buildRow: a known key is kept in place, a
fresh key appended. -/
def addKey (ks : List String) (k : String) : List String :=
  if k ∈ ks then ks else ks ++ [k]

/-- Keys of the row object built from a header list. -/
def buildKeys (hs : List String) : List String := hs.foldl addKey []

/-- Keys of a validated row: the built keys plus the synthesized or
defaulted core fields, in assignment order. -/
def validKeys (ks : List String) : List String :=
  addKey (addKey (addKey (addKey (addKey (addKey (addKey (addKey ks
    "studentId") "name") "marks") "attendance") "subject") "semester")
    "assessmentType") "rowId"

/-- The per-record cleanliness package a successful parse guarantees, used
by the round-trip theorem: the record carries exactly the shared key list
K, every value is clean, the five defaulted fields are truthy and stay
truthy under re-parse coercion, and marks / attendance are in-range
numbers. -/
def CleanRow (K : List String) (r : Row) : Prop :=
  keysOf r = K ∧
  (∀ k v, getF r k = some v → CleanVal v) ∧
  (∀ k ∈ ["studentId", "name", "subject", "semester"],
    ∃ v, getF r k = some v ∧ truthy v = true ∧ truthy (reCoerce v) = true) ∧
  (∃ m : ℚ, getF r "marks" = some (.num m) ∧ 0 ≤ m ∧ m ≤ 100) ∧
  (∃ a : ℚ, getF r "attendance" = some (.num a) ∧ 0 ≤ a ∧ a ≤ 100)

/-- The records parsed from the minimal CSV of the round-trip
counterexample. -/
def c4rows : List Row :=
  (parseCSV 0 "id,name\nS1,Alice").toOption.elim [] Prod.fst

/-- The record parseCSV 0 produces from "id,name,marks; S1,Alice,50", used
as the concrete instance of the amended round-trip theorem. -/
def c4row : Row :=
  [("studentId", .str "S1"), ("name", .str "Alice"), ("marks", .num 50),
   ("attendance", .num 0), ("subject", .str "General"),
   ("semester", .str "1"), ("assessmentType", .str "Exam"),
   ("rowId", .str "S1-General-1-0")]

end StudentAnalytics

namespace StudentAnalytics

/-! Basic lemmas about the object model. -/

theorem getF_setF_self (r : Row) (k : String) (v : JSVal) :
    getF (setF r k v) k = some v := by
  induction r with
  | nil => simp [setF, getF]
  | cons hd tl ih =>
      by_cases h : hd.1 = k <;> simp [setF, getF, h, ih]

theorem getF_setF_ne (r : Row) (k k2 : String) (v : JSVal) (h : k2 ≠ k) :
    getF (setF r k v) k2 = getF r k2 := by
  induction r with
  | nil =>
      simp only [setF, getF]
      rw [if_neg (fun hh => h hh.symm)]
  | cons hd tl ih =>
      have h3 : ¬k = k2 := fun hh => h hh.symm
      by_cases h1 : hd.1 = k
      · have h2 : ¬hd.1 = k2 := by rw [h1]; exact h3
        simp [setF, getF, h1, h2, h3]
      · by_cases h2 : hd.1 = k2 <;> simp [setF, getF, h1, h2, h3, h, ih]

theorem coerce_orZero_num (m : ℚ) :
    jsCoerceNum (jsOrZero (some (.num m))) = some m := by
  by_cases h : m = 0 <;> simp [jsOrZero, truthy, jsCoerceNum, h]

theorem jsLtN_orZero_num (m c : ℚ) :
    jsLtN (jsOrZero (some (.num m))) c = decide (m < c) := by
  simp [jsLtN, coerce_orZero_num]

theorem jsLeN_orZero_num (m c : ℚ) :
    jsLeN (jsOrZero (some (.num m))) c = decide (m ≤ c) := by
  simp [jsLeN, coerce_orZero_num]

theorem ite_add_acc (c : Prop) [Decidable c] (x w : ℚ) :
    (if c then x + w else x) = x + (if c then w else 0) := by
  split <;> simp

theorem getF_fieldRow_marks (m a : Option JSVal) :
    getF (fieldRow m a) "marks" = m := by
  cases m <;> cases a <;> simp [fieldRow, getF]

theorem getF_fieldRow_att (m a : Option JSVal) :
    getF (fieldRow m a) "attendance" = a := by
  cases m <;> cases a <;> simp [fieldRow, getF]

theorem assessStudent_eq_fields (s : Row) :
    assessStudent s = riskFromFields (getF s "marks") (getF s "attendance") := by
  simp [riskFromFields, assessStudent, calculateRiskScore, getRiskFactors,
    riskRules, getF_fieldRow_marks, getF_fieldRow_att]

theorem calculateRiskScore_num (r : Row) (m a : ℚ)
    (hm : getF r "marks" = some (.num m))
    (ha : getF r "attendance" = some (.num a)) :
    calculateRiskScore r = riskScoreNumQ m a := by
  simp only [calculateRiskScore, riskRules, List.foldl, riskScoreNumQ, hm, ha,
    jsLtN_orZero_num, Bool.and_eq_true, decide_eq_true_eq, ite_add_acc]

theorem ite_weight_le {p q : Prop} [Decidable p] [Decidable q] (w : ℚ)
    (hw : 0 ≤ w) (h : p → q) :
    (if p then w else 0) ≤ (if q then w else 0) := by
  by_cases hp : p
  · simp [hp, h hp]
  · simp [hp]
    split <;> simp [hw]

theorem riskScoreNumQ_mono_marks (m1 m2 a : ℚ) (h : m2 ≤ m1) :
    riskScoreNumQ m1 a ≤ riskScoreNumQ m2 a := by
  unfold riskScoreNumQ
  refine min_le_min le_rfl ?_
  refine add_le_add (add_le_add (add_le_add (add_le_add (add_le_add
    (add_le_add le_rfl ?_) ?_) le_rfl) le_rfl) ?_) ?_
  · exact ite_weight_le _ (by norm_num) (fun hl => lt_of_le_of_lt h hl)
  · exact ite_weight_le _ (by norm_num) (fun hl => lt_of_le_of_lt h hl)
  · exact ite_weight_le _ (by norm_num)
      (fun hl => ⟨lt_of_le_of_lt h hl.1, hl.2⟩)
  · exact ite_weight_le _ (by norm_num)
      (fun hl => ⟨lt_of_le_of_lt h hl.1, hl.2⟩)

theorem riskScoreNumQ_mono_att (m a1 a2 : ℚ) (h : a2 ≤ a1) :
    riskScoreNumQ m a1 ≤ riskScoreNumQ m a2 := by
  unfold riskScoreNumQ
  refine min_le_min le_rfl ?_
  refine add_le_add (add_le_add (add_le_add (add_le_add (add_le_add
    (add_le_add le_rfl le_rfl) le_rfl) ?_) ?_) ?_) ?_
  · exact ite_weight_le _ (by norm_num) (fun hl => lt_of_le_of_lt h hl)
  · exact ite_weight_le _ (by norm_num) (fun hl => lt_of_le_of_lt h hl)
  · exact ite_weight_le _ (by norm_num)
      (fun hl => ⟨hl.1, lt_of_le_of_lt h hl.2⟩)
  · exact ite_weight_le _ (by norm_num)
      (fun hl => ⟨hl.1, lt_of_le_of_lt h hl.2⟩)

theorem jsRound_mono {p q : ℚ} (h : p ≤ q) : jsRound p ≤ jsRound q := by
  have hf : ∀ x : ℚ, Rat.floor x = ⌊x⌋ := fun _ => rfl
  simp only [jsRound, hf]
  exact Int.floor_le_floor (by linarith)

theorem scoreBand_mem (r : Row) :
    scoreBand r = "0-20" ∨ scoreBand r = "21-40" ∨ scoreBand r = "41-60" ∨
    scoreBand r = "61-80" ∨ scoreBand r = "81-100" := by
  simp only [scoreBand]
  split_ifs <;> simp

theorem bumpScore_char (d : ScoreDist) (r : Row) :
    bumpScore d r =
      ⟨d.b0 + (if scoreBand r = "0-20" then 1 else 0),
       d.b21 + (if scoreBand r = "21-40" then 1 else 0),
       d.b41 + (if scoreBand r = "41-60" then 1 else 0),
       d.b61 + (if scoreBand r = "61-80" then 1 else 0),
       d.b81 + (if scoreBand r = "81-100" then 1 else 0)⟩ := by
  simp only [bumpScore, scoreBand]
  by_cases h1 : jsLeN (jsOrZero (getF r "marks")) 20 = true
  · simp [h1]
  · by_cases h2 : jsLeN (jsOrZero (getF r "marks")) 40 = true
    · simp [h1, h2]
    · by_cases h3 : jsLeN (jsOrZero (getF r "marks")) 60 = true
      · simp [h1, h2, h3]
      · by_cases h4 : jsLeN (jsOrZero (getF r "marks")) 80 = true
        · simp [h1, h2, h3, h4]
        · simp [h1, h2, h3, h4]

theorem foldl_bumpScore (data : List Row) : ∀ d0 : ScoreDist,
    data.foldl bumpScore d0 =
      ⟨d0.b0 + (data.filter (fun r => scoreBand r = "0-20")).length,
       d0.b21 + (data.filter (fun r => scoreBand r = "21-40")).length,
       d0.b41 + (data.filter (fun r => scoreBand r = "41-60")).length,
       d0.b61 + (data.filter (fun r => scoreBand r = "61-80")).length,
       d0.b81 + (data.filter (fun r => scoreBand r = "81-100")).length⟩ := by
  induction data with
  | nil => intro d0; simp
  | cons r rest ih =>
      intro d0
      rw [List.foldl_cons, ih, bumpScore_char]
      rcases scoreBand_mem r with h | h | h | h | h <;>
        simp [ScoreDist.mk.injEq, List.filter_cons, h] <;> omega

theorem getScoreDistribution_counts (data : List Row) :
    getScoreDistribution data =
      ⟨(data.filter (fun r => scoreBand r = "0-20")).length,
       (data.filter (fun r => scoreBand r = "21-40")).length,
       (data.filter (fun r => scoreBand r = "41-60")).length,
       (data.filter (fun r => scoreBand r = "61-80")).length,
       (data.filter (fun r => scoreBand r = "81-100")).length⟩ := by
  rw [getScoreDistribution, foldl_bumpScore]
  simp

theorem filter_bands_sum (data : List Row) :
    (data.filter (fun r => scoreBand r = "0-20")).length +
    (data.filter (fun r => scoreBand r = "21-40")).length +
    (data.filter (fun r => scoreBand r = "41-60")).length +
    (data.filter (fun r => scoreBand r = "61-80")).length +
    (data.filter (fun r => scoreBand r = "81-100")).length = data.length := by
  induction data with
  | nil => simp
  | cons r rest ih =>
      rcases scoreBand_mem r with h | h | h | h | h <;>
        simp [List.filter_cons, h] <;> omega

/-! Claim theorems. -/

/-- C1: parsing the scenario CSV
"id,name,subject,marks,attendance,semester\nS1,Alice,Math,25,45,1\nS2,Bob,Math,85,95,1"
yields Alice with marks 25 and attendance 45 on which all six risk rules
fire (raw sum capped at 1, so riskScore 100 and level high), Bob with marks
85 and attendance 95 on which no rule fires (riskScore 0, level none), and
the pass rate over the two records is 50. -/
theorem C1_end_to_end_scenario :
    c1rows.map (fun r => (getF r "name", getF r "marks", getF r "attendance"))
      = [(some (.str "Alice"), some (.num 25), some (.num 45)),
         (some (.str "Bob"), some (.num 85), some (.num 95))]
    ∧ c1rows.map (fun r => riskRules.map (fun rule => rule.check r))
      = [[true, true, true, true, true, true],
         [false, false, false, false, false, false]]
    ∧ c1rows.map calculateRiskScore = [1, 0]
    ∧ c1rows.map (fun r => ((assessStudent r).riskScore, (assessStudent r).riskLevel))
      = [(100, "high"), (0, "none")]
    ∧ getPassRate c1rows = 50 := by
  with_unfolding_all decide

/-- C5: the riskScore returned by assessStudent is monotonically
non-decreasing as marks decreases (attendance fixed) and as attendance
decreases (marks fixed): for two records that agree on attendance and carry
numeric marks, the record with the lower marks scores at least as high, and
symmetrically for attendance. -/
theorem C5_riskScore_monotone :
    (∀ (r1 r2 : Row) (m1 m2 a : ℚ),
      getF r1 "marks" = some (.num m1) → getF r1 "attendance" = some (.num a) →
      getF r2 "marks" = some (.num m2) → getF r2 "attendance" = some (.num a) →
      m2 ≤ m1 →
      (assessStudent r1).riskScore ≤ (assessStudent r2).riskScore)
    ∧ (∀ (r1 r2 : Row) (m a1 a2 : ℚ),
      getF r1 "marks" = some (.num m) → getF r1 "attendance" = some (.num a1) →
      getF r2 "marks" = some (.num m) → getF r2 "attendance" = some (.num a2) →
      a2 ≤ a1 →
      (assessStudent r1).riskScore ≤ (assessStudent r2).riskScore) := by
  constructor
  · intro r1 r2 m1 m2 a hm1 ha1 hm2 ha2 hle
    show jsRound (calculateRiskScore r1 * 100) ≤ jsRound (calculateRiskScore r2 * 100)
    rw [calculateRiskScore_num r1 m1 a hm1 ha1, calculateRiskScore_num r2 m2 a hm2 ha2]
    exact jsRound_mono (by
      have := riskScoreNumQ_mono_marks m1 m2 a hle
      nlinarith)
  · intro r1 r2 m a1 a2 hm1 ha1 hm2 ha2 hle
    show jsRound (calculateRiskScore r1 * 100) ≤ jsRound (calculateRiskScore r2 * 100)
    rw [calculateRiskScore_num r1 m a1 hm1 ha1, calculateRiskScore_num r2 m a2 hm2 ha2]
    exact jsRound_mono (by
      have := riskScoreNumQ_mono_att m a1 a2 hle
      nlinarith)

/-- Witness for C5 at concrete records: marks 38 versus 25 at attendance 65,
and attendance 65 versus 45 at marks 38. -/
theorem C5_riskScore_monotone_witness :
    (assessStudent [("marks", JSVal.num 38), ("attendance", JSVal.num 65)]).riskScore ≤
      (assessStudent [("marks", JSVal.num 25), ("attendance", JSVal.num 65)]).riskScore
    ∧ (assessStudent [("marks", JSVal.num 38), ("attendance", JSVal.num 65)]).riskScore ≤
      (assessStudent [("marks", JSVal.num 38), ("attendance", JSVal.num 45)]).riskScore :=
  ⟨C5_riskScore_monotone.1 _ _ 38 25 65 (by with_unfolding_all decide)
      (by with_unfolding_all decide) (by with_unfolding_all decide)
      (by with_unfolding_all decide) (by norm_num),
   C5_riskScore_monotone.2 _ _ 38 65 45 (by with_unfolding_all decide)
      (by with_unfolding_all decide) (by with_unfolding_all decide)
      (by with_unfolding_all decide) (by norm_num)⟩

/-- C6: for every non-empty record set the pass rate and the fail rate sum
to exactly 100 (getFailRate is literally 100 minus getPassRate). -/
theorem C6_pass_fail_sum (data : List Row) (h : data ≠ []) :
    getPassRate data + getFailRate data = 100 := by
  unfold getFailRate
  ring

/-- Witness for C6 on a concrete one-record set. -/
theorem C6_pass_fail_sum_witness :
    ([[("marks", JSVal.num 60)]] : List Row) ≠ [] ∧
      getPassRate [[("marks", JSVal.num 60)]] +
        getFailRate [[("marks", JSVal.num 60)]] = 100 :=
  ⟨by decide, C6_pass_fail_sum [[("marks", JSVal.num 60)]] (by decide)⟩

/-- C8: the score distribution assigns each record to exactly one band (the
five band counters are the counts of the band-classification function and
they partition the record count), and the upper boundaries are inclusive: a
record with marks exactly 20 lands in the 0-20 band, not 21-40, and a
record with marks exactly 40 lands in 21-40, not 41-60. -/
theorem C8_score_distribution (data : List Row) :
    ((getScoreDistribution data).b0
        = (data.filter (fun r => scoreBand r = "0-20")).length
      ∧ (getScoreDistribution data).b21
        = (data.filter (fun r => scoreBand r = "21-40")).length
      ∧ (getScoreDistribution data).b41
        = (data.filter (fun r => scoreBand r = "41-60")).length
      ∧ (getScoreDistribution data).b61
        = (data.filter (fun r => scoreBand r = "61-80")).length
      ∧ (getScoreDistribution data).b81
        = (data.filter (fun r => scoreBand r = "81-100")).length)
    ∧ (getScoreDistribution data).b0 + (getScoreDistribution data).b21 +
        (getScoreDistribution data).b41 + (getScoreDistribution data).b61 +
        (getScoreDistribution data).b81 = data.length
    ∧ (∀ r : Row, getF r "marks" = some (.num 20) →
        scoreBand r = "0-20" ∧ scoreBand r ≠ "21-40")
    ∧ (∀ r : Row, getF r "marks" = some (.num 40) →
        scoreBand r = "21-40" ∧ scoreBand r ≠ "41-60") := by
  refine ⟨?_, ?_, ?_, ?_⟩
  · rw [getScoreDistribution_counts]
    exact ⟨rfl, rfl, rfl, rfl, rfl⟩
  · rw [getScoreDistribution_counts]
    exact filter_bands_sum data
  · intro r hm
    have : scoreBand r = "0-20" := by
      simp only [scoreBand, hm, jsLeN_orZero_num]
      norm_num
    exact ⟨this, by rw [this]; decide⟩
  · intro r hm
    have : scoreBand r = "21-40" := by
      simp only [scoreBand, hm, jsLeN_orZero_num]
      norm_num
    exact ⟨this, by rw [this]; decide⟩

/-- Witness for C8 at a one-record set with marks exactly 20. -/
theorem C8_score_distribution_witness :
    scoreBand [("marks", JSVal.num 20)] = "0-20" ∧
      scoreBand [("marks", JSVal.num 20)] ≠ "21-40" :=
  (C8_score_distribution [[("marks", JSVal.num 20)]]).2.2.1
    [("marks", JSVal.num 20)] (by with_unfolding_all decide)

/-- C10: assessAllStudents preserves length and order; the record at each
position agrees with the input record on every field other than riskScore,
riskLevel and riskFactors, and those three are computed from that record's
own marks and attendance field values alone (riskFromFields), with no
dependence on any other record. -/
theorem C10_assessAll_frame (students : List Row) (i : ℕ) (s : Row) :
    (assessAllStudents students).length = students.length
    ∧ (students.get? i = some s →
        ∃ out, (assessAllStudents students).get? i = some out
          ∧ (∀ k, k ≠ "riskScore" → k ≠ "riskLevel" → k ≠ "riskFactors" →
              getF out k = getF s k)
          ∧ getF out "riskScore" = some (.num
              ((riskFromFields (getF s "marks") (getF s "attendance")).riskScore : ℚ))
          ∧ getF out "riskLevel" = some (.str
              (riskFromFields (getF s "marks") (getF s "attendance")).riskLevel)
          ∧ getF out "riskFactors" = some (.strList
              (riskFromFields (getF s "marks") (getF s "attendance")).factors)) := by
  constructor
  · simp [assessAllStudents]
  · intro hs
    refine ⟨setF (setF (setF s "riskScore" (.num ((assessStudent s).riskScore : ℚ)))
        "riskLevel" (.str (assessStudent s).riskLevel)) "riskFactors"
        (.strList (assessStudent s).factors), ?_, ?_, ?_, ?_, ?_⟩
    · rw [assessAllStudents, List.get?_map, hs]
      rfl
    · intro k hk1 hk2 hk3
      rw [getF_setF_ne _ _ _ _ hk3, getF_setF_ne _ _ _ _ hk2,
        getF_setF_ne _ _ _ _ hk1]
    · rw [getF_setF_ne _ _ _ _ (by decide), getF_setF_ne _ _ _ _ (by decide),
        getF_setF_self, ← assessStudent_eq_fields]
    · rw [getF_setF_ne _ _ _ _ (by decide), getF_setF_self,
        ← assessStudent_eq_fields]
    · rw [getF_setF_self, ← assessStudent_eq_fields]

/-- Witness for C10 on a concrete two-record list at index 1. -/
theorem C10_assessAll_frame_witness :
    ∃ out, (assessAllStudents
        [[("name", JSVal.str "A"), ("marks", JSVal.num 80), ("attendance", JSVal.num 90)],
         [("name", JSVal.str "B"), ("marks", JSVal.num 20), ("attendance", JSVal.num 30)]]).get? 1
      = some out
      ∧ (∀ k, k ≠ "riskScore" → k ≠ "riskLevel" → k ≠ "riskFactors" →
          getF out k = getF [("name", JSVal.str "B"), ("marks", JSVal.num 20),
            ("attendance", JSVal.num 30)] k)
      ∧ getF out "riskScore" = some (.num
          ((riskFromFields (getF [("name", JSVal.str "B"), ("marks", JSVal.num 20),
            ("attendance", JSVal.num 30)] "marks")
            (getF [("name", JSVal.str "B"), ("marks", JSVal.num 20),
            ("attendance", JSVal.num 30)] "attendance")).riskScore : ℚ))
      ∧ getF out "riskLevel" = some (.str
          (riskFromFields (getF [("name", JSVal.str "B"), ("marks", JSVal.num 20),
            ("attendance", JSVal.num 30)] "marks")
            (getF [("name", JSVal.str "B"), ("marks", JSVal.num 20),
            ("attendance", JSVal.num 30)] "attendance")).riskLevel)
      ∧ getF out "riskFactors" = some (.strList
          (riskFromFields (getF [("name", JSVal.str "B"), ("marks", JSVal.num 20),
            ("attendance", JSVal.num 30)] "marks")
            (getF [("name", JSVal.str "B"), ("marks", JSVal.num 20),
            ("attendance", JSVal.num 30)] "attendance")).factors) :=
  (C10_assessAll_frame
    [[("name", JSVal.str "A"), ("marks", JSVal.num 80), ("attendance", JSVal.num 90)],
     [("name", JSVal.str "B"), ("marks", JSVal.num 20), ("attendance", JSVal.num 30)]]
    1 [("name", JSVal.str "B"), ("marks", JSVal.num 20), ("attendance", JSVal.num 30)]).2
    (by rfl)

theorem append_ne_empty (a b : String) (ha : a.data ≠ []) : a ++ b ≠ "" := by
  intro h
  have hd : (a ++ b).data = ("" : String).data := by rw [h]
  rw [String.data_append] at hd
  cases hab : a.data with
  | nil => exact ha hab
  | cons c cs => rw [hab] at hd; simp at hd

theorem clamp100_bounds (q : ℚ) : 0 ≤ clamp100 q ∧ clamp100 q ≤ 100 := by
  unfold clamp100
  constructor
  · exact le_max_left 0 _
  · exact max_le (by norm_num) (min_le_left 100 q)

theorem normalizeScoreVal_bounds (v : Option JSVal) :
    0 ≤ normalizeScoreVal v ∧ normalizeScoreVal v ≤ 100 := by
  unfold normalizeScoreVal
  split
  · norm_num
  · norm_num
  · split
    · norm_num
    · exact clamp100_bounds _

theorem getF_defaultStage_ne (k d : String) (r : Row) (k2 : String)
    (h : k2 ≠ k) : getF (defaultStage k d r) k2 = getF r k2 := by
  rw [defaultStage]
  split
  · rfl
  · exact getF_setF_ne r k k2 _ h

theorem truthyO_defaultStage_self (k d : String) (r : Row) (hd : d ≠ "") :
    truthyO (getF (defaultStage k d r) k) = true := by
  rw [defaultStage]
  split
  · next h => exact h
  · rw [getF_setF_self]
    simp [truthyO, truthy, hd]

theorem getF_synthIdStage_ne (n : ℕ) (r : Row) (k2 : String)
    (h : k2 ≠ "studentId") : getF (synthIdStage n r) k2 = getF r k2 := by
  rw [synthIdStage]
  split
  · rfl
  · exact getF_setF_ne r _ k2 _ h

theorem truthyO_synthIdStage_self (n : ℕ) (r : Row) :
    truthyO (getF (synthIdStage n r) "studentId") = true := by
  rw [synthIdStage]
  split
  · next h => exact h
  · rw [getF_setF_self]
    have hne : ("STU-" ++ natToString n) ≠ "" :=
      append_ne_empty _ _ (by decide)
    simp [truthyO, truthy, hne]

theorem getF_synthNameStage_ne (r : Row) (k2 : String)
    (h : k2 ≠ "name") : getF (synthNameStage r) k2 = getF r k2 := by
  rw [synthNameStage]
  split
  · rfl
  · exact getF_setF_ne r _ k2 _ h

theorem truthyO_synthNameStage_self (r : Row) :
    truthyO (getF (synthNameStage r) "name") = true := by
  rw [synthNameStage]
  split
  · next h => exact h
  · rw [getF_setF_self]
    have hne : ("Student " ++ jsTemplate ((getF r "studentId").getD .null)) ≠ "" :=
      append_ne_empty _ _ (by decide)
    simp [truthyO, truthy, hne]

theorem validateAndTransformRow_sound (now : ℕ) (row : Row) (n : ℕ) (out : Row)
    (hok : validateAndTransformRow now row n = .ok out) : RowSound out := by
  rw [validateAndTransformRow] at hok
  split at hok
  · exact absurd hok (by simp)
  · injection hok with hout
    subst hout
    have hm : getF (rowIdStage now (defaultStage "assessmentType" "Exam"
        (defaultStage "semester" "1" (defaultStage "subject" "General"
          (attStage (marksStage (synthNameStage (synthIdStage n row)))))))) "marks"
        = some (.num (normalizeScoreVal
            (getF (synthNameStage (synthIdStage n row)) "marks"))) := by
      rw [rowIdStage, getF_setF_ne _ _ _ _ (by decide),
        getF_defaultStage_ne _ _ _ _ (by decide),
        getF_defaultStage_ne _ _ _ _ (by decide),
        getF_defaultStage_ne _ _ _ _ (by decide),
        attStage, getF_setF_ne _ _ _ _ (by decide),
        marksStage, getF_setF_self]
    have ha : getF (rowIdStage now (defaultStage "assessmentType" "Exam"
        (defaultStage "semester" "1" (defaultStage "subject" "General"
          (attStage (marksStage (synthNameStage (synthIdStage n row)))))))) "attendance"
        = some (.num (normalizeScoreVal
            (getF (marksStage (synthNameStage (synthIdStage n row))) "attendance"))) := by
      rw [rowIdStage, getF_setF_ne _ _ _ _ (by decide),
        getF_defaultStage_ne _ _ _ _ (by decide),
        getF_defaultStage_ne _ _ _ _ (by decide),
        getF_defaultStage_ne _ _ _ _ (by decide),
        attStage, getF_setF_self]
    refine ⟨⟨_, hm, (normalizeScoreVal_bounds _).1, (normalizeScoreVal_bounds _).2⟩,
      ⟨_, ha, (normalizeScoreVal_bounds _).1, (normalizeScoreVal_bounds _).2⟩,
      ?_, ?_, ?_, ?_, ?_⟩
    · rw [rowIdStage, getF_setF_ne _ _ _ _ (by decide),
        getF_defaultStage_ne _ _ _ _ (by decide),
        getF_defaultStage_ne _ _ _ _ (by decide),
        getF_defaultStage_ne _ _ _ _ (by decide),
        attStage, getF_setF_ne _ _ _ _ (by decide),
        marksStage, getF_setF_ne _ _ _ _ (by decide),
        getF_synthNameStage_ne _ _ (by decide)]
      exact truthyO_synthIdStage_self n row
    · rw [rowIdStage, getF_setF_ne _ _ _ _ (by decide),
        getF_defaultStage_ne _ _ _ _ (by decide),
        getF_defaultStage_ne _ _ _ _ (by decide),
        getF_defaultStage_ne _ _ _ _ (by decide),
        attStage, getF_setF_ne _ _ _ _ (by decide),
        marksStage, getF_setF_ne _ _ _ _ (by decide)]
      exact truthyO_synthNameStage_self _
    · rw [rowIdStage, getF_setF_ne _ _ _ _ (by decide),
        getF_defaultStage_ne _ _ _ _ (by decide),
        getF_defaultStage_ne _ _ _ _ (by decide)]
      exact truthyO_defaultStage_self _ _ _ (by decide)
    · rw [rowIdStage, getF_setF_ne _ _ _ _ (by decide),
        getF_defaultStage_ne _ _ _ _ (by decide)]
      exact truthyO_defaultStage_self _ _ _ (by decide)
    · rw [rowIdStage, getF_setF_ne _ _ _ _ (by decide)]
      exact truthyO_defaultStage_self _ _ _ (by decide)

theorem parseRows_mem (now : ℕ) (nh : List String) (ls : List String) :
    ∀ (i : ℕ) (r : Row), r ∈ (parseRows now nh i ls).1 →
      ∃ (row : Row) (m : ℕ), validateAndTransformRow now row m = .ok r := by
  induction ls with
  | nil => intro i r hr; simp [parseRows] at hr
  | cons line rest ih =>
      intro i r hr
      simp only [parseRows] at hr
      split at hr
      · exact ih (i + 1) r hr
      · split at hr
        · next row0 hval =>
            rcases List.mem_cons.mp hr with hr1 | hr2
            · exact ⟨buildRow nh (parseCSVLine line), i, by rw [hval, hr1]⟩
            · exact ih (i + 1) r hr2
        · exact ih (i + 1) r hr

theorem parseCSV_sound (now : ℕ) (csv : String) (rows : List Row)
    (errs : List String) (h : parseCSV now csv = .ok (rows, errs)) :
    ∀ r ∈ rows, RowSound r := by
  intro r hr
  rw [parseCSV] at h
  split at h
  · exact absurd h (by simp)
  · exact absurd h (by simp)
  · split at h
    · exact absurd h (by simp)
    · injection h with h2
      have hrows : rows = (parseRows now _ 2 _).1 := (congrArg Prod.fst h2).symm
      rw [hrows] at hr
      obtain ⟨row, m, hval⟩ := parseRows_mem now _ _ 2 r hr
      exact validateAndTransformRow_sound now row m r hval

/-- C2: every record returned by a successful parse has a numeric marks
value and a numeric attendance value, both between 0 and 100 inclusive
(missing and non-numeric values were defaulted to 0, out-of-range values
clamped). -/
theorem C2_parse_range_invariant (now : ℕ) (csv : String) (rows : List Row)
    (errs : List String) (h : parseCSV now csv = .ok (rows, errs)) :
    ∀ r ∈ rows,
      (∃ m : ℚ, getF r "marks" = some (.num m) ∧ 0 ≤ m ∧ m ≤ 100) ∧
      (∃ a : ℚ, getF r "attendance" = some (.num a) ∧ 0 ≤ a ∧ a ≤ 100) := by
  intro r hr
  obtain ⟨hm, ha, _⟩ := parseCSV_sound now csv rows errs h r hr
  exact ⟨hm, ha⟩

/-- Witness for C2 on a CSV carrying an out-of-range marks value 150 (which
parses, is clamped to 100) and a non-numeric attendance (defaulted to 0). -/
theorem C2_parse_range_invariant_witness :
    (∃ m : ℚ, getF [("studentId", JSVal.str "S1"), ("name", JSVal.str "A"),
        ("marks", JSVal.num 100), ("attendance", JSVal.num 0),
        ("subject", JSVal.str "General"), ("semester", JSVal.str "1"),
        ("assessmentType", JSVal.str "Exam"),
        ("rowId", JSVal.str "S1-General-1-7")] "marks"
        = some (.num m) ∧ 0 ≤ m ∧ m ≤ 100) ∧
    (∃ a : ℚ, getF [("studentId", JSVal.str "S1"), ("name", JSVal.str "A"),
        ("marks", JSVal.num 100), ("attendance", JSVal.num 0),
        ("subject", JSVal.str "General"), ("semester", JSVal.str "1"),
        ("assessmentType", JSVal.str "Exam"),
        ("rowId", JSVal.str "S1-General-1-7")] "attendance"
        = some (.num a) ∧ 0 ≤ a ∧ a ≤ 100) :=
  C2_parse_range_invariant 7 "id,name,marks,attendance\nS1,A,150,bad"
    [[("studentId", JSVal.str "S1"), ("name", JSVal.str "A"),
      ("marks", JSVal.num 100), ("attendance", JSVal.num 0),
      ("subject", JSVal.str "General"), ("semester", JSVal.str "1"),
      ("assessmentType", JSVal.str "Exam"),
      ("rowId", JSVal.str "S1-General-1-7")]] []
    (by with_unfolding_all rfl)
    [("studentId", JSVal.str "S1"), ("name", JSVal.str "A"),
     ("marks", JSVal.num 100), ("attendance", JSVal.num 0),
     ("subject", JSVal.str "General"), ("semester", JSVal.str "1"),
     ("assessmentType", JSVal.str "Exam"),
     ("rowId", JSVal.str "S1-General-1-7")]
    (by with_unfolding_all decide)

theorem insertRowBy_mem (le : Row → Row → Bool) (a : Row) (l : List Row)
    (x : Row) : x ∈ insertRowBy le a l ↔ x = a ∨ x ∈ l := by
  induction l with
  | nil => simp [insertRowBy]
  | cons b rest ih =>
      rw [insertRowBy]
      split
      · rw [List.mem_cons, ih, List.mem_cons]
        tauto
      · rw [List.mem_cons, List.mem_cons]

theorem stableSortBy_mem (le : Row → Row → Bool) (l : List Row) (x : Row) :
    x ∈ stableSortBy le l ↔ x ∈ l := by
  have key : ∀ (l2 : List Row) (acc : List Row),
      x ∈ l2.foldl (fun acc a => insertRowBy le a acc) acc ↔ x ∈ acc ∨ x ∈ l2 := by
    intro l2
    induction l2 with
    | nil => intro acc; simp
    | cons a rest ih =>
        intro acc
        rw [List.foldl_cons, ih, insertRowBy_mem]
        simp only [List.mem_cons]
        tauto
  rw [stableSortBy, key]
  simp

theorem extractSortVal_name_ok (r : Row)
    (h : strOrFalsy (getF r "name") = true) :
    ∃ v, extractSortVal "name" r = .ok v := by
  rw [extractSortVal, if_pos rfl]
  cases hv : getF r "name" with
  | none => exact ⟨_, rfl⟩
  | some w =>
      cases w with
      | null => exact ⟨_, rfl⟩
      | num n =>
          rw [hv] at h
          have hn : n = 0 := by simpa [strOrFalsy] using h
          subst hn
          exact ⟨.s (lowerStr ""), by simp [jsOrEmpty, truthy]⟩
      | str s =>
          by_cases hs : s = ""
          · exact ⟨.s (lowerStr ""), by simp [jsOrEmpty, truthy, hs]⟩
          · exact ⟨.s (lowerStr s), by simp [jsOrEmpty, truthy, hs]⟩
      | strList l2 =>
          rw [hv] at h
          simp [strOrFalsy] at h

theorem mapM_extract_name_ok (l : List Row)
    (h : ∀ r ∈ l, strOrFalsy (getF r "name") = true) :
    ∃ vs, l.mapM (extractSortVal "name") = .ok vs := by
  induction l with
  | nil => exact ⟨[], rfl⟩
  | cons r rest ih =>
      obtain ⟨v, hv⟩ := extractSortVal_name_ok r (h r (by simp))
      obtain ⟨vs, hvs⟩ := ih (fun x hx => h x (by simp [hx]))
      exact ⟨v :: vs, by rw [List.mapM_cons, hv, hvs]; rfl⟩

theorem sortData_name_ok (l : List Row) (dir : String)
    (h : ∀ r ∈ l, strOrFalsy (getF r "name") = true) :
    ∃ l2, sortData "name" dir l = .ok l2 ∧ ∀ x, x ∈ l2 ↔ x ∈ l := by
  rw [sortData]
  split
  · exact ⟨l, rfl, fun x => Iff.rfl⟩
  · obtain ⟨vs, hvs⟩ := mapM_extract_name_ok l h
    rw [hvs]
    exact ⟨_, rfl, fun x => stableSortBy_mem _ l x⟩

theorem fieldSearchClause_pure (q : String) (v : Option JSVal)
    (h : strOrFalsy v = true) :
    fieldSearchClause q v = .ok (strFieldMatch q v) := by
  cases v with
  | none => rfl
  | some w =>
      cases w with
      | null => rfl
      | num n =>
          have hn : n = 0 := by simpa [strOrFalsy] using h
          subst hn
          simp [fieldSearchClause, strFieldMatch]
      | str s => rfl
      | strList l2 => simp [strOrFalsy] at h

theorem matchSearch_pure (q : String) (r : Row)
    (h1 : strOrFalsy (getF r "name") = true)
    (h2 : strOrFalsy (getF r "studentId") = true)
    (h3 : strOrFalsy (getF r "subject") = true) :
    matchSearch q r = .ok (searchMatchesP q r) := by
  rw [matchSearch, fieldSearchClause_pure q _ h1, fieldSearchClause_pure q _ h2,
    fieldSearchClause_pure q _ h3, searchMatchesP]
  cases strFieldMatch q (getF r "name") <;>
    cases strFieldMatch q (getF r "studentId") <;>
    cases strFieldMatch q (getF r "subject") <;> rfl

theorem filterSearch_pure (q : String) (l : List Row)
    (h : ∀ r ∈ l, strOrFalsy (getF r "name") = true
      ∧ strOrFalsy (getF r "studentId") = true
      ∧ strOrFalsy (getF r "subject") = true) :
    filterSearch q l = .ok (l.filter (fun r => searchMatchesP q r)) := by
  induction l with
  | nil => rfl
  | cons r rest ih =>
      obtain ⟨ha, hb, hc⟩ := h r (by simp)
      rw [filterSearch, matchSearch_pure q r ha hb hc,
        ih (fun x hx => h x (by simp [hx])), List.filter_cons]

theorem strIncludes_empty (s : String) : strIncludes s "" = true := by
  show includesL s.data "".data = true
  cases hd : s.data with
  | nil => rfl
  | cons c cs => rw [includesL]; rfl

theorem equalityFilters_skip (e : FilterEngine) (f1 : List Row)
    (hs : e.subject = "") (hm : e.semester = "") (hr : e.riskLevel = "") :
    equalityFilters e f1 = f1 := by
  simp [equalityFilters, hs, hm, hr]

theorem searchMatchesP_empty (r : Row)
    (hname : truthyO (getF r "name") = true)
    (hstr : strOrFalsy (getF r "name") = true) :
    searchMatchesP "" r = true := by
  rw [searchMatchesP]
  cases hv : getF r "name" with
  | none => rw [hv] at hname; simp [truthyO] at hname
  | some w =>
      rw [hv] at hname hstr
      cases w with
      | null => simp [truthyO, truthy] at hname
      | num n =>
          have hn : n = 0 := by simpa [strOrFalsy] using hstr
          rw [hn] at hname
          simp [truthyO, truthy] at hname
      | strList l2 => simp [strOrFalsy] at hstr
      | str s =>
          have hs : s ≠ "" := by simpa [truthyO, truthy] using hname
          simp [strFieldMatch, hs, strIncludes_empty]

theorem parseRows_length (now : ℕ) (nh : List String) (ls : List String) :
    ∀ i : ℕ, (parseRows now nh i ls).1.length + (parseRows now nh i ls).2.length
      = ls.length := by
  induction ls with
  | nil => intro i; simp [parseRows]
  | cons line rest ih =>
      intro i
      have h := ih (i + 1)
      simp only [parseRows]
      split
      · simp only [List.length_cons]
        omega
      · split <;> simp only [List.length_cons] <;> omega

/-- C3: parseCSV throws exactly when the input has fewer than two non-blank
lines or no data row survives row-level validation; otherwise it returns
the surviving rows (even when some rows were rejected) together with the
accumulated per-row error messages, which are returned rather than
thrown. -/
theorem C3_parse_error_contract (now : ℕ) (csv : String) :
    (isError (parseCSV now csv) = true ↔
      (csvLines csv).length < 2 ∨ parseSurvivors now csv = [])
    ∧ (∀ d e, parseCSV now csv = .ok (d, e) →
        d = parseSurvivors now csv ∧ e = parseRowErrors now csv) := by
  rcases hcl : csvLines csv with _ | ⟨h1, rest⟩
  · constructor
    · simp [parseCSV, hcl, isError]
    · intro d e hde
      rw [parseCSV, hcl] at hde
      exact absurd hde (by simp)
  · rcases rest with _ | ⟨l2, rest2⟩
    · constructor
      · simp [parseCSV, hcl, isError]
      · intro d e hde
        rw [parseCSV, hcl] at hde
        exact absurd hde (by simp)
    · have hcount := parseRows_length now
        ((parseCSVLine h1).map normalizeHeader) (l2 :: rest2) 2
      have hsurv : parseSurvivors now csv
          = (parseRows now ((parseCSVLine h1).map normalizeHeader) 2 (l2 :: rest2)).1 := by
        rw [parseSurvivors, hcl]
      have herr : parseRowErrors now csv
          = (parseRows now ((parseCSVLine h1).map normalizeHeader) 2 (l2 :: rest2)).2 := by
        rw [parseRowErrors, hcl]
      by_cases hc :
          (parseRows now ((parseCSVLine h1).map normalizeHeader) 2 (l2 :: rest2)).2.length > 0
          ∧ (parseRows now ((parseCSVLine h1).map normalizeHeader) 2 (l2 :: rest2)).1.length = 0
      · constructor
        · simp only [parseCSV, hcl, if_pos hc, isError, true_iff]
          right
          rw [hsurv]
          exact List.length_eq_zero.mp hc.2
        · intro d e hde
          rw [parseCSV, hcl] at hde
          simp only [if_pos hc] at hde
          exact absurd hde (by simp)
      · constructor
        · simp only [parseCSV, hcl, if_neg hc, isError]
          apply iff_of_false (by simp)
          rintro (hlt | hnil)
          · simp at hlt
            omega
          · rw [hsurv] at hnil
            have h0 : (parseRows now ((parseCSVLine h1).map normalizeHeader) 2
                (l2 :: rest2)).1.length = 0 := by rw [hnil]; rfl
            have hpos : (parseRows now ((parseCSVLine h1).map normalizeHeader) 2
                (l2 :: rest2)).2.length > 0 := by
              simp only [List.length_cons] at hcount
              omega
            exact hc ⟨hpos, h0⟩
        · intro d e hde
          rw [parseCSV, hcl] at hde
          simp only [if_neg hc] at hde
          injection hde with hde2
          rw [hsurv, herr]
          exact ⟨congrArg Prod.fst hde2.symm, congrArg Prod.snd hde2.symm⟩

/-- Witness for C3 on a CSV with one valid data row and one row with a
column-count mismatch: the parse succeeds, returns the surviving row and
makes the row error retrievable. -/
theorem C3_parse_error_contract_witness :
    [[("studentId", JSVal.str "S1"), ("name", JSVal.str "Alice"),
      ("marks", JSVal.num 0), ("attendance", JSVal.num 0),
      ("subject", JSVal.str "General"), ("semester", JSVal.str "1"),
      ("assessmentType", JSVal.str "Exam"),
      ("rowId", JSVal.str "S1-General-1-0")]]
      = parseSurvivors 0 "id,name\nS1,Alice\na,b,c"
    ∧ ["Row 3: Column count mismatch"] = parseRowErrors 0 "id,name\nS1,Alice\na,b,c" :=
  (C3_parse_error_contract 0 "id,name\nS1,Alice\na,b,c").2
    [[("studentId", JSVal.str "S1"), ("name", JSVal.str "Alice"),
      ("marks", JSVal.num 0), ("attendance", JSVal.num 0),
      ("subject", JSVal.str "General"), ("semester", JSVal.str "1"),
      ("assessmentType", JSVal.str "Exam"),
      ("rowId", JSVal.str "S1-General-1-0")]]
    ["Row 3: Column count mismatch"] (by with_unfolding_all rfl)

/-- Counterexample to C7 as stated: the parser accepts a CSV with a numeric
name column value (keeping the number 99 as the name), and deriving the
filtered view for the search string "x" on the resulting record set throws
a TypeError instead of never failing. -/
theorem C7_search_counterexample :
    isError (parseCSV 0 "id,name\nS1,99") = false
    ∧ (setSearch "x" (setData c7rows initialFilterEngine).1).2
        = some "TypeError: toLowerCase is not a function" := by
  with_unfolding_all decide

theorem computeFiltered_eq (e : FilterEngine) (f1 : List Row)
    (hfs : (if e.search ≠ "" then filterSearch e.search e.originalData
            else .ok e.originalData) = .ok f1) :
    computeFiltered e = sortData e.sortKey e.sortDir (equalityFilters e f1) := by
  rw [computeFiltered, hfs]

/-- C7 (amended): for a parser-produced record set whose name, studentId
and subject fields are strings (or absent, null or falsy; the code throws a
TypeError on a truthy non-string field, see the counterexample), setting
any search string never fails, and the derived view selects exactly the
records for which the lowercased (and trimmed) search string is a substring
of the lowercased name, studentId or subject. -/
theorem C7_search_filter (now : ℕ) (csv : String) (rows : List Row)
    (errs : List String) (q : String)
    (hparse : parseCSV now csv = .ok (rows, errs))
    (hstr : ∀ r ∈ rows, strOrFalsy (getF r "name") = true
      ∧ strOrFalsy (getF r "studentId") = true
      ∧ strOrFalsy (getF r "subject") = true) :
    ∃ e1, setSearch q (setData rows initialFilterEngine).1 = (e1, none)
      ∧ ∀ r, r ∈ e1.filteredData ↔
          (r ∈ rows ∧ searchMatchesP (String.mk (jsTrim (lowerStr q).data)) r = true) := by
  obtain ⟨l0, hsort0, hmem0⟩ :=
    sortData_name_ok rows "asc" (fun r hr => (hstr r hr).1)
  have hcf0 : computeFiltered
      { initialFilterEngine with originalData := rows } = .ok l0 := by
    rw [computeFiltered_eq _ rows (by simp [initialFilterEngine]),
      equalityFilters_skip _ _ rfl rfl rfl]
    exact hsort0
  have hsd : (setData rows initialFilterEngine).1
      = { initialFilterEngine with
          originalData := rows
          filteredData := l0 } := by
    rw [setData, applyFilters, hcf0]
  rw [hsd, setSearch]
  by_cases hq : String.mk (jsTrim (lowerStr q).data) = ""
  · have hcf1 : computeFiltered
        { initialFilterEngine with
          originalData := rows
          filteredData := l0
          search := String.mk (jsTrim (lowerStr q).data) } = .ok l0 := by
      rw [computeFiltered_eq _ rows (by simp [initialFilterEngine, hq]),
        equalityFilters_skip _ _ rfl rfl rfl]
      exact hsort0
    refine ⟨_, by rw [applyFilters, hcf1], ?_⟩
    intro r
    show r ∈ l0 ↔ _
    rw [hmem0 r, hq]
    constructor
    · intro hr
      refine ⟨hr, searchMatchesP_empty r ?_ (hstr r hr).1⟩
      exact (parseCSV_sound now csv rows errs hparse r hr).2.2.2.1
    · exact fun h => h.1
  · have hfs : filterSearch (String.mk (jsTrim (lowerStr q).data)) rows
        = .ok (rows.filter
            (fun r => searchMatchesP (String.mk (jsTrim (lowerStr q).data)) r)) :=
      filterSearch_pure _ rows hstr
    obtain ⟨l1, hsort1, hmem1⟩ := sortData_name_ok
      (rows.filter (fun r => searchMatchesP (String.mk (jsTrim (lowerStr q).data)) r))
      "asc" (fun r hr => (hstr r (List.mem_filter.mp hr).1).1)
    have hcf1 : computeFiltered
        { initialFilterEngine with
          originalData := rows
          filteredData := l0
          search := String.mk (jsTrim (lowerStr q).data) } = .ok l1 := by
      rw [computeFiltered_eq _ _ (by
          simp only [initialFilterEngine]
          rw [if_pos (by simpa using hq)]
          exact hfs),
        equalityFilters_skip _ _ rfl rfl rfl]
      exact hsort1
    refine ⟨_, by rw [applyFilters, hcf1], ?_⟩
    intro r
    show r ∈ l1 ↔ _
    rw [hmem1 r, List.mem_filter]

/-- Witness for C7 (amended) at the scenario record set and the search
string "ali": the filtered view is derived without an exception. -/
theorem C7_search_filter_witness :
    ∃ e1, setSearch "ali" (setData c1rows initialFilterEngine).1 = (e1, none)
      ∧ ∀ r, r ∈ e1.filteredData ↔
          (r ∈ c1rows ∧
            searchMatchesP (String.mk (jsTrim (lowerStr "ali").data)) r = true) :=
  C7_search_filter 0 c1text c1rows [] "ali" (by with_unfolding_all rfl)
    (by with_unfolding_all decide)

/-- Counterexample to C9 as stated: with a base set of two records whose
name field is numeric (loaded with setData, whose own sort already threw,
leaving the derived view empty), clearFilters resets the query state but
throws the same TypeError again, so getFilteredData stays empty instead of
returning the full base set; both records are excluded. -/
theorem C9_clearFilters_counterexample :
    (clearFilters (setData [c9row1, c9row2] initialFilterEngine).1).1.originalData
      = [c9row1, c9row2]
    ∧ (clearFilters (setData [c9row1, c9row2] initialFilterEngine).1).1.search = ""
    ∧ (clearFilters (setData [c9row1, c9row2] initialFilterEngine).1).1.filteredData = []
    ∧ c9row1 ∉ (clearFilters (setData [c9row1, c9row2] initialFilterEngine).1).1.filteredData
    ∧ (clearFilters (setData [c9row1, c9row2] initialFilterEngine).1).2
      = some "TypeError: toLowerCase is not a function" := by
  with_unfolding_all decide

/-- C9 (amended): for every engine state whose base records carry a string
(or absent, null or falsy) name (the code throws a TypeError on a truthy
non-string name, see the counterexample), clearFilters resets the query
state to its defaults (empty search and selects, sort by name ascending),
throws nothing, and the derived view becomes exactly the full base set
ordered by the default name-ascending sort, with no record excluded. -/
theorem C9_clearFilters_resets (e : FilterEngine)
    (hname : ∀ r ∈ e.originalData, strOrFalsy (getF r "name") = true) :
    ∃ l, clearFilters e =
      ({ e with
         search := "", subject := "", semester := "", riskLevel := "",
         sortKey := "name", sortDir := "asc", filteredData := l }, none)
      ∧ sortData "name" "asc" e.originalData = .ok l
      ∧ ∀ r, r ∈ l ↔ r ∈ e.originalData := by
  obtain ⟨l, hsort, hmem⟩ := sortData_name_ok e.originalData "asc" hname
  have hcf : computeFiltered
      { e with
        search := "", subject := "", semester := "",
        riskLevel := "", sortKey := "name", sortDir := "asc" } = .ok l := by
    rw [computeFiltered_eq _ e.originalData (by simp),
      equalityFilters_skip _ _ rfl rfl rfl]
    exact hsort
  exact ⟨l, by rw [clearFilters, applyFilters, hcf], hsort, hmem⟩

/-- Witness for C9 (amended) on a concrete engine with two string-named
records and every filter and a different sort previously set. -/
theorem C9_clearFilters_resets_witness :
    ∃ l, clearFilters
        { originalData := [[("name", JSVal.str "Zoe")], [("name", JSVal.str "Ann")]]
          filteredData := []
          search := "zz"
          subject := "Math"
          semester := "2"
          riskLevel := "high"
          sortKey := "score"
          sortDir := "desc" } =
      ({ originalData := [[("name", JSVal.str "Zoe")], [("name", JSVal.str "Ann")]]
         filteredData := l
         search := ""
         subject := ""
         semester := ""
         riskLevel := ""
         sortKey := "name"
         sortDir := "asc" }, none)
      ∧ sortData "name" "asc"
          [[("name", JSVal.str "Zoe")], [("name", JSVal.str "Ann")]] = .ok l
      ∧ ∀ r, r ∈ l ↔
          r ∈ [[("name", JSVal.str "Zoe")], [("name", JSVal.str "Ann")]] :=
  C9_clearFilters_resets
    { originalData := [[("name", JSVal.str "Zoe")], [("name", JSVal.str "Ann")]]
      filteredData := []
      search := "zz"
      subject := "Math"
      semester := "2"
      riskLevel := "high"
      sortKey := "score"
      sortDir := "desc" }
    (by with_unfolding_all decide)

/-- Counterexample to C4 as stated: parsing "id,name\nS1,Alice" yields one
record whose semester field is the string "1" (the parser's default), but
re-parsing its re-serialization yields the number 1 for semester, so the
fields of the round-tripped record are not all equal to the originals. -/
theorem C4_roundtrip_counterexample :
    c4rows.map (fun r => getF r "semester") = [some (.str "1")]
    ∧ ((parseCSV 1 (downloadCSVString c4rows)).toOption.elim [] Prod.fst).map
        (fun r => getF r "semester") = [some (.num 1)]
    ∧ (JSVal.str "1") ≠ (JSVal.num 1) := by
  with_unfolding_all decide

/-! Lemmas on decimal printing and parsing (towards the round-trip
theorem). -/

theorem digitChar_isDigit (n : ℕ) (h : n < 10) :
    isDigitChar (digitChar n) = true := by
  interval_cases n <;> decide

theorem digitVal_digitChar (n : ℕ) (h : n < 10) :
    digitVal (digitChar n) = n := by
  interval_cases n <;> decide

theorem digitsVal_foldl (ds : List Char) : ∀ a : ℕ,
    ds.foldl (fun a c => 10 * a + digitVal c) a
      = a * 10 ^ ds.length + digitsVal ds := by
  induction ds with
  | nil => intro a; simp [digitsVal]
  | cons c cs ih =>
      intro a
      rw [List.foldl_cons, ih]
      have h2 : digitsVal (c :: cs) = digitVal c * 10 ^ cs.length + digitsVal cs := by
        show List.foldl _ _ (c :: cs) = _
        rw [List.foldl_cons, ih]
        ring_nf
      rw [h2]
      simp [List.length_cons]
      ring

theorem digitsVal_cons (c : Char) (cs : List Char) :
    digitsVal (c :: cs) = digitVal c * 10 ^ cs.length + digitsVal cs := by
  show List.foldl _ _ (c :: cs) = _
  rw [List.foldl_cons, digitsVal_foldl]
  ring_nf

theorem digitsVal_snoc (ds : List Char) (c : Char) :
    digitsVal (ds ++ [c]) = 10 * digitsVal ds + digitVal c := by
  show List.foldl _ _ (ds ++ [c]) = _
  rw [List.foldl_append]
  rfl

theorem natDigitsAux_correct : ∀ fuel n : ℕ, n ≤ fuel →
    digitsVal (natDigitsAux fuel n) = n
    ∧ (∀ c ∈ natDigitsAux fuel n, isDigitChar c = true)
    ∧ (natDigitsAux fuel n = [] ↔ n = 0) := by
  intro fuel
  induction fuel with
  | zero =>
      intro n hn
      have : n = 0 := Nat.le_zero.mp hn
      subst this
      exact ⟨rfl, by simp [natDigitsAux], by simp [natDigitsAux]⟩
  | succ fuel ih =>
      intro n hn
      by_cases h0 : n = 0
      · subst h0
        exact ⟨by simp [natDigitsAux, digitsVal], by simp [natDigitsAux],
          by simp [natDigitsAux]⟩
      · have hdiv : n / 10 ≤ fuel := by omega
        obtain ⟨ihv, ihd, _⟩ := ih (n / 10) hdiv
        have hstep : natDigitsAux (fuel + 1) n
            = natDigitsAux fuel (n / 10) ++ [digitChar (n % 10)] := by
          rw [natDigitsAux, if_neg h0]
        refine ⟨?_, ?_, ?_⟩
        · rw [hstep, digitsVal_snoc, ihv, digitVal_digitChar _ (Nat.mod_lt n (by norm_num))]
          omega
        · intro c hc
          rw [hstep] at hc
          rcases List.mem_append.mp hc with hc1 | hc2
          · exact ihd c hc1
          · rw [List.mem_singleton.mp hc2]
            exact digitChar_isDigit _ (Nat.mod_lt n (by norm_num))
        · rw [hstep]
          simp [h0]

theorem natToDigits_correct (n : ℕ) :
    digitsVal (natToDigits n) = n
    ∧ (∀ c ∈ natToDigits n, isDigitChar c = true)
    ∧ natToDigits n ≠ [] := by
  by_cases h0 : n = 0
  · subst h0
    exact ⟨by decide, by decide, by decide⟩
  · obtain ⟨hv, hd, hne⟩ := natDigitsAux_correct (n + 1) n (by omega)
    rw [natToDigits, if_neg h0]
    exact ⟨hv, hd, fun h => h0 (hne.mp h)⟩

theorem takeDigits_all_digits (ds : List Char)
    (h : ∀ c ∈ ds, isDigitChar c = true) : takeDigits ds = (ds, []) := by
  induction ds with
  | nil => rfl
  | cons c cs ih =>
      rw [takeDigits, if_pos (h c (by simp)), ih (fun x hx => h x (by simp [hx]))]

theorem takeDigits_append_stop (ds rest : List Char)
    (h : ∀ c ∈ ds, isDigitChar c = true)
    (hstop : match rest with
      | [] => True
      | c :: _ => isDigitChar c = false) :
    takeDigits (ds ++ rest) = (ds, rest) := by
  induction ds with
  | nil =>
      cases rest with
      | nil => rfl
      | cons c r2 =>
          simp only [List.nil_append]
          rw [takeDigits, if_neg (by simp_all)]
  | cons c cs ih =>
      rw [List.cons_append, takeDigits, if_pos (h c (by simp)),
        ih (fun x hx => h x (by simp [hx]))]

theorem dvd_ten_pow_self : ∀ d : ℕ, ∀ k, d ∣ 10 ^ k → d ∣ 10 ^ d := by
  intro d
  induction d using Nat.strong_induction_on with
  | _ d ih =>
      intro k hk
      rcases eq_or_ne d 1 with h1 | h1
      · simp [h1]
      rcases eq_or_ne d 0 with h0 | h0
      · subst h0
        exact absurd (Nat.eq_zero_of_zero_dvd hk) (by positivity)
      obtain ⟨p, hp, hpd⟩ := Nat.exists_prime_and_dvd h1
      have hp10 : p ∣ 10 := hp.dvd_of_dvd_pow (hpd.trans hk)
      obtain ⟨d2, hd2⟩ := hpd
      have hd2ne : d2 ≠ 0 := by
        intro h
        exact h0 (by rw [hd2, h, Nat.mul_zero])
      have hp2 : 2 ≤ p := hp.two_le
      have hd2lt : d2 < d := by
        rw [hd2]
        calc d2 < 2 * d2 := by omega
        _ ≤ p * d2 := Nat.mul_le_mul_right d2 hp2
      have hd2dvd : d2 ∣ 10 ^ k := dvd_trans ⟨p, by rw [hd2]; ring⟩ hk
      have ih2 := ih d2 hd2lt k hd2dvd
      have hstep : d ∣ 10 ^ (d2 + 1) := by
        rw [hd2, pow_succ, Nat.mul_comm (10 ^ d2) 10]
        exact Nat.mul_dvd_mul hp10 ih2
      exact hstep.trans (pow_dvd_pow 10 (by omega))

theorem den_one_of_den_dvd {q : ℚ} {m : ℕ} (h : q.den ∣ 10 ^ m) :
    (q * 10 ^ m).den = 1 := by
  obtain ⟨c, hc⟩ := h
  have hd0 : (q.den : ℚ) ≠ 0 := by exact_mod_cast q.den_nz
  have hnum : (q.num : ℚ) = q * q.den :=
    (div_eq_iff hd0).mp (Rat.num_div_den q)
  have hq : q * 10 ^ m = ((q.num * c : ℤ) : ℚ) := by
    have h1 : ((10 : ℚ)) ^ m = ((10 ^ m : ℕ) : ℚ) := by push_cast; ring
    rw [h1, hc]
    push_cast
    rw [hnum]
    ring
  rw [hq]
  exact Rat.den_intCast _

theorem den_dvd_of_mul_pow_den_one {q : ℚ} {k : ℕ}
    (h : (q * 10 ^ k).den = 1) : q.den ∣ 10 ^ k := by
  have hz := (Rat.den_eq_one_iff _).mp h
  have hq : q = (((q * 10 ^ k).num : ℚ)) / (((10 : ℤ) ^ k : ℤ) : ℚ) := by
    rw [hz]
    push_cast
    have hpow : ((10 : ℚ)) ^ k ≠ 0 := by positivity
    field_simp
  have hdvd := Rat.den_dvd ((q * 10 ^ k).num) ((10 : ℤ) ^ k)
  rw [Rat.divInt_eq_div, ← hq] at hdvd
  have h2 : (q.den : ℤ) ∣ ((10 ^ k : ℕ) : ℤ) := by
    have h3 : ((10 : ℤ) ^ k) = ((10 ^ k : ℕ) : ℤ) := by push_cast; ring
    rw [← h3]
    exact hdvd
  exact_mod_cast h2

theorem decimalQ_of_pow {q : ℚ} (k : ℕ) (h : (q * 10 ^ k).den = 1) :
    DecimalQ q :=
  den_one_of_den_dvd (dvd_ten_pow_self q.den k (den_dvd_of_mul_pow_den_one h))

theorem fracDigitsAux_correct : ∀ (fuel : ℕ) (r : ℚ), 0 ≤ r → r < 1 →
    (r * 10 ^ fuel).den = 1 →
    ((digitsVal (fracDigitsAux fuel r) : ℚ)
        = r * 10 ^ (fracDigitsAux fuel r).length)
    ∧ ∀ c ∈ fracDigitsAux fuel r, isDigitChar c = true := by
  intro fuel
  induction fuel with
  | zero =>
      intro r h0 h1 hden
      have hd1 : r.den = 1 := by simpa using hden
      have hz := (Rat.den_eq_one_iff r).mp hd1
      have hb1 : (0 : ℚ) ≤ (r.num : ℚ) := by rw [hz]; exact h0
      have hb2 : (r.num : ℚ) < 1 := by rw [hz]; exact h1
      have hi1 : (0 : ℤ) ≤ r.num := by exact_mod_cast hb1
      have hi2 : r.num < 1 := by exact_mod_cast hb2
      have hn0 : r.num = 0 := by omega
      have hr : r = 0 := by rw [← hz, hn0]; norm_num
      subst hr
      have he : fracDigitsAux 0 (0 : ℚ) = [] := rfl
      exact ⟨by rw [he]; simp [digitsVal], by rw [he]; simp⟩
  | succ fuel ih =>
      intro r h0 h1 hden
      by_cases hr0 : r = 0
      · subst hr0
        have he : fracDigitsAux (fuel + 1) (0 : ℚ) = [] := by
          with_unfolding_all rfl
        exact ⟨by rw [he]; simp [digitsVal], by rw [he]; simp⟩
      · have hd0 : (0 : ℤ) ≤ ⌊r * 10⌋ := Int.floor_nonneg.mpr (by positivity)
        have hd9 : ⌊r * 10⌋ < 10 := by
          rw [Int.floor_lt]
          push_cast
          linarith
        have hd10 : ⌊r * 10⌋.toNat < 10 := by omega
        have hcast : ((⌊r * 10⌋.toNat : ℕ) : ℚ) = ((⌊r * 10⌋ : ℤ) : ℚ) :=
          mod_cast congrArg (fun z : ℤ => (z : ℚ)) (Int.toNat_of_nonneg hd0)
        have hstep : fracDigitsAux (fuel + 1) r
            = digitChar (⌊r * 10⌋.toNat)
              :: fracDigitsAux fuel (r * 10 - ((⌊r * 10⌋.toNat : ℕ) : ℚ)) := by
          rw [show fracDigitsAux (fuel + 1) r
              = (if r = 0 then [] else digitChar (⌊r * 10⌋.toNat)
                :: fracDigitsAux fuel (r * 10 - ((⌊r * 10⌋.toNat : ℕ) : ℚ)))
            from rfl, if_neg hr0]
        have hr1 : (0 : ℚ) ≤ r * 10 - ((⌊r * 10⌋.toNat : ℕ) : ℚ) := by
          rw [hcast]
          have := Int.floor_le (r * 10)
          linarith
        have hr2 : r * 10 - ((⌊r * 10⌋.toNat : ℕ) : ℚ) < 1 := by
          rw [hcast]
          have := Int.lt_floor_add_one (r * 10)
          linarith
        have hrden : ((r * 10 - ((⌊r * 10⌋.toNat : ℕ) : ℚ)) * 10 ^ fuel).den = 1 := by
          have hz := (Rat.den_eq_one_iff _).mp hden
          have heq : (r * 10 - ((⌊r * 10⌋.toNat : ℕ) : ℚ)) * 10 ^ fuel
              = (((r * 10 ^ (fuel + 1)).num - (⌊r * 10⌋.toNat : ℤ) * 10 ^ fuel : ℤ) : ℚ) := by
            push_cast
            rw [hz]
            ring
          rw [heq]
          exact Rat.den_intCast _
        obtain ⟨ihv, ihd⟩ :=
          ih (r * 10 - ((⌊r * 10⌋.toNat : ℕ) : ℚ)) hr1 hr2 hrden
        constructor
        · rw [hstep, digitsVal_cons, digitVal_digitChar _ hd10, List.length_cons]
          push_cast
          rw [ihv]
          ring
        · intro c hc
          rw [hstep] at hc
          rcases List.mem_cons.mp hc with hc1 | hc2
          · rw [hc1]
            exact digitChar_isDigit _ hd10
          · exact ihd c hc2

theorem numToStringNN_spec (q : ℚ) (h0 : 0 ≤ q) (hd : DecimalQ q) :
    parseUnsigned (numToStringNN q).data = some (q, [])
    ∧ (∀ c ∈ (numToStringNN q).data, isDigitChar c = true ∨ c = '.')
    ∧ (numToStringNN q).data ≠ [] := by
  have hfn : (0 : ℤ) ≤ ⌊q⌋ := Int.floor_nonneg.mpr h0
  have hcast : ((⌊q⌋.toNat : ℕ) : ℚ) = ((⌊q⌋ : ℤ) : ℚ) :=
    mod_cast congrArg (fun z : ℤ => (z : ℚ)) (Int.toNat_of_nonneg hfn)
  have hfr0 : (0 : ℚ) ≤ q - ((⌊q⌋.toNat : ℕ) : ℚ) := by
    rw [hcast]
    have := Int.floor_le q
    linarith
  have hfr1 : q - ((⌊q⌋.toNat : ℕ) : ℚ) < 1 := by
    rw [hcast]
    have := Int.lt_floor_add_one q
    linarith
  have hfrden : ((q - ((⌊q⌋.toNat : ℕ) : ℚ)) * 10 ^ q.den).den = 1 := by
    have hz := (Rat.den_eq_one_iff _).mp hd
    have heq : (q - ((⌊q⌋.toNat : ℕ) : ℚ)) * 10 ^ q.den
        = (((q * 10 ^ q.den).num - (⌊q⌋.toNat : ℤ) * 10 ^ q.den : ℤ) : ℚ) := by
      push_cast
      rw [hz]
      ring
    rw [heq]
    exact Rat.den_intCast _
  obtain ⟨hnv, hnd, hnne⟩ := natToDigits_correct (⌊q⌋.toNat)
  have hunf : numToStringNN q
      = if q - ((⌊q⌋.toNat : ℕ) : ℚ) = 0 then natToString (⌊q⌋.toNat)
        else natToString (⌊q⌋.toNat) ++ "." ++
          String.mk (fracDigitsAux q.den (q - ((⌊q⌋.toNat : ℕ) : ℚ))) := rfl
  by_cases hfz : q - ((⌊q⌋.toNat : ℕ) : ℚ) = 0
  · have hq : q = ((⌊q⌋.toNat : ℕ) : ℚ) := by linarith
    rw [hunf, if_pos hfz]
    have hdata : (natToString (⌊q⌋.toNat)).data = natToDigits (⌊q⌋.toNat) := rfl
    rw [hdata]
    have htake := takeDigits_all_digits _ hnd
    refine ⟨?_, fun c hc => Or.inl (hnd c hc), hnne⟩
    rw [parseUnsigned, htake]
    have hie : (natToDigits (⌊q⌋.toNat)).isEmpty = false := by
      cases he : natToDigits (⌊q⌋.toNat) with
      | nil => exact absurd he hnne
      | cons a l => rfl
    simp only [hie]
    rw [hnv, ← hq]
    rfl
  · obtain ⟨hfv, hfd⟩ := fracDigitsAux_correct q.den _ hfr0 hfr1 hfrden
    rw [hunf, if_neg hfz]
    have hdata : (natToString (⌊q⌋.toNat) ++ "." ++
        String.mk (fracDigitsAux q.den (q - ((⌊q⌋.toNat : ℕ) : ℚ)))).data
        = natToDigits (⌊q⌋.toNat) ++
          ('.' :: fracDigitsAux q.den (q - ((⌊q⌋.toNat : ℕ) : ℚ))) := by
      rw [String.data_append, String.data_append]
      have hdot : ".".data = ['.'] := by decide
      rw [hdot, List.append_assoc]
      rfl
    rw [hdata]
    have htake := takeDigits_append_stop (natToDigits (⌊q⌋.toNat))
      ('.' :: fracDigitsAux q.den (q - ((⌊q⌋.toNat : ℕ) : ℚ))) hnd (by exact rfl)
    have htake2 := takeDigits_all_digits _ hfd
    refine ⟨?_, ?_, ?_⟩
    · rw [parseUnsigned, htake]
      simp only
      rw [htake2]
      have hie : (natToDigits (⌊q⌋.toNat)).isEmpty = false := by
        cases he : natToDigits (⌊q⌋.toNat) with
        | nil => exact absurd he hnne
        | cons a l => rfl
      simp only [hie, Bool.false_and, if_false]
      rw [hnv]
      have h10 : ((10 : ℚ)) ^ (fracDigitsAux q.den
          (q - ((⌊q⌋.toNat : ℕ) : ℚ))).length ≠ 0 := by positivity
      rw [hfv]
      congr 2
      field_simp
    · intro c hc
      rcases List.mem_append.mp hc with hc1 | hc2
      · exact Or.inl (hnd c hc1)
      · rcases List.mem_cons.mp hc2 with hc3 | hc4
        · exact Or.inr hc3
        · exact Or.inl (hfd c hc4)
    · intro h
      rw [List.append_eq_nil] at h
      exact hnne h.1

theorem decimalQ_zero : DecimalQ 0 := by
  unfold DecimalQ
  with_unfolding_all decide

theorem decimalQ_hundred : DecimalQ 100 := by
  unfold DecimalQ
  with_unfolding_all decide

theorem decimalQ_neg {q : ℚ} (h : DecimalQ q) : DecimalQ (-q) := by
  unfold DecimalQ at h ⊢
  rw [Rat.neg_den]
  have heq : -q * 10 ^ q.den = -(q * 10 ^ q.den) := by ring
  rw [heq, Rat.neg_den]
  exact h

theorem decimalQ_clamp {q : ℚ} (h : DecimalQ q) : DecimalQ (clamp100 q) := by
  unfold clamp100
  rcases max_choice (0 : ℚ) (min 100 q) with hM | hM <;> rw [hM]
  · exact decimalQ_zero
  · rcases min_choice (100 : ℚ) q with hm | hm <;> rw [hm]
    · exact decimalQ_hundred
    · exact h

theorem natCast_den_one (n : ℕ) : ((n : ℕ) : ℚ).den = 1 := by
  have : ((n : ℕ) : ℚ) = ((n : ℤ) : ℚ) := by push_cast; ring
  rw [this]
  exact Rat.den_intCast _

theorem parseUnsigned_decimal (cs : List Char) (v : ℚ) (rest : List Char)
    (h : parseUnsigned cs = some (v, rest)) : DecimalQ v := by
  rw [parseUnsigned] at h
  split at h
  · rename_i r heq0
    split at h
    · exact absurd h (by simp)
    · injection h with h2
      injection h2 with h3 _
      refine decimalQ_of_pow (takeDigits r).1.length ?_
      have heq : v * 10 ^ ((takeDigits r).1.length)
          = ((digitsVal (takeDigits cs).1 * 10 ^ ((takeDigits r).1.length)
              + digitsVal (takeDigits r).1 : ℕ) : ℚ) := by
        rw [← h3]
        have h10 : ((10 : ℚ)) ^ ((takeDigits r).1.length) ≠ 0 := by positivity
        push_cast
        field_simp
      rw [heq]
      exact natCast_den_one _
  · split at h
    · exact absurd h (by simp)
    · injection h with h2
      injection h2 with h3 _
      refine decimalQ_of_pow 0 ?_
      rw [pow_zero, mul_one, ← h3]
      exact natCast_den_one _

theorem parseNumPrefix_decimal (cs : List Char) (v : ℚ) (rest : List Char)
    (h : parseNumPrefix cs = some (v, rest)) : DecimalQ v := by
  cases cs with
  | nil => exact parseUnsigned_decimal [] v rest h
  | cons c r =>
      rw [parseNumPrefix] at h
      split at h
      · rcases hu : parseUnsigned r with _ | ⟨p⟩
        · rw [hu] at h
          exact absurd h (by simp)
        · rw [hu] at h
          injection h with h2
          injection h2 with h3 _
          rw [← h3]
          exact decimalQ_neg (parseUnsigned_decimal r p.1 p.2 hu)
      · split at h
        · exact parseUnsigned_decimal _ _ _ h
        · exact parseUnsigned_decimal _ _ _ h

theorem jsParseFloat_decimal (s : String) (v : ℚ)
    (h : jsParseFloat s = some v) : DecimalQ v := by
  rw [jsParseFloat] at h
  rcases hp : parseNumPrefix (s.data.dropWhile jsWhitespace) with _ | ⟨p⟩
  · rw [hp] at h
    exact absurd h (by simp)
  · rw [hp] at h
    injection h with h2
    rw [← h2]
    exact parseNumPrefix_decimal _ _ _ hp

theorem jsParseFloat_numToString (q : ℚ) (hd : DecimalQ q) :
    jsParseFloat (numToString q) = some q := by
  by_cases hq : q < 0
  · have hneg : DecimalQ (-q) := decimalQ_neg hd
    obtain ⟨hp, hchars, hne⟩ := numToStringNN_spec (-q) (by linarith) hneg
    have hdata : (numToString q).data = '-' :: (numToStringNN (-q)).data := by
      rw [numToString, if_pos hq, String.data_append]
      have hdash : "-".data = ['-'] := by decide
      rw [hdash]
      rfl
    rw [jsParseFloat, hdata]
    have hdw : (('-' :: (numToStringNN (-q)).data).dropWhile jsWhitespace)
        = '-' :: (numToStringNN (-q)).data := by
      rw [List.dropWhile_cons, show jsWhitespace '-' = false from by decide]
      simp
    rw [hdw, parseNumPrefix, if_pos rfl, hp]
    simp
  · push_neg at hq
    obtain ⟨hp, hchars, hne⟩ := numToStringNN_spec q hq hd
    have hdata : (numToString q).data = (numToStringNN q).data := by
      rw [numToString, if_neg (by linarith)]
    rw [jsParseFloat, hdata]
    cases hcs : (numToStringNN q).data with
    | nil => exact absurd hcs hne
    | cons c r =>
        have hcd : isDigitChar c = true ∨ c = '.' := hchars c (by rw [hcs]; simp)
        have hnw : jsWhitespace c = false := by
          rcases hcd with hcd | hcd
          · by_contra hw
            rw [Bool.not_eq_false] at hw
            unfold jsWhitespace at hw
            simp only [Bool.or_eq_true, decide_eq_true_eq] at hw
            rcases hw with ((hc | hc) | hc) | hc <;> subst hc <;>
              exact absurd hcd (by decide)
          · subst hcd
            decide
        have hdw : ((c :: r).dropWhile jsWhitespace) = c :: r := by
          rw [List.dropWhile_cons, hnw]
          simp
        have hcm : c ≠ '-' := by
          intro he
          subst he
          rcases hcd with hcd | hcd
          · exact absurd hcd (by decide)
          · exact absurd hcd (by decide)
        have hcp : c ≠ '+' := by
          intro he
          subst he
          rcases hcd with hcd | hcd
          · exact absurd hcd (by decide)
          · exact absurd hcd (by decide)
        rw [hdw, parseNumPrefix, if_neg hcm, if_neg hcp, ← hcs, hp]
        rfl

theorem dropWhile_eq_self_of_all {p : Char → Bool} {cs : List Char}
    (h : ∀ c ∈ cs, p c = false) : cs.dropWhile p = cs := by
  cases cs with
  | nil => rfl
  | cons c r =>
      rw [List.dropWhile_cons, h c (List.mem_cons_self c r)]
      simp

theorem jsTrim_eq_self_of_all {cs : List Char}
    (h : ∀ c ∈ cs, jsWhitespace c = false) : jsTrim cs = cs := by
  unfold jsTrim
  rw [dropWhile_eq_self_of_all h,
    dropWhile_eq_self_of_all (fun c hc => h c (List.mem_reverse.mp hc)),
    List.reverse_reverse]

theorem jsTrim_ne_nil_of_mem {c : Char} {cs : List Char} (hc : c ∈ cs)
    (hw : jsWhitespace c = false) : jsTrim cs ≠ [] := by
  intro h
  unfold jsTrim at h
  rw [List.reverse_eq_nil_iff] at h
  have h2 := List.dropWhile_eq_nil_iff.mp h
  have h3 : List.dropWhile jsWhitespace cs = [] ∨
      ∀ x ∈ List.dropWhile jsWhitespace cs, jsWhitespace x = true := by
    right
    intro x hx
    exact h2 x (List.mem_reverse.mpr hx)
  have hall : ∀ x ∈ cs, jsWhitespace x = true := by
    intro x hx
    rw [← List.takeWhile_append_dropWhile (p := jsWhitespace) (l := cs)] at hx
    rcases List.mem_append.mp hx with hx1 | hx2
    · exact List.mem_takeWhile_imp hx1
    · rcases h3 with h3 | h3
      · rw [h3] at hx2
        exact absurd hx2 (List.not_mem_nil x)
      · exact h3 x hx2
  rw [hall c hc] at hw
  exact absurd hw (by simp)

theorem digit_dot_dash_safe {c : Char}
    (h : isDigitChar c = true ∨ c = '.' ∨ c = '-') :
    jsWhitespace c = false ∧ c ≠ ',' ∧ c ≠ '"' ∧ c ≠ '\n' := by
  rcases h with h | h | h
  · refine ⟨?_, ?_, ?_, ?_⟩
    · by_contra hw
      rw [Bool.not_eq_false] at hw
      unfold jsWhitespace at hw
      simp only [Bool.or_eq_true, decide_eq_true_eq] at hw
      rcases hw with ((hc | hc) | hc) | hc <;> subst hc <;>
        exact absurd h (by decide)
    · intro hc; subst hc; exact absurd h (by decide)
    · intro hc; subst hc; exact absurd h (by decide)
    · intro hc; subst hc; exact absurd h (by decide)
  · subst h; refine ⟨by decide, by decide, by decide, by decide⟩
  · subst h; refine ⟨by decide, by decide, by decide, by decide⟩

theorem numToString_chars {q : ℚ} (hd : DecimalQ q) :
    ∀ c ∈ (numToString q).data, isDigitChar c = true ∨ c = '.' ∨ c = '-' := by
  intro c hc
  by_cases hq : q < 0
  · rw [numToString, if_pos hq, String.data_append,
      show ("-" : String).data = ['-'] from by decide] at hc
    rcases List.mem_cons.mp hc with hc | hc
    · exact Or.inr (Or.inr hc)
    · obtain ⟨_, hchars, _⟩ :=
        numToStringNN_spec (-q) (by linarith) (decimalQ_neg hd)
      rcases hchars c hc with h | h
      · exact Or.inl h
      · exact Or.inr (Or.inl h)
  · rw [numToString, if_neg hq] at hc
    obtain ⟨_, hchars, _⟩ :=
      numToStringNN_spec q (by linarith) hd
    rcases hchars c hc with h | h
    · exact Or.inl h
    · exact Or.inr (Or.inl h)

theorem numToString_ne_nil {q : ℚ} (hd : DecimalQ q) :
    (numToString q).data ≠ [] := by
  by_cases hq : q < 0
  · rw [numToString, if_pos hq, String.data_append,
      show ("-" : String).data = ['-'] from by decide]
    simp
  · rw [numToString, if_neg hq]
    obtain ⟨_, _, hne⟩ := numToStringNN_spec q (by linarith) hd
    exact hne

theorem getLast_mem_of_eq {l : List Char} {c : Char}
    (h : l.getLast? = some c) : c ∈ l := by
  obtain ⟨hne, heq⟩ := List.mem_getLast?_eq_getLast (Option.mem_def.mpr h)
  rw [heq]
  exact List.getLast_mem hne

theorem stripEdge_eq_self {c : Char} {l : List Char}
    (h1 : l.head? ≠ some c) (h2 : l.getLast? ≠ some c) :
    stripEdge c l = l := by
  show (if (if l.head? = some c then l.tail else l).getLast? = some c
        then (if l.head? = some c then l.tail else l).dropLast
        else (if l.head? = some c then l.tail else l)) = l
  rw [if_neg h1, if_neg h2]

theorem cleanValue_numToString {q : ℚ} (hd : DecimalQ q) :
    cleanValue (numToString q) = .num q := by
  have hchars := numToString_chars hd
  have hne := numToString_ne_nil hd
  have hnws : ∀ c ∈ (numToString q).data, jsWhitespace c = false :=
    fun c hc => (digit_dot_dash_safe (hchars c hc)).1
  have htrim : jsTrim (numToString q).data = (numToString q).data :=
    jsTrim_eq_self_of_all hnws
  have hstrip : stripEdge '"' (numToString q).data = (numToString q).data := by
    refine stripEdge_eq_self ?_ ?_
    · intro hh
      rcases hcs : (numToString q).data with _ | ⟨c, r⟩
      · exact hne hcs
      · rw [hcs] at hh
        simp only [List.head?] at hh
        injection hh with hh
        exact (digit_dot_dash_safe (hchars c (by rw [hcs]; simp))).2.2.1 hh
    · intro hh
      have hmem := getLast_mem_of_eq hh
      exact (digit_dot_dash_safe (hchars _ hmem)).2.2.1 rfl
  rw [cleanValue, if_neg (by rw [htrim]; exact hne)]
  simp only [hstrip, show String.mk (numToString q).data = numToString q from rfl,
    jsParseFloat_numToString q hd]

theorem cleanValue_cellToken {v : JSVal} (hclean : CleanVal v)
    (hq : QuoteEdgeFree v) : cleanValue (cellToken v) = reCoerce v := by
  cases v with
  | null => with_unfolding_all decide
  | num q => exact cleanValue_numToString hclean
  | strList l => exact absurd hclean (by simp [CleanVal])
  | str s =>
      obtain ⟨htrim, _⟩ := hclean
      obtain ⟨hh1, hh2⟩ := hq
      by_cases hs : s = ""
      · subst hs
        with_unfolding_all decide
      · have hdne : s.data ≠ [] := by
          intro h
          exact hs (by cases s; simp_all)
        have hstrip : stripEdge '"' s.data = s.data := stripEdge_eq_self hh1 hh2
        rw [show cellToken (.str s) = s from rfl, cleanValue,
          if_neg (by rw [htrim]; exact hdne)]
        have hre : reCoerce (.str s)
            = (match jsParseFloat s with
               | some q => JSVal.num q
               | none => JSVal.str s) := by
          rw [show reCoerce (.str s) = (if s = "" then JSVal.null else
              match jsParseFloat s with
              | some q => JSVal.num q
              | none => JSVal.str s) from rfl, if_neg hs]
        rw [hre]
        simp only [hstrip, show String.mk s.data = s from rfl, htrim]

/-! Lemmas on the CSV line tokenizer (towards the round-trip theorem). -/

theorem pclOut_nil (cur : List Char) :
    pclOut cur [] = [String.mk (jsTrim cur.reverse)] := rfl

theorem pclOut_quote (cur rest : List Char) :
    pclOut cur ('"' :: rest) = pclIn cur rest := rfl

theorem pclOut_comma (cur rest : List Char) :
    pclOut cur (',' :: rest)
      = String.mk (jsTrim cur.reverse) :: pclOut [] rest := rfl

theorem pclOut_other (cur : List Char) (c : Char) (rest : List Char)
    (h1 : c ≠ '"') (h2 : c ≠ ',') :
    pclOut cur (c :: rest) = pclOut (c :: cur) rest := by
  rw [pclOut.eq_def]
  split
  · simp_all
  · simp_all
  · simp_all
  · rename_i x c2 r2 hn1 hn2 heq
    injection heq with hc hr
    subst hc
    subst hr
    rfl

theorem pclIn_qq (cur rest : List Char) :
    pclIn cur ('"' :: '"' :: rest) = pclIn ('"' :: cur) rest := rfl

theorem pclIn_exit (cur rest : List Char) (h : rest.head? ≠ some '"') :
    pclIn cur ('"' :: rest) = pclOut cur rest := by
  rw [pclIn.eq_def]
  split
  · simp_all
  · simp_all
  · rename_i x r2 hn heq
    injection heq with hc hr
    subst hr
    rfl
  · simp_all
    rename_i hn heq
    exact absurd heq.1.symm hn

theorem pclIn_other (cur : List Char) (c : Char) (rest : List Char)
    (h1 : c ≠ '"') :
    pclIn cur (c :: rest) = pclIn (c :: cur) rest := by
  rw [pclIn.eq_def]
  split
  · simp_all
  · simp_all
  · simp_all
  · rename_i x c2 r2 hn1 hn2 heq
    injection heq with hc hr
    subst hc
    subst hr
    rfl

theorem pclOut_raw_append (cs : List Char)
    (h : ∀ c ∈ cs, c ≠ '"' ∧ c ≠ ',') :
    ∀ (cur rest : List Char),
      pclOut cur (cs ++ rest) = pclOut (cs.reverse ++ cur) rest := by
  induction cs with
  | nil => intro cur rest; simp
  | cons c cs ih =>
      intro cur rest
      have hc := h c (List.mem_cons_self c cs)
      rw [List.cons_append, pclOut_other cur c _ hc.1 hc.2,
        ih (fun x hx => h x (List.mem_cons_of_mem c hx)) (c :: cur) rest,
        List.reverse_cons, List.append_assoc, List.singleton_append]

theorem pclIn_doubled_append (cs : List Char) :
    ∀ (cur rest : List Char), rest.head? ≠ some '"' →
      pclIn cur ((cs.foldr
          (fun c acc => if c = '"' then '"' :: '"' :: acc else c :: acc) [])
        ++ '"' :: rest) = pclOut (cs.reverse ++ cur) rest := by
  induction cs with
  | nil =>
      intro cur rest h
      rw [List.foldr_nil, List.nil_append]
      simp only [List.reverse_nil, List.nil_append]
      exact pclIn_exit cur rest h
  | cons c cs ih =>
      intro cur rest h
      rw [List.foldr_cons]
      by_cases hc : c = '"'
      · subst hc
        rw [if_pos rfl, List.cons_append, List.cons_append, pclIn_qq,
          ih ('"' :: cur) rest h,
          List.reverse_cons, List.append_assoc, List.singleton_append]
      · rw [if_neg hc, List.cons_append, pclIn_other cur c _ hc,
          ih (c :: cur) rest h,
          List.reverse_cons, List.append_assoc, List.singleton_append]

theorem strContains_false_not_mem {s : String} {c : Char}
    (h : strContains s c = false) : c ∉ s.data := by
  intro hc
  unfold strContains at h
  simp at h
  exact h hc

theorem cellToken_trim {v : JSVal} (hv : CleanVal v) :
    jsTrim (cellToken v).data = (cellToken v).data := by
  cases v with
  | null => rfl
  | str s => exact hv.1
  | strList l => exact absurd hv (by simp [CleanVal])
  | num q =>
      exact jsTrim_eq_self_of_all
        (fun c hc => (digit_dot_dash_safe (numToString_chars hv c hc)).1)

theorem pclOut_field (v : JSVal) (hv : CleanVal v) :
    ∀ rest : List Char, rest.head? ≠ some '"' →
      pclOut [] ((serializeField v).data ++ rest)
        = pclOut (cellToken v).data.reverse rest := by
  intro rest hr
  cases v with
  | null => rfl
  | strList l => exact absurd hv (by simp [CleanVal])
  | num q =>
      rw [show serializeField (.num q) = numToString q from rfl,
        show cellToken (.num q) = numToString q from rfl,
        pclOut_raw_append (numToString q).data
          (fun c hc =>
            ⟨(digit_dot_dash_safe (numToString_chars hv c hc)).2.2.1,
             (digit_dot_dash_safe (numToString_chars hv c hc)).2.1⟩) [] rest,
        List.append_nil]
  | str s =>
      rw [show cellToken (.str s) = s from rfl]
      rcases hq : (strContains s ',' || strContains s '"') with _ | _
      · have hq2 := Bool.or_eq_false_iff.mp hq
        rw [show serializeField (.str s)
            = (if strContains s ',' || strContains s '"' then
                "\"" ++ doubleQuotesStr s ++ "\"" else s) from rfl,
          if_neg (by rw [hq]; exact Bool.false_ne_true),
          pclOut_raw_append s.data
            (fun c hc =>
              ⟨fun he => strContains_false_not_mem hq2.2 (he ▸ hc),
               fun he => strContains_false_not_mem hq2.1 (he ▸ hc)⟩) [] rest,
          List.append_nil]
      · rw [show serializeField (.str s)
            = (if strContains s ',' || strContains s '"' then
                "\"" ++ doubleQuotesStr s ++ "\"" else s) from rfl,
          if_pos (by rw [hq])]
        have hdata : ("\"" ++ doubleQuotesStr s ++ "\"").data ++ rest
            = '"' :: ((doubleQuotesStr s).data ++ '"' :: rest) := by
          rw [String.data_append, String.data_append,
            show ("\"" : String).data = ['"'] from by decide,
            List.append_assoc, List.append_assoc]
          rfl
        rw [hdata, pclOut_quote,
          show (doubleQuotesStr s).data = s.data.foldr
            (fun c acc => if c = '"' then '"' :: '"' :: acc else c :: acc) []
            from rfl,
          pclIn_doubled_append s.data [] rest hr, List.append_nil]

theorem joinWith_cons2 (sep : String) (x y : String) (r : List String) :
    joinWith sep (x :: y :: r) = x ++ sep ++ joinWith sep (y :: r) := rfl

theorem tokenize_cells (vs : List JSVal) (v : JSVal) :
    CleanVal v → (∀ w ∈ vs, CleanVal w) →
      pclOut [] (joinWith "," ((v :: vs).map serializeField)).data
        = (v :: vs).map cellToken := by
  induction vs generalizing v with
  | nil =>
      intro hv _
      rw [List.map_cons, List.map_nil,
        show joinWith "," [serializeField v] = serializeField v from rfl,
        show (serializeField v).data = (serializeField v).data ++ [] from
          (List.append_nil _).symm,
        pclOut_field v hv [] (by simp), pclOut_nil, List.reverse_reverse,
        cellToken_trim hv]
      rfl
  | cons w vs ih =>
      intro hv hws
      rw [List.map_cons, List.map_cons, joinWith_cons2]
      have hdata : (serializeField v ++ "," ++
          joinWith "," (serializeField w :: vs.map serializeField)).data
          = (serializeField v).data ++ ',' ::
            (joinWith "," (serializeField w :: vs.map serializeField)).data := by
        rw [String.data_append, String.data_append,
          show ("," : String).data = [','] from by decide, List.append_assoc]
        rfl
      have ihw := ih w (hws w (List.mem_cons_self w vs))
        (fun x hx => hws x (List.mem_cons_of_mem w hx))
      rw [List.map_cons] at ihw
      rw [hdata, pclOut_field v hv _ (by simp), pclOut_comma,
        List.reverse_reverse, cellToken_trim hv, ihw]
      rfl

theorem tokenize_raw_list (xs : List String) (x : String) :
    (∀ s ∈ x :: xs, ∀ c ∈ s.data, c ≠ '"' ∧ c ≠ ',' ∧ jsWhitespace c = false) →
      pclOut [] (joinWith "," (x :: xs)).data = x :: xs := by
  induction xs generalizing x with
  | nil =>
      intro hall
      have hx := hall x (List.mem_cons_self x [])
      rw [show joinWith "," [x] = x from rfl,
        show x.data = x.data ++ [] from (List.append_nil _).symm,
        pclOut_raw_append x.data (fun c hc => ⟨(hx c hc).1, (hx c hc).2.1⟩) [] [],
        List.append_nil, pclOut_nil, List.reverse_reverse,
        jsTrim_eq_self_of_all (fun c hc => (hx c hc).2.2)]
  | cons y xs ih =>
      intro hall
      have hx := hall x (List.mem_cons_self x _)
      have hdata : (x ++ "," ++ joinWith "," (y :: xs)).data
          = x.data ++ ',' :: (joinWith "," (y :: xs)).data := by
        rw [String.data_append, String.data_append,
          show ("," : String).data = [','] from by decide, List.append_assoc]
        rfl
      rw [joinWith_cons2, hdata,
        pclOut_raw_append x.data (fun c hc => ⟨(hx c hc).1, (hx c hc).2.1⟩) [] _,
        List.append_nil, pclOut_comma, List.reverse_reverse,
        jsTrim_eq_self_of_all (fun c hc => (hx c hc).2.2),
        ih y (fun s hs => hall s (List.mem_cons_of_mem x hs))]

theorem splitOnChar_no_sep (sep : Char) (cs : List Char) (h : sep ∉ cs) :
    splitOnChar sep cs = [cs] := by
  induction cs with
  | nil => rfl
  | cons c r ih =>
      rw [splitOnChar,
        if_neg (fun hc => h (by rw [← hc]; exact List.mem_cons_self c r)),
        ih (fun hr => h (List.mem_cons_of_mem c hr))]

theorem splitOnChar_append (sep : Char) (cs : List Char) (h : sep ∉ cs)
    (rest : List Char) :
    splitOnChar sep (cs ++ sep :: rest) = cs :: splitOnChar sep rest := by
  induction cs with
  | nil =>
      rw [List.nil_append, splitOnChar, if_pos rfl]
  | cons c r ih =>
      rw [List.cons_append, splitOnChar,
        if_neg (fun hc => h (by rw [← hc]; exact List.mem_cons_self c r)),
        ih (fun hr => h (List.mem_cons_of_mem c hr))]

theorem splitOnChar_chars (sep : Char) :
    ∀ (cs : List Char), ∀ l ∈ splitOnChar sep cs, ∀ c ∈ l, c ∈ cs ∧ c ≠ sep := by
  intro cs
  induction cs with
  | nil =>
      intro l hl c hc
      rw [show splitOnChar sep [] = [[]] from rfl] at hl
      rcases List.mem_singleton.mp hl with h
      subst h
      exact absurd hc (List.not_mem_nil c)
  | cons c0 r ih =>
      intro l hl c hc
      rw [splitOnChar] at hl
      split at hl
      · next hceq =>
          rcases List.mem_cons.mp hl with hl1 | hl2
          · subst hl1
            exact absurd hc (List.not_mem_nil c)
          · obtain ⟨hm, hne⟩ := ih l hl2 c hc
            exact ⟨List.mem_cons_of_mem c0 hm, hne⟩
      · next hceq =>
          rcases hsp : splitOnChar sep r with _ | ⟨l0, ls⟩
          · rw [hsp] at hl
            rcases List.mem_singleton.mp hl with h
            subst h
            rcases List.mem_singleton.mp hc with h2
            subst h2
            exact ⟨List.mem_cons_self c r, hceq⟩
          · rw [hsp] at hl
            rcases List.mem_cons.mp hl with hl1 | hl2
            · subst hl1
              rcases List.mem_cons.mp hc with hc1 | hc2
              · subst hc1
                exact ⟨List.mem_cons_self c r, hceq⟩
              · obtain ⟨hm, hne⟩ :=
                  ih l0 (by rw [hsp]; exact List.mem_cons_self l0 ls) c hc2
                exact ⟨List.mem_cons_of_mem c0 hm, hne⟩
            · obtain ⟨hm, hne⟩ :=
                ih l (by rw [hsp]; exact List.mem_cons_of_mem l0 hl2) c hc
              exact ⟨List.mem_cons_of_mem c0 hm, hne⟩

theorem splitOnChar_join (lines : List String) (x : String)
    (hnl : ∀ l ∈ x :: lines, '\n' ∉ l.data) :
    splitOnChar '\n' (joinWith "\n" (x :: lines)).data
      = (x :: lines).map String.data := by
  induction lines generalizing x with
  | nil =>
      rw [show joinWith "\n" [x] = x from rfl, List.map_cons, List.map_nil]
      exact splitOnChar_no_sep '\n' x.data (hnl x (List.mem_cons_self x []))
  | cons y r ih =>
      have hdata : (x ++ "\n" ++ joinWith "\n" (y :: r)).data
          = x.data ++ '\n' :: (joinWith "\n" (y :: r)).data := by
        rw [String.data_append, String.data_append,
          show ("\n" : String).data = ['\n'] from by decide, List.append_assoc]
        rfl
      rw [joinWith_cons2, hdata,
        splitOnChar_append '\n' x.data (hnl x (List.mem_cons_self x _)) _,
        ih y (fun l hl => hnl l (List.mem_cons_of_mem x hl)), List.map_cons,
        List.map_cons, List.map_cons]

theorem csvLines_join (lines : List String) (x : String)
    (hnl : ∀ l ∈ x :: lines, '\n' ∉ l.data)
    (hnb : ∀ l ∈ x :: lines, jsTrim l.data ≠ []) :
    csvLines (joinWith "\n" (x :: lines)) = x :: lines := by
  unfold csvLines
  rw [splitOnChar_join lines x hnl, List.map_map,
    show (String.mk ∘ String.data) = id from funext (fun l => rfl), List.map_id]
  apply List.filter_eq_self.mpr
  intro a ha
  have hne := hnb a ha
  simp [List.isEmpty_iff, hne]

/-! Lemmas on object keys and on buildRow. -/

theorem keysOf_setF_mem (r : Row) (k : String) (v : JSVal) :
    k ∈ keysOf r → keysOf (setF r k v) = keysOf r := by
  induction r with
  | nil => intro h; exact absurd h (List.not_mem_nil k)
  | cons hd tl ih =>
      obtain ⟨a, b⟩ := hd
      intro h
      by_cases h1 : a = k
      · rw [setF, if_pos h1]
        rfl
      · rw [setF, if_neg h1]
        have h2 : k ∈ keysOf tl := by
          rcases List.mem_cons.mp h with h3 | h3
          · exact absurd h3.symm h1
          · exact h3
        show a :: keysOf (setF tl k v) = a :: keysOf tl
        rw [ih h2]

theorem keysOf_setF_not_mem (r : Row) (k : String) (v : JSVal) :
    k ∉ keysOf r → keysOf (setF r k v) = keysOf r ++ [k] := by
  induction r with
  | nil => intro h; rfl
  | cons hd tl ih =>
      obtain ⟨a, b⟩ := hd
      intro h
      have h1 : a ≠ k := fun he => h (by
        rw [keysOf, List.map_cons, he]
        exact List.mem_cons_self _ _)
      rw [setF, if_neg h1]
      show a :: keysOf (setF tl k v) = (a :: keysOf tl) ++ [k]
      rw [ih (fun h2 => h (List.mem_cons_of_mem a h2)), List.cons_append]

theorem keysOf_setF (r : Row) (k : String) (v : JSVal) :
    keysOf (setF r k v) = addKey (keysOf r) k := by
  by_cases h : k ∈ keysOf r
  · rw [keysOf_setF_mem r k v h, addKey, if_pos h]
  · rw [keysOf_setF_not_mem r k v h, addKey, if_neg h]

theorem getF_isSome_of_mem (r : Row) (k : String) :
    k ∈ keysOf r → (getF r k).isSome = true := by
  induction r with
  | nil => intro h; exact absurd h (List.not_mem_nil k)
  | cons hd tl ih =>
      obtain ⟨a, b⟩ := hd
      intro h
      by_cases h1 : a = k
      · rw [getF, if_pos h1]; rfl
      · rw [getF, if_neg h1]
        rcases List.mem_cons.mp h with h3 | h3
        · exact absurd h3.symm h1
        · exact ih h3

theorem getF_eq_none_of_not_mem (r : Row) (k : String) :
    k ∉ keysOf r → getF r k = none := by
  induction r with
  | nil => intro _; rfl
  | cons hd tl ih =>
      obtain ⟨a, b⟩ := hd
      intro h
      have h1 : a ≠ k := fun he => h (by
        rw [keysOf, List.map_cons, he]
        exact List.mem_cons_self _ _)
      rw [getF, if_neg h1]
      exact ih (fun h2 => h (List.mem_cons_of_mem a h2))

theorem mem_of_getF_eq_some {r : Row} {k : String} {v : JSVal}
    (h : getF r k = some v) : k ∈ keysOf r := by
  by_contra hm
  rw [getF_eq_none_of_not_mem r k hm] at h
  exact absurd h (by simp)

theorem foldl_setF_not_mem (l : List (String × String)) (k : String)
    (h : ∀ p ∈ l, p.1 ≠ k) :
    ∀ acc : Row,
      getF (l.foldl (fun r hv => setF r hv.1 (cleanValue hv.2)) acc) k
        = getF acc k := by
  induction l with
  | nil => intro acc; rfl
  | cons p l ih =>
      intro acc
      rw [List.foldl_cons, ih (fun q hq => h q (List.mem_cons_of_mem p hq)),
        getF_setF_ne acc p.1 k _ (fun he => h p (List.mem_cons_self p l) he.symm)]

theorem keysOf_foldl_setF (l : List (String × String)) :
    ∀ acc : Row,
      keysOf (l.foldl (fun r hv => setF r hv.1 (cleanValue hv.2)) acc)
        = l.foldl (fun ks hv => addKey ks hv.1) (keysOf acc) := by
  induction l with
  | nil => intro acc; rfl
  | cons p l ih =>
      intro acc
      rw [List.foldl_cons, List.foldl_cons, ih, keysOf_setF]

theorem buildRow_keys (hs vs : List String) (hlen : hs.length = vs.length) :
    keysOf (buildRow hs vs) = buildKeys hs := by
  rw [buildRow, keysOf_foldl_setF]
  have hfm : ((hs.zip vs).map Prod.fst).foldl addKey (keysOf ([] : Row))
      = (hs.zip vs).foldl (fun ks hv => addKey ks hv.1) (keysOf ([] : Row)) :=
    List.foldl_map _ _ _ _
  rw [← hfm, List.map_fst_zip hs vs (le_of_eq hlen)]
  rfl

theorem foldl_setF_get :
    ∀ (hs vs : List String) (acc : Row), hs.Nodup →
      ∀ (j : ℕ) (hj : j < hs.length) (hj2 : j < vs.length),
        getF ((hs.zip vs).foldl (fun r hv => setF r hv.1 (cleanValue hv.2)) acc)
            (hs.get ⟨j, hj⟩)
          = some (cleanValue (vs.get ⟨j, hj2⟩)) := by
  intro hs
  induction hs with
  | nil => intro vs acc _ j hj; exact absurd hj (by simp)
  | cons h hs ih =>
      intro vs acc hnd j hj hj2
      rcases vs with _ | ⟨v, vs⟩
      · exact absurd hj2 (by simp)
      · rw [List.zip_cons_cons, List.foldl_cons]
        rcases j with _ | j
        · rw [show (h :: hs).get ⟨0, hj⟩ = h from rfl,
            show (v :: vs).get ⟨0, hj2⟩ = v from rfl]
          have hnm : ∀ p ∈ hs.zip vs, p.1 ≠ h := by
            intro p hp he
            exact (List.nodup_cons.mp hnd).1 (he ▸ (List.mem_zip hp).1)
          rw [foldl_setF_not_mem (hs.zip vs) h hnm _, getF_setF_self]
        · have hj3 : j < hs.length := by
            have hc := hj
            simp only [List.length_cons] at hc
            omega
          have hj4 : j < vs.length := by
            have hc := hj2
            simp only [List.length_cons] at hc
            omega
          rw [show (h :: hs).get ⟨j + 1, hj⟩ = hs.get ⟨j, hj3⟩ from rfl,
            show (v :: vs).get ⟨j + 1, hj2⟩ = vs.get ⟨j, hj4⟩ from rfl]
          exact ih vs _ (List.nodup_cons.mp hnd).2 j hj3 hj4

theorem buildRow_get (hs vs : List String) (hnd : hs.Nodup)
    (j : ℕ) (hj : j < hs.length) (hj2 : j < vs.length) :
    getF (buildRow hs vs) (hs.get ⟨j, hj⟩)
      = some (cleanValue (vs.get ⟨j, hj2⟩)) := by
  rw [buildRow]
  exact foldl_setF_get hs vs [] hnd j hj hj2

theorem getF_buildRow_not_mem (hs vs : List String) (k : String)
    (h : k ∉ hs) : getF (buildRow hs vs) k = none := by
  rw [buildRow, foldl_setF_not_mem _ k
    (fun p hp he => h (he ▸ (List.mem_zip hp).1))]
  rfl

theorem buildRow_vals_aux (l : List (String × String)) (k : String) (v : JSVal) :
    ∀ acc : Row,
      getF (l.foldl (fun r hv => setF r hv.1 (cleanValue hv.2)) acc) k = some v →
        (∃ s ∈ l.map Prod.snd, v = cleanValue s) ∨ getF acc k = some v := by
  induction l with
  | nil => intro acc h; exact Or.inr h
  | cons p l ih =>
      intro acc h
      rw [List.foldl_cons] at h
      rcases ih _ h with h1 | h1
      · obtain ⟨s, hs, he⟩ := h1
        exact Or.inl ⟨s, List.mem_cons_of_mem _ hs, he⟩
      · by_cases hk : k = p.1
        · rw [hk, getF_setF_self] at h1
          injection h1 with h2
          exact Or.inl ⟨p.2, List.mem_cons_self _ _, h2.symm⟩
        · rw [getF_setF_ne _ _ _ _ hk] at h1
          exact Or.inr h1

theorem buildRow_vals (hs vs : List String) (k : String) (v : JSVal)
    (h : getF (buildRow hs vs) k = some v) : ∃ s ∈ vs, v = cleanValue s := by
  rw [buildRow] at h
  rcases buildRow_vals_aux _ k v [] h with h1 | h1
  · obtain ⟨s, hs, he⟩ := h1
    rw [List.mem_map] at hs
    obtain ⟨p, hp, hpe⟩ := hs
    exact ⟨s, by rw [← hpe]; exact (List.mem_zip hp).2, he⟩
  · exact absurd h1 (by simp [getF])

theorem mem_addKey_iff (ks : List String) (k k2 : String) :
    k2 ∈ addKey ks k ↔ k2 ∈ ks ∨ k2 = k := by
  rw [addKey]
  split
  · next h =>
      constructor
      · exact Or.inl
      · intro h2
        rcases h2 with h2 | h2
        · exact h2
        · rw [h2]; exact h
  · rw [List.mem_append, List.mem_singleton]

theorem addKey_nodup (ks : List String) (k : String) (h : ks.Nodup) :
    (addKey ks k).Nodup := by
  rw [addKey]
  split
  · exact h
  · next hm =>
      simp [List.nodup_append, h, hm]

theorem buildKeys_nodup_aux (hs : List String) :
    ∀ ks : List String, ks.Nodup → (hs.foldl addKey ks).Nodup := by
  induction hs with
  | nil => intro ks h; exact h
  | cons h hs ih =>
      intro ks hnd
      rw [List.foldl_cons]
      exact ih _ (addKey_nodup ks h hnd)

theorem buildKeys_nodup (hs : List String) : (buildKeys hs).Nodup :=
  buildKeys_nodup_aux hs [] List.nodup_nil

theorem validKeys_nodup (ks : List String) (h : ks.Nodup) :
    (validKeys ks).Nodup := by
  unfold validKeys
  exact addKey_nodup _ _ (addKey_nodup _ _ (addKey_nodup _ _ (addKey_nodup _ _
    (addKey_nodup _ _ (addKey_nodup _ _ (addKey_nodup _ _
      (addKey_nodup _ _ h)))))))

theorem mem_validKeys_iff (ks : List String) (k : String) :
    k ∈ validKeys ks ↔ k ∈ ks ∨ k ∈ ["studentId", "name", "marks",
      "attendance", "subject", "semester", "assessmentType", "rowId"] := by
  unfold validKeys
  simp only [mem_addKey_iff, List.mem_cons, List.mem_singleton]
  tauto

/-! A value whose parseFloat is NaN keeps that property when trimmed; this
is what makes the string values stored by cleanValue stable under
re-parsing. -/

theorem takeDigits_head_digit {c : Char} {r : List Char}
    (h : isDigitChar c = true) :
    takeDigits (c :: r) = (c :: (takeDigits r).1, (takeDigits r).2) := by
  rw [takeDigits, if_pos h]

theorem takeDigits_head_nondigit {c : Char} {r : List Char}
    (h : isDigitChar c = false) :
    takeDigits (c :: r) = ([], c :: r) := by
  rw [takeDigits, if_neg (by rw [h]; exact Bool.false_ne_true)]

theorem parseUnsigned_digit_head {c : Char} {r : List Char}
    (hd : isDigitChar c = true) : parseUnsigned (c :: r) ≠ none := by
  intro h
  unfold parseUnsigned at h
  rw [takeDigits_head_digit hd] at h
  split at h <;> simp_all

theorem parseUnsigned_dot_digit {d : Char} {r : List Char}
    (hd : isDigitChar d = true) : parseUnsigned ('.' :: d :: r) ≠ none := by
  intro h
  unfold parseUnsigned at h
  rw [takeDigits_head_nondigit (by decide)] at h
  split at h
  · next r2 heq =>
      injection heq with h1 h2
      subst h2
      rw [takeDigits_head_digit hd] at h
      simp at h
  · next hne => exact hne (d :: r) rfl

theorem parseUnsigned_none_of_bad {c : Char} {r : List Char}
    (hd : isDigitChar c = false) (hdot : c ≠ '.') :
    parseUnsigned (c :: r) = none := by
  unfold parseUnsigned
  rw [takeDigits_head_nondigit hd]
  split
  · next r2 heq =>
      simp only [] at heq
      injection heq with h1 h2
      exact absurd h1 hdot
  · simp

theorem parseUnsigned_dot_bad {d : Char} {r : List Char}
    (hd : isDigitChar d = false) : parseUnsigned ('.' :: d :: r) = none := by
  unfold parseUnsigned
  rw [takeDigits_head_nondigit (by decide)]
  split
  · next r2 heq =>
      simp only [] at heq
      injection heq with h1 h2
      subst h2
      simp [takeDigits_head_nondigit hd]
  · simp

theorem parseUnsigned_none_prefix {l1 l2 : List Char} (hpre : l1 <+: l2)
    (h : parseUnsigned l2 = none) : parseUnsigned l1 = none := by
  cases l1 with
  | nil => with_unfolding_all decide
  | cons c r1 =>
      obtain ⟨tl, htl⟩ := hpre
      rw [List.cons_append] at htl
      subst htl
      by_cases hd : isDigitChar c = true
      · exact absurd h (parseUnsigned_digit_head hd)
      · rw [Bool.not_eq_true] at hd
        by_cases hdot : c = '.'
        · subst hdot
          cases r1 with
          | nil => with_unfolding_all decide
          | cons d r2 =>
              rw [List.cons_append] at h
              by_cases hd2 : isDigitChar d = true
              · exact absurd h (parseUnsigned_dot_digit hd2)
              · rw [Bool.not_eq_true] at hd2
                exact parseUnsigned_dot_bad hd2
        · exact parseUnsigned_none_of_bad hd hdot

theorem dropWhile_head_false {p : Char → Bool} {l : List Char} {c : Char}
    {t : List Char} (h : l.dropWhile p = c :: t) : p c = false := by
  induction l with
  | nil => exact absurd h (by simp)
  | cons a l ih =>
      rw [List.dropWhile_cons] at h
      split at h
      · exact ih h
      · next hp =>
          injection h with h1 h2
          subst h1
          exact Bool.not_eq_true _ |>.mp hp

theorem trimRight_prefix (cs : List Char) : trimRight cs <+: cs := by
  have h1 : cs.reverse.dropWhile jsWhitespace <:+ cs.reverse :=
    List.dropWhile_suffix _
  have h2 := List.reverse_prefix.mpr h1
  rw [List.reverse_reverse] at h2
  exact h2

theorem parseNumPrefix_none_prefix {l1 l2 : List Char} (hpre : l1 <+: l2)
    (h : parseNumPrefix l2 = none) : parseNumPrefix l1 = none := by
  cases l1 with
  | nil => with_unfolding_all decide
  | cons c r1 =>
      obtain ⟨tl, htl⟩ := hpre
      rw [List.cons_append] at htl
      subst htl
      rw [parseNumPrefix] at h ⊢
      split at h <;> rename_i hc
      · rw [if_pos hc]
        rw [Option.map_eq_none'] at h ⊢
        exact parseUnsigned_none_prefix ⟨tl, rfl⟩ h
      · split at h <;> rename_i hc2
        · rw [if_neg hc, if_pos hc2]
          exact parseUnsigned_none_prefix ⟨tl, rfl⟩ h
        · rw [if_neg hc, if_neg hc2]
          exact parseUnsigned_none_prefix ⟨tl, by rw [List.cons_append]⟩ h

theorem jsParseFloat_trim_none (u : String) (h : jsParseFloat u = none) :
    jsParseFloat (String.mk (jsTrim u.data)) = none := by
  unfold jsParseFloat at h ⊢
  rw [Option.map_eq_none'] at h ⊢
  have hjt : jsTrim u.data = trimRight (u.data.dropWhile jsWhitespace) := rfl
  rcases ht : trimRight (u.data.dropWhile jsWhitespace) with _ | ⟨c, t2⟩
  · rw [show (String.mk (jsTrim u.data)).data = jsTrim u.data from rfl, hjt, ht]
    with_unfolding_all decide
  · have hpre : trimRight (u.data.dropWhile jsWhitespace)
        <+: u.data.dropWhile jsWhitespace := trimRight_prefix _
    rw [ht] at hpre
    have hd2 : ∃ d2, u.data.dropWhile jsWhitespace = c :: d2 := by
      obtain ⟨tl, htl⟩ := hpre
      exact ⟨t2 ++ tl, by rw [← htl, List.cons_append]⟩
    obtain ⟨d2, hd2⟩ := hd2
    have hws : jsWhitespace c = false := dropWhile_head_false hd2
    rw [show (String.mk (jsTrim u.data)).data = jsTrim u.data from rfl, hjt, ht,
      List.dropWhile_cons, hws]
    simp only [Bool.false_eq_true, if_false]
    refine parseNumPrefix_none_prefix ?_ h
    rw [← ht]
    exact trimRight_prefix _

theorem dropWhile_idem (p : Char → Bool) (l : List Char) :
    (l.dropWhile p).dropWhile p = l.dropWhile p := by
  rcases hd : l.dropWhile p with _ | ⟨c, t⟩
  · rfl
  · rw [List.dropWhile_cons, dropWhile_head_false hd]
    simp

theorem trimRight_idem (l : List Char) :
    trimRight (trimRight l) = trimRight l := by
  unfold trimRight
  rw [List.reverse_reverse, dropWhile_idem]

theorem jsTrim_idem (l : List Char) : jsTrim (jsTrim l) = jsTrim l := by
  have h1 : jsTrim l = trimRight (l.dropWhile jsWhitespace) := rfl
  have h2 : (trimRight (l.dropWhile jsWhitespace)).dropWhile jsWhitespace
      = trimRight (l.dropWhile jsWhitespace) := by
    rcases ht : trimRight (l.dropWhile jsWhitespace) with _ | ⟨c, t2⟩
    · rfl
    · have hpre := trimRight_prefix (l.dropWhile jsWhitespace)
      rw [ht] at hpre
      obtain ⟨tl, htl⟩ := hpre
      rw [List.cons_append] at htl
      have hws : jsWhitespace c = false := dropWhile_head_false htl.symm
      rw [List.dropWhile_cons, hws]
      simp
  rw [h1, show jsTrim (trimRight (l.dropWhile jsWhitespace))
      = trimRight ((trimRight (l.dropWhile jsWhitespace)).dropWhile jsWhitespace)
    from rfl, h2, trimRight_idem]

theorem mem_of_mem_jsTrim {c : Char} {l : List Char} (h : c ∈ jsTrim l) :
    c ∈ l := by
  unfold jsTrim at h
  rw [List.mem_reverse] at h
  have h2 := (List.dropWhile_sublist _).subset h
  rw [List.mem_reverse] at h2
  exact (List.dropWhile_sublist _).subset h2

theorem mem_of_mem_stripEdge {c ch : Char} {l : List Char}
    (h : c ∈ stripEdge ch l) : c ∈ l := by
  have hgen : ∀ m : List Char,
      (if m.getLast? = some ch then m.dropLast else m).Sublist m := by
    intro m
    split
    · exact List.dropLast_sublist m
    · exact List.Sublist.refl m
  have h2 : stripEdge ch l
      = (if (if l.head? = some ch then l.tail else l).getLast? = some ch
         then (if l.head? = some ch then l.tail else l).dropLast
         else (if l.head? = some ch then l.tail else l)) := rfl
  rw [h2] at h
  have h3 := (hgen (if l.head? = some ch then l.tail else l)).subset h
  have hsub1 : (if l.head? = some ch then l.tail else l).Sublist l := by
    split
    · exact List.tail_sublist l
    · exact List.Sublist.refl l
  exact hsub1.subset h3

theorem cleanValue_ParsedVal (value : String) (hnl : '\n' ∉ value.data) :
    ParsedVal (cleanValue value) := by
  unfold cleanValue
  split
  · exact trivial
  · rcases hpf : jsParseFloat (String.mk (stripEdge '"' value.data)) with _ | q
    · simp only [hpf]
      refine ⟨jsTrim_idem _, ?_, ?_⟩
      · intro hmem
        exact hnl (mem_of_mem_stripEdge (mem_of_mem_jsTrim hmem))
      · exact jsParseFloat_trim_none (String.mk (stripEdge '"' value.data)) hpf
    · simp only [hpf]
      exact jsParseFloat_decimal _ q hpf

theorem cleanVal_of_parsedVal {v : JSVal} (h : ParsedVal v) : CleanVal v := by
  cases v with
  | null => exact trivial
  | num q => exact h
  | str s => exact ⟨h.1, h.2.1⟩
  | strList l => exact absurd h (by simp [ParsedVal])

theorem truthy_reCoerce_of_parsedVal {v : JSVal} (h : ParsedVal v)
    (ht : truthy v = true) : truthy (reCoerce v) = true := by
  cases v with
  | null => exact absurd ht (by simp [truthy])
  | num q => exact ht
  | strList l => exact absurd h (by simp [ParsedVal])
  | str s =>
      have hs : s ≠ "" := by
        intro he
        rw [he] at ht
        exact absurd ht (by simp [truthy])
      rw [show reCoerce (.str s) = (if s = "" then JSVal.null else
          match jsParseFloat s with
          | some q => JSVal.num q
          | none => JSVal.str s) from rfl, if_neg hs, h.2.2]
      exact ht

/-! Helpers on trim-fixed strings, appends, and the synthesized field
values of validateAndTransformRow. -/

theorem dropWhile_eq_self_head {p : Char → Bool} {c : Char} {t : List Char}
    (h : (c :: t).dropWhile p = c :: t) : p c = false := by
  by_contra hp
  rw [Bool.not_eq_false] at hp
  rw [List.dropWhile_cons, hp, if_pos rfl] at h
  have hle := (List.dropWhile_sublist (p := p) (l := t)).length_le
  rw [h] at hle
  simp at hle

theorem jsTrim_eq_self_edges {cs : List Char}
    (hh : ∀ c, cs.head? = some c → jsWhitespace c = false)
    (hl : ∀ c, cs.getLast? = some c → jsWhitespace c = false) :
    jsTrim cs = cs := by
  cases cs with
  | nil => rfl
  | cons c t =>
      have h1 : (c :: t).dropWhile jsWhitespace = c :: t := by
        rw [List.dropWhile_cons, hh c rfl]
        simp
      show trimRight ((c :: t).dropWhile jsWhitespace) = c :: t
      rw [h1]
      unfold trimRight
      rcases hr : (c :: t).reverse with _ | ⟨d, t2⟩
      · exact absurd hr (by simp)
      · have hd : (c :: t).getLast? = some d := by
          rw [← List.head?_reverse, hr]
          rfl
        have h2 : List.dropWhile jsWhitespace (d :: t2) = d :: t2 := by
          rw [List.dropWhile_cons, hl d hd]
          simp
        rw [h2, ← hr, List.reverse_reverse]

theorem trim_fixed_parts {cs : List Char} (h : jsTrim cs = cs) :
    cs.dropWhile jsWhitespace = cs ∧ trimRight cs = cs := by
  have heq : jsTrim cs = trimRight (cs.dropWhile jsWhitespace) := rfl
  have hpre := trimRight_prefix (cs.dropWhile jsWhitespace)
  have hsub := List.dropWhile_sublist (p := jsWhitespace) (l := cs)
  have l1 := hpre.length_le
  have l2 := hsub.length_le
  have hlen : (jsTrim cs).length = cs.length := by rw [h]
  rw [heq] at hlen
  have l3 : (cs.dropWhile jsWhitespace).length = cs.length := by omega
  have hdw : cs.dropWhile jsWhitespace = cs := hsub.eq_of_length l3
  refine ⟨hdw, ?_⟩
  have h4 : trimRight (cs.dropWhile jsWhitespace) = jsTrim cs := rfl
  rw [hdw] at h4
  rw [h4, h]

theorem trim_fixed_head {c : Char} {t : List Char}
    (h : jsTrim (c :: t) = c :: t) : jsWhitespace c = false :=
  dropWhile_eq_self_head (trim_fixed_parts h).1

theorem trim_fixed_last {cs : List Char} (h : jsTrim cs = cs) {d : Char}
    (hd : cs.getLast? = some d) : jsWhitespace d = false := by
  have htr := (trim_fixed_parts h).2
  unfold trimRight at htr
  have h2 : cs.reverse.dropWhile jsWhitespace = cs.reverse := by
    have := congrArg List.reverse htr
    rw [List.reverse_reverse] at this
    exact this
  rcases hr : cs.reverse with _ | ⟨e, t2⟩
  · rw [← List.head?_reverse, hr] at hd
    exact absurd hd (by simp)
  · rw [← List.head?_reverse, hr] at hd
    injection hd with hd
    rw [hr] at h2
    rw [← hd]
    exact dropWhile_eq_self_head h2

theorem head?_mem {l : List Char} {c : Char} (h : l.head? = some c) :
    c ∈ l := by
  cases l with
  | nil => exact absurd h (by simp)
  | cons a t =>
      injection h with h
      rw [← h]
      exact List.mem_cons_self a t

theorem head?_append_left {l1 l2 : List Char} {c : Char}
    (h : l1.head? = some c) : (l1 ++ l2).head? = some c := by
  cases l1 with
  | nil => exact absurd h (by simp)
  | cons a t =>
      injection h with h
      rw [List.cons_append]
      simp [h]

theorem getLast?_append_right {l1 l2 : List Char} {c : Char}
    (h : l2.getLast? = some c) : (l1 ++ l2).getLast? = some c := by
  rw [← List.head?_reverse, List.reverse_append]
  rw [← List.head?_reverse] at h
  exact head?_append_left h

theorem natDigitsAux_chars :
    ∀ (fuel n : ℕ), ∀ c ∈ natDigitsAux fuel n, isDigitChar c = true := by
  intro fuel
  induction fuel with
  | zero => intro n c hc; exact absurd hc (by simp [natDigitsAux])
  | succ fuel ih =>
      intro n c hc
      rw [natDigitsAux] at hc
      split at hc
      · exact absurd hc (List.not_mem_nil c)
      · rcases List.mem_append.mp hc with h1 | h1
        · exact ih (n / 10) c h1
        · rw [List.mem_singleton.mp h1]
          exact digitChar_isDigit (n % 10) (Nat.mod_lt n (by norm_num))

theorem natToDigits_chars (n : ℕ) :
    ∀ c ∈ natToDigits n, isDigitChar c = true := by
  intro c hc
  rw [natToDigits] at hc
  split at hc
  · rw [List.mem_singleton.mp hc]
    decide
  · exact natDigitsAux_chars (n + 1) n c hc

theorem natToString_ne_nil (n : ℕ) : (natToString n).data ≠ [] := by
  show natToDigits n ≠ []
  rw [natToDigits]
  split
  · simp
  · next hn =>
      rw [natDigitsAux, if_neg hn]
      simp

theorem template_good {v : JSVal} (hv : CleanVal v) (ht : truthy v = true) :
    (jsTemplate v).data ≠ [] ∧
    (∀ c, (jsTemplate v).data.head? = some c → jsWhitespace c = false) ∧
    (∀ c, (jsTemplate v).data.getLast? = some c → jsWhitespace c = false) ∧
    '\n' ∉ (jsTemplate v).data := by
  cases v with
  | null => exact absurd ht (by simp [truthy])
  | strList l => exact absurd hv (by simp [CleanVal])
  | num q =>
      have hchars := numToString_chars hv
      refine ⟨numToString_ne_nil hv, ?_, ?_, ?_⟩
      · intro c hc
        exact (digit_dot_dash_safe (hchars c (head?_mem hc))).1
      · intro c hc
        exact (digit_dot_dash_safe (hchars c (getLast_mem_of_eq hc))).1
      · intro hc
        exact (digit_dot_dash_safe (hchars _ hc)).2.2.2 rfl
  | str s =>
      have hs : s ≠ "" := by
        intro he
        rw [he] at ht
        exact absurd ht (by simp [truthy])
      have hdne : s.data ≠ [] := fun he => hs (by cases s; simp_all)
      refine ⟨hdne, ?_, ?_, hv.2⟩
      · intro c hc
        have hc2 : s.data.head? = some c := hc
        rcases hcs : s.data with _ | ⟨a, t⟩
        · exact absurd hcs hdne
        · rw [hcs] at hc2
          injection hc2 with hc2
          rw [← hc2]
          exact trim_fixed_head (by rw [← hcs]; exact hv.1)
      · intro c hc
        have hc2 : s.data.getLast? = some c := hc
        exact trim_fixed_last hv.1 hc2

theorem jsParseFloat_head_none {s : String} {c : Char} {t : List Char}
    (hcs : s.data = c :: t) (hws : jsWhitespace c = false)
    (hd : isDigitChar c = false) (hdot : c ≠ '.') (hm : c ≠ '-')
    (hp : c ≠ '+') : jsParseFloat s = none := by
  unfold jsParseFloat
  rw [hcs, List.dropWhile_cons, hws]
  simp only [Bool.false_eq_true, if_false]
  rw [parseNumPrefix, if_neg hm, if_neg hp,
    parseUnsigned_none_of_bad hd hdot]
  rfl

theorem decimalQ_normalizeScore {ov : Option JSVal}
    (h : ∀ v, ov = some v → CleanVal v) :
    DecimalQ (normalizeScoreVal ov) := by
  unfold normalizeScoreVal
  split
  · exact decimalQ_zero
  · exact decimalQ_zero
  · rename_i w hx
    rcases hpf : parseFloatVal w with _ | q
    · exact decimalQ_zero
    · refine decimalQ_clamp ?_
      cases w with
      | null => exact absurd hpf (by simp [parseFloatVal])
      | num q2 =>
          rw [show parseFloatVal (.num q2) = some q2 from rfl] at hpf
          injection hpf with hpf
          rw [← hpf]
          exact h _ rfl
      | str s =>
          exact jsParseFloat_decimal s q hpf
      | strList l =>
          exact jsParseFloat_decimal _ q hpf

theorem allVals_setF {P : JSVal → Prop} {r : Row} {key : String} {w : JSVal}
    (hall : ∀ k v, getF r k = some v → P v) (hw : P w) :
    ∀ k v, getF (setF r key w) k = some v → P v := by
  intro k v hget
  by_cases h : k = key
  · subst h
    rw [getF_setF_self] at hget
    injection hget with h2
    rw [← h2]
    exact hw
  · rw [getF_setF_ne r key k w h] at hget
    exact hall k v hget

theorem truthyO_some {r : Row} {k : String}
    (h : truthyO (getF r k) = true) :
    ∃ v, getF r k = some v ∧ truthy v = true := by
  rcases hg : getF r k with _ | v
  · rw [hg] at h
    exact absurd h (by simp [truthyO])
  · refine ⟨v, rfl, ?_⟩
    rw [hg] at h
    exact h

theorem synthIdStage_prop (n : ℕ) (r : Row) :
    (truthyO (getF r "studentId") = true ∧ synthIdStage n r = r) ∨
    synthIdStage n r = setF r "studentId" (.str ("STU-" ++ natToString n)) := by
  rw [synthIdStage]
  split
  · next h => exact Or.inl ⟨h, rfl⟩
  · exact Or.inr rfl

theorem synthNameStage_prop (r : Row) :
    (truthyO (getF r "name") = true ∧ synthNameStage r = r) ∨
    synthNameStage r = setF r "name"
      (.str ("Student " ++ jsTemplate ((getF r "studentId").getD .null))) := by
  rw [synthNameStage]
  split
  · next h => exact Or.inl ⟨h, rfl⟩
  · exact Or.inr rfl

theorem defaultStage_prop (k d : String) (r : Row) :
    (truthyO (getF r k) = true ∧ defaultStage k d r = r) ∨
    defaultStage k d r = setF r k (.str d) := by
  rw [defaultStage]
  split
  · next h => exact Or.inl ⟨h, rfl⟩
  · exact Or.inr rfl

theorem keysOf_synthIdStage (n : ℕ) (r : Row) :
    keysOf (synthIdStage n r) = addKey (keysOf r) "studentId" := by
  rw [synthIdStage]
  split
  · next h =>
      obtain ⟨v, hv, -⟩ := truthyO_some h
      rw [addKey, if_pos (mem_of_getF_eq_some hv)]
  · rw [keysOf_setF]

theorem keysOf_synthNameStage (r : Row) :
    keysOf (synthNameStage r) = addKey (keysOf r) "name" := by
  rw [synthNameStage]
  split
  · next h =>
      obtain ⟨v, hv, -⟩ := truthyO_some h
      rw [addKey, if_pos (mem_of_getF_eq_some hv)]
  · rw [keysOf_setF]

theorem keysOf_defaultStage (k d : String) (r : Row) :
    keysOf (defaultStage k d r) = addKey (keysOf r) k := by
  rw [defaultStage]
  split
  · next h =>
      obtain ⟨v, hv, -⟩ := truthyO_some h
      rw [addKey, if_pos (mem_of_getF_eq_some hv)]
  · rw [keysOf_setF]

theorem keysOf_validate (now : ℕ) (row : Row) (n : ℕ) (out : Row)
    (hok : validateAndTransformRow now row n = .ok out) :
    keysOf out = validKeys (keysOf row) := by
  rw [validateAndTransformRow] at hok
  split at hok
  · exact absurd hok (by simp)
  · injection hok with hout
    subst hout
    rw [rowIdStage, keysOf_setF, keysOf_defaultStage, keysOf_defaultStage,
      keysOf_defaultStage, attStage, keysOf_setF, marksStage, keysOf_setF,
      keysOf_synthNameStage, keysOf_synthIdStage]
    rfl

theorem stu_val_clean (n : ℕ) :
    CleanVal (.str ("STU-" ++ natToString n)) := by
  have hchars : ∀ c ∈ ("STU-" ++ natToString n).data,
      jsWhitespace c = false ∧ c ≠ '\n' := by
    intro c hc
    rw [String.data_append] at hc
    rcases List.mem_append.mp hc with h1 | h1
    · have h2 : c ∈ ['S', 'T', 'U', '-'] := h1
      rcases List.mem_cons.mp h2 with h3 | h3
      · subst h3; exact ⟨by decide, by decide⟩
      · rcases List.mem_cons.mp h3 with h4 | h4
        · subst h4; exact ⟨by decide, by decide⟩
        · rcases List.mem_cons.mp h4 with h5 | h5
          · subst h5; exact ⟨by decide, by decide⟩
          · have h6 := List.mem_singleton.mp h5
            subst h6; exact ⟨by decide, by decide⟩
    · have hdig := natToDigits_chars n c h1
      exact ⟨(digit_dot_dash_safe (Or.inl hdig)).1,
        fun he => (digit_dot_dash_safe (Or.inl hdig)).2.2.2 he⟩
  exact ⟨jsTrim_eq_self_of_all (fun c hc => (hchars c hc).1),
    fun hc => (hchars _ hc).2 rfl⟩

theorem stu_val_parse_none (n : ℕ) :
    jsParseFloat ("STU-" ++ natToString n) = none := by
  have hdata : ("STU-" ++ natToString n).data
      = 'S' :: ("TU-".data ++ (natToString n).data) := by
    rw [String.data_append,
      show ("STU-" : String).data = 'S' :: "TU-".data from by decide,
      List.cons_append]
  exact jsParseFloat_head_none hdata (by decide) (by decide) (by decide)
    (by decide) (by decide)

theorem student_name_clean {v0 : JSVal} (hv0 : CleanVal v0)
    (ht0 : truthy v0 = true) :
    CleanVal (.str ("Student " ++ jsTemplate v0)) := by
  obtain ⟨hne, hhead, hlast, hnl⟩ := template_good hv0 ht0
  have hdata : ("Student " ++ jsTemplate v0).data
      = "Student ".data ++ (jsTemplate v0).data := String.data_append _ _
  have hpre : ("Student " : String).data
      = 'S' :: "tudent ".data := by decide
  constructor
  · show jsTrim ("Student " ++ jsTemplate v0).data
      = ("Student " ++ jsTemplate v0).data
    rw [hdata]
    apply jsTrim_eq_self_edges
    · intro c hc
      rw [hpre, List.cons_append] at hc
      injection hc with hc
      rw [← hc]
      decide
    · intro c hc
      obtain ⟨d, hd⟩ : ∃ d, (jsTemplate v0).data.getLast? = some d := by
        rcases hcs : (jsTemplate v0).data with _ | ⟨a, t⟩
        · exact absurd hcs hne
        · exact ⟨_, List.getLast?_eq_getLast_of_ne_nil (by simp)⟩
      rw [getLast?_append_right hd] at hc
      injection hc with hc
      rw [← hc]
      exact hlast d hd
  · show '\n' ∉ ("Student " ++ jsTemplate v0).data
    rw [hdata]
    intro hc
    rcases List.mem_append.mp hc with h1 | h1
    · exact absurd h1 (by decide)
    · exact hnl h1

theorem student_name_parse_none (v0 : JSVal) :
    jsParseFloat ("Student " ++ jsTemplate v0) = none := by
  have hdata : ("Student " ++ jsTemplate v0).data
      = 'S' :: ("tudent ".data ++ (jsTemplate v0).data) := by
    rw [String.data_append,
      show ("Student " : String).data = 'S' :: "tudent ".data from by decide,
      List.cons_append]
  exact jsParseFloat_head_none hdata (by decide) (by decide) (by decide)
    (by decide) (by decide)

theorem reCoerce_str_of_none {s : String} (hs : s ≠ "")
    (hpf : jsParseFloat s = none) : reCoerce (.str s) = .str s := by
  rw [show reCoerce (.str s) = (if s = "" then JSVal.null else
      match jsParseFloat s with
      | some q => JSVal.num q
      | none => JSVal.str s) from rfl, if_neg hs, hpf]

theorem rowId_val_clean {v1 v2 v3 : JSVal} (h1 : CleanVal v1)
    (t1 : truthy v1 = true) (h2 : CleanVal v2) (t2 : truthy v2 = true)
    (h3 : CleanVal v3) (t3 : truthy v3 = true) (now : ℕ) :
    CleanVal (.str (jsTemplate v1 ++ "-" ++ jsTemplate v2 ++ "-" ++
      jsTemplate v3 ++ "-" ++ natToString now)) := by
  obtain ⟨hne1, hh1, hl1, hnl1⟩ := template_good h1 t1
  obtain ⟨hne2, hh2, hl2, hnl2⟩ := template_good h2 t2
  obtain ⟨hne3, hh3, hl3, hnl3⟩ := template_good h3 t3
  have hdash : ("-" : String).data = ['-'] := by decide
  have hdata : (jsTemplate v1 ++ "-" ++ jsTemplate v2 ++ "-" ++
      jsTemplate v3 ++ "-" ++ natToString now).data
      = (jsTemplate v1).data ++ (['-'] ++ ((jsTemplate v2).data ++ (['-'] ++
        ((jsTemplate v3).data ++ (['-'] ++ (natToString now).data))))) := by
    simp only [String.data_append, hdash, List.append_assoc]
  constructor
  · show jsTrim (jsTemplate v1 ++ "-" ++ jsTemplate v2 ++ "-" ++
        jsTemplate v3 ++ "-" ++ natToString now).data
      = (jsTemplate v1 ++ "-" ++ jsTemplate v2 ++ "-" ++
        jsTemplate v3 ++ "-" ++ natToString now).data
    rw [hdata]
    apply jsTrim_eq_self_edges
    · intro c hc
      obtain ⟨c1, t1x, hct⟩ : ∃ c1 t1x, (jsTemplate v1).data = c1 :: t1x := by
        rcases hcs : (jsTemplate v1).data with _ | ⟨a, t⟩
        · exact absurd hcs hne1
        · exact ⟨a, t, rfl⟩
      rw [hct, List.cons_append] at hc
      injection hc with hc
      rw [← hc]
      exact hh1 c1 (by rw [hct]; rfl)
    · intro c hc
      obtain ⟨d, hd⟩ : ∃ d, (natToString now).data.getLast? = some d :=
        ⟨_, List.getLast?_eq_getLast_of_ne_nil (natToString_ne_nil now)⟩
      have hlast : ((jsTemplate v1).data ++ (['-'] ++ ((jsTemplate v2).data ++
          (['-'] ++ ((jsTemplate v3).data ++ (['-'] ++
            (natToString now).data)))))).getLast? = some d :=
        getLast?_append_right (getLast?_append_right (getLast?_append_right
          (getLast?_append_right (getLast?_append_right
            (getLast?_append_right hd)))))
      rw [hlast] at hc
      injection hc with hc
      rw [← hc]
      exact (digit_dot_dash_safe
        (Or.inl (natToDigits_chars now d (getLast_mem_of_eq hd)))).1
  · show '\n' ∉ (jsTemplate v1 ++ "-" ++ jsTemplate v2 ++ "-" ++
        jsTemplate v3 ++ "-" ++ natToString now).data
    rw [hdata]
    intro hc
    simp only [List.mem_append, List.mem_singleton] at hc
    rcases hc with h | h | h | h | h | h | h
    · exact hnl1 h
    · exact absurd h (by decide)
    · exact hnl2 h
    · exact absurd h (by decide)
    · exact hnl3 h
    · exact absurd h (by decide)
    · exact (digit_dot_dash_safe
        (Or.inl (natToDigits_chars now _ h))).2.2.2 rfl

theorem validate_clean (now : ℕ) (row : Row) (n : ℕ) (out : Row)
    (hok : validateAndTransformRow now row n = .ok out)
    (hvals : ∀ k v, getF row k = some v → ParsedVal v) :
    CleanRow (validKeys (keysOf row)) out := by
  have hall0 : ∀ k v, getF row k = some v → CleanVal v :=
    fun k v h => cleanVal_of_parsedVal (hvals k v h)
  have hkeys := keysOf_validate now row n out hok
  have hsound := validateAndTransformRow_sound now row n out hok
  rw [validateAndTransformRow] at hok
  split at hok
  · exact absurd hok (by simp)
  · injection hok with hout
    have hall1 : ∀ k v, getF (synthIdStage n row) k = some v → CleanVal v := by
      rcases synthIdStage_prop n row with ⟨-, he⟩ | he
      · rw [he]; exact hall0
      · rw [he]; exact allVals_setF hall0 (stu_val_clean n)
    have hsid1 : ∃ v, getF (synthIdStage n row) "studentId" = some v
        ∧ truthy v = true ∧ truthy (reCoerce v) = true := by
      rcases synthIdStage_prop n row with ⟨ht, he⟩ | he
      · obtain ⟨v, hv, htv⟩ := truthyO_some ht
        exact ⟨v, by rw [he]; exact hv, htv,
          truthy_reCoerce_of_parsedVal (hvals _ _ hv) htv⟩
      · have hne := append_ne_empty "STU-" (natToString n) (by decide)
        refine ⟨.str ("STU-" ++ natToString n),
          by rw [he, getF_setF_self], by simp [truthy, hne], ?_⟩
        rw [reCoerce_str_of_none hne (stu_val_parse_none n)]
        simp [truthy, hne]
    have hall2 : ∀ k v,
        getF (synthNameStage (synthIdStage n row)) k = some v → CleanVal v := by
      rcases synthNameStage_prop (synthIdStage n row) with ⟨-, he⟩ | he
      · rw [he]; exact hall1
      · rw [he]
        obtain ⟨v0, hv0, ht0, -⟩ := hsid1
        refine allVals_setF hall1 ?_
        rw [hv0]
        exact student_name_clean (hall1 _ _ hv0) ht0
    have hname2 : ∃ v,
        getF (synthNameStage (synthIdStage n row)) "name" = some v
        ∧ truthy v = true ∧ truthy (reCoerce v) = true := by
      rcases synthNameStage_prop (synthIdStage n row) with ⟨ht, he⟩ | he
      · obtain ⟨v, hv, htv⟩ := truthyO_some ht
        have hvrow : getF row "name" = some v := by
          rw [← getF_synthIdStage_ne n row "name" (by decide)]
          exact hv
        exact ⟨v, by rw [he]; exact hv, htv,
          truthy_reCoerce_of_parsedVal (hvals _ _ hvrow) htv⟩
      · have hne := append_ne_empty "Student "
          (jsTemplate ((getF (synthIdStage n row) "studentId").getD .null))
          (by decide)
        refine ⟨_, by rw [he, getF_setF_self], by simp [truthy, hne], ?_⟩
        rw [reCoerce_str_of_none hne (student_name_parse_none _)]
        simp [truthy, hne]
    have hall3 : ∀ k v,
        getF (marksStage (synthNameStage (synthIdStage n row))) k = some v →
          CleanVal v := by
      rw [marksStage]
      exact allVals_setF hall2
        (decimalQ_normalizeScore (fun v h => hall2 "marks" v h))
    have hall4 : ∀ k v,
        getF (attStage (marksStage (synthNameStage (synthIdStage n row)))) k
          = some v → CleanVal v := by
      rw [attStage]
      exact allVals_setF hall3
        (decimalQ_normalizeScore (fun v h => hall3 "attendance" v h))
    have hall5 : ∀ k v,
        getF (defaultStage "subject" "General"
          (attStage (marksStage (synthNameStage (synthIdStage n row))))) k
          = some v → CleanVal v := by
      rcases defaultStage_prop "subject" "General"
        (attStage (marksStage (synthNameStage (synthIdStage n row)))) with
        ⟨-, he⟩ | he
      · rw [he]; exact hall4
      · rw [he]
        exact allVals_setF hall4
          ⟨by with_unfolding_all decide, by with_unfolding_all decide⟩
    have hall6 : ∀ k v,
        getF (defaultStage "semester" "1" (defaultStage "subject" "General"
          (attStage (marksStage (synthNameStage (synthIdStage n row)))))) k
          = some v → CleanVal v := by
      rcases defaultStage_prop "semester" "1" (defaultStage "subject" "General"
        (attStage (marksStage (synthNameStage (synthIdStage n row))))) with
        ⟨-, he⟩ | he
      · rw [he]; exact hall5
      · rw [he]
        exact allVals_setF hall5
          ⟨by with_unfolding_all decide, by with_unfolding_all decide⟩
    have hall7 : ∀ k v,
        getF (defaultStage "assessmentType" "Exam"
          (defaultStage "semester" "1" (defaultStage "subject" "General"
            (attStage (marksStage (synthNameStage (synthIdStage n row))))))) k
          = some v → CleanVal v := by
      rcases defaultStage_prop "assessmentType" "Exam"
        (defaultStage "semester" "1" (defaultStage "subject" "General"
          (attStage (marksStage (synthNameStage (synthIdStage n row)))))) with
        ⟨-, he⟩ | he
      · rw [he]; exact hall6
      · rw [he]
        exact allVals_setF hall6
          ⟨by with_unfolding_all decide, by with_unfolding_all decide⟩
    have hs7 : getF (defaultStage "assessmentType" "Exam"
        (defaultStage "semester" "1" (defaultStage "subject" "General"
          (attStage (marksStage (synthNameStage (synthIdStage n row)))))))
        "studentId" = getF (synthIdStage n row) "studentId" := by
      rw [getF_defaultStage_ne _ _ _ _ (by decide),
        getF_defaultStage_ne _ _ _ _ (by decide),
        getF_defaultStage_ne _ _ _ _ (by decide),
        attStage, getF_setF_ne _ _ _ _ (by decide),
        marksStage, getF_setF_ne _ _ _ _ (by decide),
        getF_synthNameStage_ne _ _ (by decide)]
    have hsubj7 : getF (defaultStage "assessmentType" "Exam"
        (defaultStage "semester" "1" (defaultStage "subject" "General"
          (attStage (marksStage (synthNameStage (synthIdStage n row)))))))
        "subject" = getF (defaultStage "subject" "General"
          (attStage (marksStage (synthNameStage (synthIdStage n row)))))
        "subject" := by
      rw [getF_defaultStage_ne _ _ _ _ (by decide),
        getF_defaultStage_ne _ _ _ _ (by decide)]
    have hsem7 : getF (defaultStage "assessmentType" "Exam"
        (defaultStage "semester" "1" (defaultStage "subject" "General"
          (attStage (marksStage (synthNameStage (synthIdStage n row)))))))
        "semester" = getF (defaultStage "semester" "1"
          (defaultStage "subject" "General"
            (attStage (marksStage (synthNameStage (synthIdStage n row))))))
        "semester" := by
      rw [getF_defaultStage_ne _ _ _ _ (by decide)]
    have hsubj5 : ∃ v, getF (defaultStage "subject" "General"
        (attStage (marksStage (synthNameStage (synthIdStage n row)))))
        "subject" = some v ∧ truthy v = true ∧ truthy (reCoerce v) = true := by
      rcases defaultStage_prop "subject" "General"
        (attStage (marksStage (synthNameStage (synthIdStage n row)))) with
        ⟨ht, he⟩ | he
      · obtain ⟨v, hv, htv⟩ := truthyO_some ht
        have hvrow : getF row "subject" = some v := by
          rw [attStage, getF_setF_ne _ _ _ _ (by decide), marksStage,
            getF_setF_ne _ _ _ _ (by decide),
            getF_synthNameStage_ne _ _ (by decide),
            getF_synthIdStage_ne _ _ _ (by decide)] at hv
          exact hv
        exact ⟨v, by rw [he]; exact hv, htv,
          truthy_reCoerce_of_parsedVal (hvals _ _ hvrow) htv⟩
      · exact ⟨.str "General", by rw [he, getF_setF_self],
          by with_unfolding_all decide, by with_unfolding_all decide⟩
    have hsem6 : ∃ v, getF (defaultStage "semester" "1"
        (defaultStage "subject" "General"
          (attStage (marksStage (synthNameStage (synthIdStage n row))))))
        "semester" = some v ∧ truthy v = true
        ∧ truthy (reCoerce v) = true := by
      rcases defaultStage_prop "semester" "1" (defaultStage "subject" "General"
        (attStage (marksStage (synthNameStage (synthIdStage n row))))) with
        ⟨ht, he⟩ | he
      · obtain ⟨v, hv, htv⟩ := truthyO_some ht
        have hvrow : getF row "semester" = some v := by
          rw [getF_defaultStage_ne _ _ _ _ (by decide), attStage,
            getF_setF_ne _ _ _ _ (by decide), marksStage,
            getF_setF_ne _ _ _ _ (by decide),
            getF_synthNameStage_ne _ _ (by decide),
            getF_synthIdStage_ne _ _ _ (by decide)] at hv
          exact hv
        exact ⟨v, by rw [he]; exact hv, htv,
          truthy_reCoerce_of_parsedVal (hvals _ _ hvrow) htv⟩
      · exact ⟨.str "1", by rw [he, getF_setF_self],
          by with_unfolding_all decide, by with_unfolding_all decide⟩
    have hallout : ∀ k v, getF (rowIdStage now
        (defaultStage "assessmentType" "Exam"
          (defaultStage "semester" "1" (defaultStage "subject" "General"
            (attStage (marksStage (synthNameStage (synthIdStage n row)))))))) k
        = some v → CleanVal v := by
      rw [rowIdStage]
      obtain ⟨v1, hv1, ht1, -⟩ := hsid1
      obtain ⟨v2, hv2, ht2, -⟩ := hsubj5
      obtain ⟨v3, hv3, ht3, -⟩ := hsem6
      have hv1b := hs7.trans hv1
      have hv2b := hsubj7.trans hv2
      have hv3b := hsem7.trans hv3
      refine allVals_setF hall7 ?_
      rw [hv1b, hv2b, hv3b]
      exact rowId_val_clean (hall7 _ _ hv1b) ht1 (hall7 _ _ hv2b) ht2
        (hall7 _ _ hv3b) ht3 now
    subst hout
    refine ⟨hkeys, hallout, ?_, hsound.1, hsound.2.1⟩
    intro k hk
    simp only [List.mem_cons, List.not_mem_nil, or_false] at hk
    rcases hk with hk | hk | hk | hk
    · subst hk
      obtain ⟨v, hv, ht, hrc⟩ := hsid1
      refine ⟨v, ?_, ht, hrc⟩
      rw [rowIdStage, getF_setF_ne _ _ _ _ (by decide)]
      exact hs7.trans hv
    · subst hk
      obtain ⟨v, hv, ht, hrc⟩ := hname2
      refine ⟨v, ?_, ht, hrc⟩
      rw [rowIdStage, getF_setF_ne _ _ _ _ (by decide),
        getF_defaultStage_ne _ _ _ _ (by decide),
        getF_defaultStage_ne _ _ _ _ (by decide),
        getF_defaultStage_ne _ _ _ _ (by decide),
        attStage, getF_setF_ne _ _ _ _ (by decide),
        marksStage, getF_setF_ne _ _ _ _ (by decide)]
      exact hv
    · subst hk
      obtain ⟨v, hv, ht, hrc⟩ := hsubj5
      refine ⟨v, ?_, ht, hrc⟩
      rw [rowIdStage, getF_setF_ne _ _ _ _ (by decide)]
      exact hsubj7.trans hv
    · subst hk
      obtain ⟨v, hv, ht, hrc⟩ := hsem6
      refine ⟨v, ?_, ht, hrc⟩
      rw [rowIdStage, getF_setF_ne _ _ _ _ (by decide)]
      exact hsem7.trans hv

theorem pcl_chars (N : ℕ) : ∀ (l cur : List Char), l.length ≤ N →
    (∀ t ∈ pclOut cur l, ∀ c ∈ t.data, c ∈ cur ∨ c ∈ l ∨ c = '"') ∧
    (∀ t ∈ pclIn cur l, ∀ c ∈ t.data, c ∈ cur ∨ c ∈ l ∨ c = '"') := by
  induction N with
  | zero =>
      intro l cur hl
      have hnil : l = [] := List.length_eq_zero.mp (Nat.le_zero.mp hl)
      subst hnil
      constructor
      · intro t ht c hc
        rw [pclOut_nil, List.mem_singleton] at ht
        subst ht
        exact Or.inl (List.mem_reverse.mp (mem_of_mem_jsTrim hc))
      · intro t ht c hc
        rw [show pclIn cur [] = [String.mk (jsTrim cur.reverse)] from rfl,
          List.mem_singleton] at ht
        subst ht
        exact Or.inl (List.mem_reverse.mp (mem_of_mem_jsTrim hc))
  | succ N ih =>
      intro l cur hl
      cases l with
      | nil =>
          exact ih [] cur (by simp)
      | cons c0 rest =>
          have hrest : rest.length ≤ N := by
            simp only [List.length_cons] at hl
            omega
          constructor
          · intro t ht c hc
            by_cases hq : c0 = '"'
            · subst hq
              rw [pclOut_quote] at ht
              rcases (ih rest cur hrest).2 t ht c hc with h | h | h
              · exact Or.inl h
              · exact Or.inr (Or.inl (List.mem_cons_of_mem _ h))
              · exact Or.inr (Or.inr h)
            · by_cases hcm : c0 = ','
              · subst hcm
                rw [pclOut_comma] at ht
                rcases List.mem_cons.mp ht with ht1 | ht1
                · subst ht1
                  exact Or.inl (List.mem_reverse.mp (mem_of_mem_jsTrim hc))
                · rcases (ih rest [] hrest).1 t ht1 c hc with h | h | h
                  · exact absurd h (List.not_mem_nil c)
                  · exact Or.inr (Or.inl (List.mem_cons_of_mem _ h))
                  · exact Or.inr (Or.inr h)
              · rw [pclOut_other cur c0 rest hq hcm] at ht
                rcases (ih rest (c0 :: cur) hrest).1 t ht c hc with h | h | h
                · rcases List.mem_cons.mp h with h2 | h2
                  · subst h2
                    exact Or.inr (Or.inl (List.mem_cons_self _ _))
                  · exact Or.inl h2
                · exact Or.inr (Or.inl (List.mem_cons_of_mem _ h))
                · exact Or.inr (Or.inr h)
          · intro t ht c hc
            by_cases hq : c0 = '"'
            · subst hq
              rcases rest with _ | ⟨c1, rest1⟩
              · rw [pclIn_exit cur [] (by simp)] at ht
                rcases (ih [] cur (by simp)).1 t ht c hc with h | h | h
                · exact Or.inl h
                · exact absurd h (List.not_mem_nil c)
                · exact Or.inr (Or.inr h)
              · by_cases hq1 : c1 = '"'
                · subst hq1
                  rw [pclIn_qq] at ht
                  have hr1 : rest1.length ≤ N := by
                    simp only [List.length_cons] at hl
                    omega
                  rcases (ih rest1 ('"' :: cur) hr1).2 t ht c hc with h | h | h
                  · rcases List.mem_cons.mp h with h2 | h2
                    · exact Or.inr (Or.inr h2)
                    · exact Or.inl h2
                  · exact Or.inr (Or.inl
                      (List.mem_cons_of_mem _ (List.mem_cons_of_mem _ h)))
                  · exact Or.inr (Or.inr h)
                · rw [pclIn_exit cur (c1 :: rest1)
                    (by simp [hq1])] at ht
                  rcases (ih (c1 :: rest1) cur hrest).1 t ht c hc with h | h | h
                  · exact Or.inl h
                  · exact Or.inr (Or.inl (List.mem_cons_of_mem _ h))
                  · exact Or.inr (Or.inr h)
            · rw [pclIn_other cur c0 rest hq] at ht
              rcases (ih rest (c0 :: cur) hrest).2 t ht c hc with h | h | h
              · rcases List.mem_cons.mp h with h2 | h2
                · subst h2
                  exact Or.inr (Or.inl (List.mem_cons_self _ _))
                · exact Or.inl h2
              · exact Or.inr (Or.inl (List.mem_cons_of_mem _ h))
              · exact Or.inr (Or.inr h)

theorem parseCSVLine_no_newline (line : String) (h : '\n' ∉ line.data) :
    ∀ t ∈ parseCSVLine line, '\n' ∉ t.data := by
  intro t ht hc
  rcases (pcl_chars line.data.length line.data [] le_rfl).1 t ht '\n' hc with
    h1 | h1 | h1
  · exact absurd h1 (List.not_mem_nil _)
  · exact h h1
  · exact absurd h1 (by decide)

theorem csvLines_no_newline (csv : String) :
    ∀ l ∈ csvLines csv, '\n' ∉ l.data := by
  intro l hl
  unfold csvLines at hl
  have hl2 := List.mem_of_mem_filter hl
  rw [List.mem_map] at hl2
  obtain ⟨l0, hl0, he⟩ := hl2
  intro hc
  have hc2 : '\n' ∈ l0 := by
    rw [← he] at hc
    exact hc
  exact (splitOnChar_chars '\n' csv.data l0 hl0 '\n' hc2).2 rfl

theorem parseRows_clean (now : ℕ) (nh : List String) :
    ∀ (lines : List String) (i : ℕ),
      (∀ l ∈ lines, '\n' ∉ l.data) →
      ∀ r ∈ (parseRows now nh i lines).1,
        CleanRow (validKeys (buildKeys nh)) r := by
  intro lines
  induction lines with
  | nil => intro i _ r hr; simp [parseRows] at hr
  | cons line rest ih =>
      intro i hnl r hr
      simp only [parseRows] at hr
      split at hr
      · exact ih (i + 1) (fun l hl => hnl l (List.mem_cons_of_mem _ hl)) r hr
      · next hlen =>
          split at hr
          · next row0 hval =>
              rcases List.mem_cons.mp hr with hr1 | hr2
              · have hlen2 : nh.length = (parseCSVLine line).length := by
                  by_contra hne
                  exact hlen (fun he => hne he.symm)
                have hvals : ∀ k v,
                    getF (buildRow nh (parseCSVLine line)) k = some v →
                      ParsedVal v := by
                  intro k v hget
                  obtain ⟨s, hs, he⟩ := buildRow_vals _ _ _ _ hget
                  rw [he]
                  exact cleanValue_ParsedVal s
                    (parseCSVLine_no_newline line
                      (hnl line (List.mem_cons_self _ _)) s hs)
                have hclean := validate_clean now
                  (buildRow nh (parseCSVLine line)) i row0 hval hvals
                rw [buildRow_keys nh (parseCSVLine line) hlen2] at hclean
                rw [hr1]
                exact hclean
              · exact ih (i + 1)
                  (fun l hl => hnl l (List.mem_cons_of_mem _ hl)) r hr2
          · exact ih (i + 1)
              (fun l hl => hnl l (List.mem_cons_of_mem _ hl)) r hr

theorem parseCSV_clean (now : ℕ) (csv : String) (L : List Row)
    (errs : List String) (h : parseCSV now csv = .ok (L, errs)) :
    ∃ K, K.Nodup ∧ ∀ r ∈ L, CleanRow K r := by
  rw [parseCSV] at h
  split at h
  · exact absurd h (by simp)
  · exact absurd h (by simp)
  · next x0 headerLine dataLines hx heq =>
      split at h
      · exact absurd h (by simp)
      · injection h with h2
        refine ⟨validKeys (buildKeys ((parseCSVLine headerLine).map
            normalizeHeader)),
          validKeys_nodup _ (buildKeys_nodup _), ?_⟩
        intro r hr
        have hL : L = (parseRows now
            ((parseCSVLine headerLine).map normalizeHeader) 2 dataLines).1 :=
          (congrArg Prod.fst h2).symm
        refine parseRows_clean now _ dataLines 2 ?_ r (by rw [← hL]; exact hr)
        intro l hl
        exact csvLines_no_newline csv l
          (by rw [heq]; exact List.mem_cons_of_mem _ hl)

/-! Lemmas assembling the re-parse of the exported CSV. -/

theorem normalizeHeader_aT :
    normalizeHeader "assessmentType" = "assessmenttype" := by
  with_unfolding_all decide

theorem normalizeHeader_rowId : normalizeHeader "rowId" = "rowid" := by
  with_unfolding_all decide

theorem goodKeyChar_spec {c : Char} (h : GoodKeyChar c = true) :
    c ≠ ',' ∧ c ≠ '"' ∧ jsWhitespace c = false := by
  unfold GoodKeyChar at h
  simp at h
  exact ⟨h.1.1, h.1.2, h.2⟩

theorem goodKey_fixed {k : String} (h : GoodKey k) (h1 : k ≠ "rowId")
    (h2 : k ≠ "assessmentType") : normalizeHeader k = k := by
  rcases h.2 with h3 | h3 | h3
  · exact absurd h3 h2
  · exact absurd h3 h1
  · exact h3

theorem joinWith_comma_chars :
    ∀ (xs : List String) (c : Char), c ∈ (joinWith "," xs).data →
      (∃ x ∈ xs, c ∈ x.data) ∨ c = ',' := by
  intro xs
  induction xs with
  | nil => intro c hc; exact absurd hc (by simp [joinWith])
  | cons x xs ih =>
      intro c hc
      rcases xs with _ | ⟨y, r⟩
      · exact Or.inl ⟨x, List.mem_cons_self x [], hc⟩
      · rw [joinWith_cons2, String.data_append, String.data_append,
          show ("," : String).data = [','] from by decide] at hc
        rcases List.mem_append.mp hc with h1 | h1
        · rcases List.mem_append.mp h1 with h2 | h2
          · exact Or.inl ⟨x, List.mem_cons_self x _, h2⟩
          · exact Or.inr (List.mem_singleton.mp h2)
        · rcases ih c h1 with ⟨z, hz, hcz⟩ | h2
          · exact Or.inl ⟨z, List.mem_cons_of_mem x hz, hcz⟩
          · exact Or.inr h2

theorem mem_doubled {c : Char} {cs : List Char}
    (h : c ∈ cs.foldr
      (fun c acc => if c = '"' then '"' :: '"' :: acc else c :: acc) []) :
    c ∈ cs ∨ c = '"' := by
  induction cs with
  | nil => exact absurd h (List.not_mem_nil c)
  | cons a t ih =>
      rw [List.foldr_cons] at h
      by_cases ha : a = '"'
      · rw [if_pos ha] at h
        rcases List.mem_cons.mp h with h1 | h1
        · exact Or.inr h1
        · rcases List.mem_cons.mp h1 with h2 | h2
          · exact Or.inr h2
          · rcases ih h2 with h3 | h3
            · exact Or.inl (List.mem_cons_of_mem a h3)
            · exact Or.inr h3
      · rw [if_neg ha] at h
        rcases List.mem_cons.mp h with h1 | h1
        · exact Or.inl (by rw [h1]; exact List.mem_cons_self a t)
        · rcases ih h1 with h3 | h3
          · exact Or.inl (List.mem_cons_of_mem a h3)
          · exact Or.inr h3

theorem serializeField_no_newline {v : JSVal} (hv : CleanVal v) :
    '\n' ∉ (serializeField v).data := by
  cases v with
  | null => simp [serializeField]
  | strList l => exact absurd hv (by simp [CleanVal])
  | num q =>
      intro hc
      exact (digit_dot_dash_safe (numToString_chars hv '\n' hc)).2.2.2 rfl
  | str s =>
      rw [show serializeField (.str s)
          = (if strContains s ',' || strContains s '"' then
              "\"" ++ doubleQuotesStr s ++ "\"" else s) from rfl]
      split
      · intro hc
        rw [String.data_append, String.data_append,
          show ("\"" : String).data = ['"'] from by decide] at hc
        rcases List.mem_append.mp hc with h1 | h1
        · rcases List.mem_append.mp h1 with h2 | h2
          · exact absurd (List.mem_singleton.mp h2) (by decide)
          · rcases mem_doubled h2 with h3 | h3
            · exact hv.2 h3
            · exact absurd h3 (by decide)
        · exact absurd (List.mem_singleton.mp h1) (by decide)
      · exact hv.2

theorem serializeCell_eq (r : Row) (k : String) :
    serializeCell r k = serializeField ((getF r k).getD .null) := by
  rw [serializeCell]
  rcases hg : getF r k with _ | v
  · rfl
  · rfl

theorem two_mem_shape {K : List String} {a b : String} (ha : a ∈ K)
    (hb : b ∈ K) (hne : a ≠ b) : ∃ x y t, K = x :: y :: t := by
  rcases K with _ | ⟨x, K1⟩
  · exact absurd ha (List.not_mem_nil a)
  · rcases K1 with _ | ⟨y, t⟩
    · have h1 := List.mem_singleton.mp ha
      have h2 := List.mem_singleton.mp hb
      exact absurd (h1.trans h2.symm) hne
    · exact ⟨x, y, t, rfl⟩

theorem getF_synthIdStage_truthy (n : ℕ) (r : Row)
    (h : truthyO (getF r "studentId") = true) :
    getF (synthIdStage n r) "studentId" = getF r "studentId" := by
  rw [synthIdStage, if_pos h]

theorem getF_synthNameStage_truthy (r : Row)
    (h : truthyO (getF r "name") = true) :
    getF (synthNameStage r) "name" = getF r "name" := by
  rw [synthNameStage, if_pos h]

theorem getF_defaultStage_truthy (k d : String) (r : Row)
    (h : truthyO (getF r k) = true) :
    getF (defaultStage k d r) k = getF r k := by
  rw [defaultStage, if_pos h]

theorem reCoerce_num (q : ℚ) : reCoerce (.num q) = .num q := rfl

theorem normalizeScoreVal_num (q : ℚ) :
    normalizeScoreVal (some (.num q)) = clamp100 q := rfl

theorem clamp100_id {q : ℚ} (h0 : 0 ≤ q) (h1 : q ≤ 100) : clamp100 q = q := by
  unfold clamp100
  rw [min_eq_right h1, max_eq_right h0]

theorem tokenize_record (K : List String) (r : Row)
    (hK : K ≠ []) (hkeys : keysOf r = K)
    (hcv : ∀ k v, getF r k = some v → CleanVal v) :
    parseCSVLine (joinWith "," (K.map (serializeCell r)))
      = K.map (fun k => cellToken ((getF r k).getD .null)) := by
  have hcells : ∀ v ∈ K.map (fun k => (getF r k).getD .null), CleanVal v := by
    intro v hv
    rw [List.mem_map] at hv
    obtain ⟨k, hk, he⟩ := hv
    rcases hg : getF r k with _ | w
    · have hm : k ∈ keysOf r := by rw [hkeys]; exact hk
      have hsome := getF_isSome_of_mem r k hm
      rw [hg] at hsome
      exact absurd hsome (by simp)
    · rw [hg] at he
      rw [← he]
      exact hcv k w hg
  cases K with
  | nil => exact absurd rfl hK
  | cons k0 Kr =>
      rw [List.map_cons] at hcells
      have hmaps2 : (k0 :: Kr).map (serializeCell r)
          = ((getF r k0).getD .null ::
              Kr.map (fun k => (getF r k).getD .null)).map serializeField := by
        rw [List.map_cons, List.map_cons, serializeCell_eq]
        congr 1
        rw [List.map_map]
        exact List.map_congr_left (fun k _ => (serializeCell_eq r k))
      rw [show parseCSVLine (joinWith "," ((k0 :: Kr).map (serializeCell r)))
          = pclOut [] (joinWith ","
              ((k0 :: Kr).map (serializeCell r))).data from rfl,
        hmaps2,
        tokenize_cells (Kr.map (fun k => (getF r k).getD .null))
          ((getF r k0).getD .null)
          (hcells _ (List.mem_cons_self _ _))
          (fun w hw => hcells w (List.mem_cons_of_mem _ hw)),
        List.map_cons, List.map_cons, List.map_map]
      rfl

theorem reparse_build_getF (K : List String) (r : Row)
    (hnd : (K.map normalizeHeader).Nodup) (hkeys : keysOf r = K)
    (hcv : ∀ k v, getF r k = some v → CleanVal v)
    (hquote : ∀ k v, getF r k = some v → QuoteEdgeFree v)
    (hfix : ∀ k ∈ K, k ≠ "rowId" → k ≠ "assessmentType" →
      normalizeHeader k = k) :
    ∀ k ∈ K, k ≠ "rowId" → k ≠ "assessmentType" →
      getF (buildRow (K.map normalizeHeader)
        (K.map (fun k2 => cellToken ((getF r k2).getD .null)))) k
        = (getF r k).map reCoerce := by
  intro k hk h1 h2
  obtain ⟨j, hj⟩ := List.mem_iff_get.mp hk
  have hsome := getF_isSome_of_mem r k (by rw [hkeys]; exact hk)
  rcases hg : getF r k with _ | v
  · rw [hg] at hsome
    exact absurd hsome (by simp)
  · have hlen1 : (j : ℕ) < (K.map normalizeHeader).length := by
      simp [j.isLt]
    have hlen2 : (j : ℕ) <
        (K.map (fun k2 => cellToken ((getF r k2).getD .null))).length := by
      simp [j.isLt]
    have hbr := buildRow_get (K.map normalizeHeader)
      (K.map (fun k2 => cellToken ((getF r k2).getD .null))) hnd j hlen1 hlen2
    have hknj : (K.map normalizeHeader).get ⟨(j : ℕ), hlen1⟩ = k := by
      have hgm : (K.map normalizeHeader).get ⟨(j : ℕ), hlen1⟩
          = normalizeHeader (K.get j) := by
        simp [List.get_map]
      rw [hgm, hj]
      exact hfix k hk h1 h2
    have htkj : (K.map (fun k2 => cellToken ((getF r k2).getD .null))).get
        ⟨(j : ℕ), hlen2⟩ = cellToken v := by
      have hgm : (K.map (fun k2 => cellToken ((getF r k2).getD .null))).get
          ⟨(j : ℕ), hlen2⟩ = cellToken ((getF r (K.get j)).getD .null) := by
        simp [List.get_map]
      rw [hgm, hj, hg]
      rfl
    rw [hknj, htkj] at hbr
    rw [hbr, cleanValue_cellToken (hcv k v hg) (hquote k v hg)]
    rfl

theorem revalidate_row (now2 m : ℕ) (K : List String) (r b : Row)
    (hb : ∀ k ∈ K, k ≠ "rowId" → k ≠ "assessmentType" →
      getF b k = (getF r k).map reCoerce)
    (hkeys : keysOf r = K)
    (hfour : ∀ k ∈ ["studentId", "name", "subject", "semester"],
      ∃ v, getF r k = some v ∧ truthy v = true ∧ truthy (reCoerce v) = true)
    (hmarks : ∃ mq : ℚ, getF r "marks" = some (.num mq) ∧ 0 ≤ mq ∧ mq ≤ 100)
    (hatt : ∃ aq : ℚ, getF r "attendance" = some (.num aq) ∧ 0 ≤ aq
      ∧ aq ≤ 100) :
    ∃ out2, validateAndTransformRow now2 b m = .ok out2
      ∧ ∀ k ∈ K, k ≠ "rowId" → k ≠ "assessmentType" →
          getF out2 k = (getF r k).map reCoerce := by
  obtain ⟨vs, hvs, htvs, hrcs⟩ := hfour "studentId" (by simp)
  obtain ⟨vn, hvn, htvn, hrcn⟩ := hfour "name" (by simp)
  obtain ⟨vb, hvb, htvb, hrcb⟩ := hfour "subject" (by simp)
  obtain ⟨ve, hve, htve, hrce⟩ := hfour "semester" (by simp)
  obtain ⟨mq, hmq, hm0, hm1⟩ := hmarks
  obtain ⟨aq, haq, ha0, ha1⟩ := hatt
  have hsidK : "studentId" ∈ K := by
    rw [← hkeys]; exact mem_of_getF_eq_some hvs
  have hnameK : "name" ∈ K := by
    rw [← hkeys]; exact mem_of_getF_eq_some hvn
  have hsubjK : "subject" ∈ K := by
    rw [← hkeys]; exact mem_of_getF_eq_some hvb
  have hsemK : "semester" ∈ K := by
    rw [← hkeys]; exact mem_of_getF_eq_some hve
  have hmarksK : "marks" ∈ K := by
    rw [← hkeys]; exact mem_of_getF_eq_some hmq
  have hattK : "attendance" ∈ K := by
    rw [← hkeys]; exact mem_of_getF_eq_some haq
  have hbsid : getF b "studentId" = some (reCoerce vs) := by
    rw [hb _ hsidK (by decide) (by decide), hvs]
    rfl
  have hbname : getF b "name" = some (reCoerce vn) := by
    rw [hb _ hnameK (by decide) (by decide), hvn]
    rfl
  have hbsubj : getF b "subject" = some (reCoerce vb) := by
    rw [hb _ hsubjK (by decide) (by decide), hvb]
    rfl
  have hbsem : getF b "semester" = some (reCoerce ve) := by
    rw [hb _ hsemK (by decide) (by decide), hve]
    rfl
  have hbm : getF b "marks" = some (.num mq) := by
    rw [hb _ hmarksK (by decide) (by decide), hmq]
    rfl
  have hba : getF b "attendance" = some (.num aq) := by
    rw [hb _ hattK (by decide) (by decide), haq]
    rfl
  have htb_sid : truthyO (getF b "studentId") = true := by
    rw [hbsid]
    exact hrcs
  have htb_name : truthyO (getF b "name") = true := by
    rw [hbname]
    exact hrcn
  have htb_subj : truthyO (getF b "subject") = true := by
    rw [hbsubj]
    exact hrcb
  have htb_sem : truthyO (getF b "semester") = true := by
    rw [hbsem]
    exact hrce
  refine ⟨_, by rw [validateAndTransformRow, if_neg (by rw [htb_sid]; simp)],
    ?_⟩
  intro k hk h1 h2
  by_cases hk1 : k = "studentId"
  · subst hk1
    rw [rowIdStage, getF_setF_ne _ _ _ _ (by decide),
      getF_defaultStage_ne _ _ _ _ (by decide),
      getF_defaultStage_ne _ _ _ _ (by decide),
      getF_defaultStage_ne _ _ _ _ (by decide),
      attStage, getF_setF_ne _ _ _ _ (by decide),
      marksStage, getF_setF_ne _ _ _ _ (by decide),
      getF_synthNameStage_ne _ _ (by decide),
      getF_synthIdStage_truthy _ _ htb_sid, hbsid, hvs]
    rfl
  by_cases hk2 : k = "name"
  · subst hk2
    have hsin : getF (synthIdStage m b) "name" = getF b "name" :=
      getF_synthIdStage_ne _ _ _ (by decide)
    rw [rowIdStage, getF_setF_ne _ _ _ _ (by decide),
      getF_defaultStage_ne _ _ _ _ (by decide),
      getF_defaultStage_ne _ _ _ _ (by decide),
      getF_defaultStage_ne _ _ _ _ (by decide),
      attStage, getF_setF_ne _ _ _ _ (by decide),
      marksStage, getF_setF_ne _ _ _ _ (by decide),
      getF_synthNameStage_truthy _ (by rw [hsin]; exact htb_name),
      hsin, hbname, hvn]
    rfl
  by_cases hk3 : k = "marks"
  · subst hk3
    have hx : getF (synthNameStage (synthIdStage m b)) "marks"
        = some (.num mq) := by
      rw [getF_synthNameStage_ne _ _ (by decide),
        getF_synthIdStage_ne _ _ _ (by decide), hbm]
    rw [rowIdStage, getF_setF_ne _ _ _ _ (by decide),
      getF_defaultStage_ne _ _ _ _ (by decide),
      getF_defaultStage_ne _ _ _ _ (by decide),
      getF_defaultStage_ne _ _ _ _ (by decide),
      attStage, getF_setF_ne _ _ _ _ (by decide),
      marksStage, getF_setF_self, hx, normalizeScoreVal_num,
      clamp100_id hm0 hm1, hmq]
    rfl
  by_cases hk4 : k = "attendance"
  · subst hk4
    have hx : getF (marksStage (synthNameStage (synthIdStage m b)))
        "attendance" = some (.num aq) := by
      rw [marksStage, getF_setF_ne _ _ _ _ (by decide),
        getF_synthNameStage_ne _ _ (by decide),
        getF_synthIdStage_ne _ _ _ (by decide), hba]
    rw [rowIdStage, getF_setF_ne _ _ _ _ (by decide),
      getF_defaultStage_ne _ _ _ _ (by decide),
      getF_defaultStage_ne _ _ _ _ (by decide),
      getF_defaultStage_ne _ _ _ _ (by decide),
      attStage, getF_setF_self, hx, normalizeScoreVal_num,
      clamp100_id ha0 ha1, haq]
    rfl
  by_cases hk5 : k = "subject"
  · subst hk5
    have hr4 : getF (attStage (marksStage (synthNameStage
        (synthIdStage m b)))) "subject" = getF b "subject" := by
      rw [attStage, getF_setF_ne _ _ _ _ (by decide),
        marksStage, getF_setF_ne _ _ _ _ (by decide),
        getF_synthNameStage_ne _ _ (by decide),
        getF_synthIdStage_ne _ _ _ (by decide)]
    rw [rowIdStage, getF_setF_ne _ _ _ _ (by decide),
      getF_defaultStage_ne _ _ _ _ (by decide),
      getF_defaultStage_ne _ _ _ _ (by decide),
      getF_defaultStage_truthy _ _ _ (by rw [hr4]; exact htb_subj),
      hr4, hbsubj, hvb]
    rfl
  by_cases hk6 : k = "semester"
  · subst hk6
    have hr5 : getF (defaultStage "subject" "General" (attStage (marksStage
        (synthNameStage (synthIdStage m b))))) "semester"
        = getF b "semester" := by
      rw [getF_defaultStage_ne _ _ _ _ (by decide),
        attStage, getF_setF_ne _ _ _ _ (by decide),
        marksStage, getF_setF_ne _ _ _ _ (by decide),
        getF_synthNameStage_ne _ _ (by decide),
        getF_synthIdStage_ne _ _ _ (by decide)]
    rw [rowIdStage, getF_setF_ne _ _ _ _ (by decide),
      getF_defaultStage_ne _ _ _ _ (by decide),
      getF_defaultStage_truthy _ _ _ (by rw [hr5]; exact htb_sem),
      hr5, hbsem, hve]
    rfl
  · rw [rowIdStage, getF_setF_ne _ _ _ _ h1,
      getF_defaultStage_ne _ _ _ _ h2,
      getF_defaultStage_ne _ _ _ _ hk6,
      getF_defaultStage_ne _ _ _ _ hk5,
      attStage, getF_setF_ne _ _ _ _ hk4,
      marksStage, getF_setF_ne _ _ _ _ hk3,
      getF_synthNameStage_ne _ _ hk2,
      getF_synthIdStage_ne _ _ _ hk1]
    exact hb k hk h1 h2

theorem reparse_row (now2 m : ℕ) (K : List String) (r : Row)
    (hnd : (K.map normalizeHeader).Nodup)
    (hclean : CleanRow K r)
    (hquote : ∀ k v, getF r k = some v → QuoteEdgeFree v)
    (hfix : ∀ k ∈ K, k ≠ "rowId" → k ≠ "assessmentType" →
      normalizeHeader k = k) :
    ∃ out2, validateAndTransformRow now2
        (buildRow (K.map normalizeHeader)
          (K.map (fun k2 => cellToken ((getF r k2).getD .null)))) m = .ok out2
      ∧ ∀ k ∈ K, k ≠ "rowId" → k ≠ "assessmentType" →
          getF out2 k = (getF r k).map reCoerce := by
  obtain ⟨hkeys, hcv, hfour, hmarks, hatt⟩ := hclean
  exact revalidate_row now2 m K r _
    (reparse_build_getF K r hnd hkeys hcv hquote hfix) hkeys hfour hmarks hatt

theorem parseRows_roundtrip (now2 : ℕ) (K : List String)
    (hnd : (K.map normalizeHeader).Nodup) (hK : K ≠ [])
    (hfix : ∀ k ∈ K, k ≠ "rowId" → k ≠ "assessmentType" →
      normalizeHeader k = k) :
    ∀ (Ls : List Row) (i : ℕ),
      (∀ r ∈ Ls, CleanRow K r) →
      (∀ r ∈ Ls, ∀ k v, getF r k = some v → QuoteEdgeFree v) →
      ∃ L2 : List Row,
        parseRows now2 (K.map normalizeHeader) i
          (Ls.map (fun r => joinWith "," (K.map (serializeCell r)))) = (L2, [])
        ∧ L2.length = Ls.length
        ∧ ∀ (j : ℕ) (hj : j < Ls.length) (hj2 : j < L2.length),
            ∀ k ∈ K, k ≠ "rowId" → k ≠ "assessmentType" →
              getF (L2.get ⟨j, hj2⟩) k
                = (getF (Ls.get ⟨j, hj⟩) k).map reCoerce := by
  intro Ls
  induction Ls with
  | nil =>
      intro i _ _
      exact ⟨[], rfl, rfl, fun j hj => absurd hj (by simp)⟩
  | cons r Ls ih =>
      intro i hclean hquote
      obtain ⟨L2r, hpr, hlen, hcorr⟩ := ih (i + 1)
        (fun x hx => hclean x (List.mem_cons_of_mem _ hx))
        (fun x hx => hquote x (List.mem_cons_of_mem _ hx))
      have hcr := hclean r (List.mem_cons_self _ _)
      have htok := tokenize_record K r hK hcr.1 hcr.2.1
      obtain ⟨out2, hval, hout⟩ := reparse_row now2 i K r hnd hcr
        (hquote r (List.mem_cons_self _ _)) hfix
      refine ⟨out2 :: L2r, ?_, by simp [hlen], ?_⟩
      · rw [List.map_cons]
        simp only [parseRows]
        rw [htok, if_neg (by simp), hval, hpr]
      · intro j hj hj2 k hk h1 h2
        cases j with
        | zero =>
            show getF out2 k = (getF r k).map reCoerce
            exact hout k hk h1 h2
        | succ j =>
            have hj3 : j < Ls.length := by
              simp only [List.length_cons] at hj
              omega
            have hj4 : j < L2r.length := by
              simp only [List.length_cons] at hj2
              omega
            show getF (L2r.get ⟨j, hj4⟩) k
              = (getF (Ls.get ⟨j, hj3⟩) k).map reCoerce
            exact hcorr j hj3 hj4 k hk h1 h2

theorem dataLine_no_newline (K : List String) (r : Row)
    (hcv : ∀ k v, getF r k = some v → CleanVal v) :
    '\n' ∉ (joinWith "," (K.map (serializeCell r))).data := by
  intro hc
  rcases joinWith_comma_chars _ '\n' hc with ⟨x, hx, hcx⟩ | h
  · rw [List.mem_map] at hx
    obtain ⟨k, hk, he⟩ := hx
    rw [← he, serializeCell_eq] at hcx
    rcases hg : getF r k with _ | v
    · rw [hg] at hcx
      exact absurd hcx (by simp [serializeField])
    · rw [hg] at hcx
      exact serializeField_no_newline (hcv k v hg) hcx
  · exact absurd h (by decide)

theorem headerLine_no_newline (K : List String)
    (hgood : ∀ k ∈ K, GoodKey k) : '\n' ∉ (joinWith "," K).data := by
  intro hc
  rcases joinWith_comma_chars _ '\n' hc with ⟨x, hx, hcx⟩ | h
  · have hws := (goodKeyChar_spec ((hgood x hx).1 '\n' hcx)).2.2
    exact absurd hws (by decide)
  · exact absurd h (by decide)

theorem joinWith_comma_mem (x y : String) (t : List String) :
    ',' ∈ (joinWith "," (x :: y :: t)).data := by
  rw [joinWith_cons2, String.data_append, String.data_append,
    show ("," : String).data = [','] from by decide]
  exact List.mem_append.mpr (Or.inl (List.mem_append.mpr
    (Or.inr (List.mem_singleton.mpr rfl))))

theorem roundtrip_core (now2 : ℕ) (K : List String) (L : List Row)
    (hnd : K.Nodup) (hne : L ≠ [])
    (hclean : ∀ r ∈ L, CleanRow K r)
    (hquote : ∀ r ∈ L, ∀ k v, getF r k = some v → QuoteEdgeFree v)
    (hgood : ∀ k ∈ K, GoodKey k)
    (hrowid : "rowid" ∉ K) (hassess : "assessmenttype" ∉ K) :
    ∃ L2 : List Row,
      parseCSV now2 (downloadCSVString L) = .ok (L2, []) ∧
      L2.length = L.length ∧
      ∀ (j : ℕ) (hj : j < L.length) (hj2 : j < L2.length), ∀ k ∈ K,
        k ≠ "rowId" → k ≠ "assessmentType" →
        getF (L2.get ⟨j, hj2⟩) k = (getF (L.get ⟨j, hj⟩) k).map reCoerce := by
  obtain ⟨r0, rest, rfl⟩ : ∃ r0 rest, L = r0 :: rest := by
    rcases L with _ | ⟨a, t⟩
    · exact absurd rfl hne
    · exact ⟨a, t, rfl⟩
  have hfix : ∀ k ∈ K, k ≠ "rowId" → k ≠ "assessmentType" →
      normalizeHeader k = k :=
    fun k hk h1 h2 => goodKey_fixed (hgood k hk) h1 h2
  have hknnd : (K.map normalizeHeader).Nodup := by
    refine hnd.map_on ?_
    intro x hx y hy hxy
    have hxcase : normalizeHeader x = x ∨ x = "rowId"
        ∨ x = "assessmentType" := by
      by_cases hx1 : x = "rowId"
      · exact Or.inr (Or.inl hx1)
      by_cases hx2 : x = "assessmentType"
      · exact Or.inr (Or.inr hx2)
      · exact Or.inl (hfix x hx hx1 hx2)
    have hycase : normalizeHeader y = y ∨ y = "rowId"
        ∨ y = "assessmentType" := by
      by_cases hy1 : y = "rowId"
      · exact Or.inr (Or.inl hy1)
      by_cases hy2 : y = "assessmentType"
      · exact Or.inr (Or.inr hy2)
      · exact Or.inl (hfix y hy hy1 hy2)
    rcases hxcase with hxc | hxc | hxc <;> rcases hycase with hyc | hyc | hyc
    · rw [← hxc, ← hyc, hxy]
    · subst hyc
      rw [normalizeHeader_rowId] at hxy
      rw [hxc] at hxy
      exact absurd (hxy ▸ hx) hrowid
    · subst hyc
      rw [normalizeHeader_aT] at hxy
      rw [hxc] at hxy
      exact absurd (hxy ▸ hx) hassess
    · subst hxc
      rw [normalizeHeader_rowId] at hxy
      rw [hyc] at hxy
      exact absurd (hxy ▸ hy) hrowid
    · rw [hxc, hyc]
    · subst hxc
      subst hyc
      rw [normalizeHeader_rowId, normalizeHeader_aT] at hxy
      exact absurd hxy (by decide)
    · subst hxc
      rw [normalizeHeader_aT] at hxy
      rw [hyc] at hxy
      exact absurd (hxy ▸ hy) hassess
    · subst hxc
      subst hyc
      rw [normalizeHeader_rowId, normalizeHeader_aT] at hxy
      exact absurd hxy.symm (by decide)
    · rw [hxc, hyc]
  have hk0 : keysOf r0 = K := (hclean r0 (List.mem_cons_self _ _)).1
  have hsidK : "studentId" ∈ K := by
    obtain ⟨v, hv, -, -⟩ := (hclean r0 (List.mem_cons_self _ _)).2.2.1
      "studentId" (by simp)
    rw [← hk0]
    exact mem_of_getF_eq_some hv
  have hmarksK : "marks" ∈ K := by
    obtain ⟨mq, hv, -, -⟩ := (hclean r0 (List.mem_cons_self _ _)).2.2.2.1
    rw [← hk0]
    exact mem_of_getF_eq_some hv
  obtain ⟨x, y, t, hKshape⟩ := two_mem_shape hsidK hmarksK (by decide)
  have hKne : K ≠ [] := by rw [hKshape]; simp
  have hdl : downloadCSVString (r0 :: rest)
      = joinWith "\n" (joinWith "," K ::
          (r0 :: rest).map (fun r => joinWith "," (K.map (serializeCell r)))) := by
    rw [downloadCSVString, show (r0.map Prod.fst) = K from hk0]
  have hlines_nl : ∀ l ∈ (joinWith "," K ::
      (r0 :: rest).map (fun r => joinWith "," (K.map (serializeCell r)))),
      '\n' ∉ l.data := by
    intro l hl
    rcases List.mem_cons.mp hl with h | h
    · rw [h]
      exact headerLine_no_newline K hgood
    · rw [List.mem_map] at h
      obtain ⟨r, hr, he⟩ := h
      rw [← he]
      exact dataLine_no_newline K r (hclean r hr).2.1
  have hlines_nb : ∀ l ∈ (joinWith "," K ::
      (r0 :: rest).map (fun r => joinWith "," (K.map (serializeCell r)))),
      jsTrim l.data ≠ [] := by
    intro l hl
    rcases List.mem_cons.mp hl with h | h
    · rw [h, hKshape]
      exact jsTrim_ne_nil_of_mem (joinWith_comma_mem x y t) (by decide)
    · rw [List.mem_map] at h
      obtain ⟨r, hr, he⟩ := h
      rw [← he, hKshape, List.map_cons, List.map_cons]
      exact jsTrim_ne_nil_of_mem (joinWith_comma_mem _ _ _) (by decide)
  have hcsvl : csvLines (downloadCSVString (r0 :: rest))
      = joinWith "," K ::
          (r0 :: rest).map (fun r => joinWith "," (K.map (serializeCell r))) := by
    rw [hdl]
    exact csvLines_join _ _ hlines_nl hlines_nb
  have hheader : parseCSVLine (joinWith "," K) = K := by
    rw [hKshape]
    refine tokenize_raw_list (y :: t) x ?_
    intro s hs c hc
    have hspec := goodKeyChar_spec
      ((hgood s (by rw [hKshape]; exact hs)).1 c hc)
    exact ⟨hspec.2.1, hspec.1, hspec.2.2⟩
  obtain ⟨L2, hpr, hlen, hcorr⟩ := parseRows_roundtrip now2 K hknnd hKne hfix
    (r0 :: rest) 2 hclean hquote
  refine ⟨L2, ?_, hlen, hcorr⟩
  unfold parseCSV
  rw [hcsvl]
  split
  · next heq => exact absurd heq (by simp)
  · next hd heq =>
      rw [List.map_cons] at heq
      simp at heq
  · next x0 hl dls hx heq =>
      injection heq with he1 he2
      subst he1
      subst he2
      rw [hheader, hpr, if_neg (by simp)]

theorem getF_val_mem {r : Row} {k : String} {v : JSVal}
    (h : getF r k = some v) : v ∈ r.map Prod.snd := by
  induction r with
  | nil => exact absurd h (by simp [getF])
  | cons hd tl ih =>
      obtain ⟨a, b⟩ := hd
      by_cases h1 : a = k
      · rw [getF, if_pos h1] at h
        injection h with h2
        rw [List.map_cons, ← h2]
        exact List.mem_cons_self _ _
      · rw [getF, if_neg h1] at h
        exact List.mem_cons_of_mem _ (ih h)

/-- C4 (amended): for every record set accepted by parseCSV whose column
keys are good (their characters re-tokenize exactly and, apart from the two
lossy keys assessmentType and rowId, they are fixed points of header
normalization), whose key set avoids the two lossy normalized names rowid
and assessmenttype, and whose stored string values neither start nor end
with a double quote, re-serializing with downloadCSV and re-parsing
succeeds with no row errors and yields equally many records whose fields
are equal to the originals up to the parser's value coercion (a numeric
string comes back as the number and an empty string as null), excluding
the synthetic rowId and the case-lossy assessmentType field.  As stated
the claim is false: the defaulted semester string "1" comes back as the
number 1 (C4_roundtrip_counterexample). -/
theorem C4_roundtrip_amended (now now2 : ℕ) (csv : String)
    (L : List Row) (errs : List String) (r0 : Row) (rest : List Row)
    (hp : parseCSV now csv = .ok (L, errs))
    (hL : L = r0 :: rest)
    (hgood : ∀ k ∈ keysOf r0, GoodKey k)
    (hrowid : "rowid" ∉ keysOf r0)
    (hassess : "assessmenttype" ∉ keysOf r0)
    (hquote : ∀ r ∈ L, ∀ k v, getF r k = some v → QuoteEdgeFree v) :
    ∃ L2 : List Row,
      parseCSV now2 (downloadCSVString L) = .ok (L2, []) ∧
      L2.length = L.length ∧
      ∀ (j : ℕ) (hj : j < L.length) (hj2 : j < L2.length),
        ∀ k ∈ keysOf r0, k ≠ "rowId" → k ≠ "assessmentType" →
          getF (L2.get ⟨j, hj2⟩) k = (getF (L.get ⟨j, hj⟩) k).map reCoerce := by
  obtain ⟨K, hnd, hclean⟩ := parseCSV_clean now csv L errs hp
  subst hL
  have hkeq : keysOf r0 = K := (hclean r0 (List.mem_cons_self _ _)).1
  rw [hkeq] at hgood hrowid hassess ⊢
  exact roundtrip_core now2 K (r0 :: rest) hnd (by simp) hclean hquote
    hgood hrowid hassess

/-- Witness instantiating the amended round-trip theorem on the CSV
"id,name,marks; S1,Alice,50" parsed at timestamp 0 and re-parsed at
timestamp 1. -/
theorem C4_roundtrip_amended_witness :
    parseCSV 0 "id,name,marks\nS1,Alice,50" = .ok ([c4row], []) ∧
    (∃ L2 : List Row,
      parseCSV 1 (downloadCSVString [c4row]) = .ok (L2, []) ∧
      L2.length = ([c4row] : List Row).length ∧
      ∀ (j : ℕ) (hj : j < ([c4row] : List Row).length) (hj2 : j < L2.length),
        ∀ k ∈ keysOf c4row, k ≠ "rowId" → k ≠ "assessmentType" →
          getF (L2.get ⟨j, hj2⟩) k
            = (getF (([c4row] : List Row).get ⟨j, hj⟩) k).map reCoerce) := by
  refine ⟨by with_unfolding_all rfl, ?_⟩
  refine C4_roundtrip_amended 0 1 "id,name,marks\nS1,Alice,50" [c4row] []
    c4row [] (by with_unfolding_all rfl) rfl ?_ (by decide) (by decide) ?_
  · intro k hk
    fin_cases hk <;>
      exact ⟨by decide, by with_unfolding_all decide⟩
  · intro r hr k v h
    rw [List.mem_singleton] at hr
    subst hr
    have hm := getF_val_mem h
    fin_cases hm <;> first
      | exact trivial
      | exact ⟨by decide, by decide⟩

end StudentAnalytics
